import Mathlib

/-!
Verification of `src/math/simplex/model_based_opt.cpp`: model-based
optimization and projection for linear real arithmetic.  The data model and
every operation below are translated from that source file.  Rationals are
modelled by `ℚ`; the growable vectors (`m_rows`, `m_var2value`,
`m_var2row_ids`) are modelled by lists indexed by position, with reads out of
range returning the default element exactly as a fresh slot would.
-/

namespace opt

/-- Modelled from the spec: the header `model_based_opt.h` is not under
`src/`; the spec states that row 0 is reserved as the objective row, so
`m_objective_id = 0`. -/
def objective_id : Nat := 0

/-- Source `var`: a variable id together with a non-zero coefficient. -/
structure LinVar where
  id : Nat
  coeff : ℚ
deriving DecidableEq, Repr, Inhabited

/-- Source `ineq_type`: the relation of a row. -/
inductive IneqType where
  | t_eq
  | t_lt
  | t_le
deriving DecidableEq, Repr

/-- Source `row`: sparse variable list, constant, relation, cached value and
liveness flag. -/
structure Row where
  vars : List LinVar
  coeff : ℚ
  type : IneqType
  value : ℚ
  alive : Bool
deriving DecidableEq, Repr

/-- Modelled from the spec: the header's default `row` constructor is not
under `src/`; a freshly constructed row is empty, non-strict and dead until
`set_row` initializes it. -/
instance : Inhabited Row := ⟨⟨[], 0, IneqType.t_le, 0, false⟩⟩

/-- The tableau state: `m_rows`, `m_var2value`, `m_var2row_ids`. -/
structure MBO where
  rows : List Row
  var2value : List ℚ
  var2row_ids : List (List Nat)
deriving Repr, DecidableEq

def getRow (s : MBO) (i : Nat) : Row := s.rows.getD i default

def setRow (s : MBO) (i : Nat) (r : Row) : MBO := { s with rows := s.rows.set i r }

def valueOf (s : MBO) (v : Nat) : ℚ := s.var2value.getD v 0

def rowIdsOf (s : MBO) (v : Nat) : List Nat := s.var2row_ids.getD v []

/-- Sum of `coeff * value` over a sparse variable list. -/
def rowSum (vals : List ℚ) : List LinVar → ℚ
  | [] => 0
  | v :: t => v.coeff * vals.getD v.id 0 + rowSum vals t

/-- Source `get_row_value`: constant plus the dot product with the model. -/
def get_row_value (s : MBO) (r : Row) : ℚ := r.coeff + rowSum s.var2value r.vars

/-- Reference lookup of a coefficient in a sparse list (first match). -/
def coeffLookup : List LinVar → Nat → ℚ
  | [], _ => 0
  | v :: t, x => if v.id = x then v.coeff else coeffLookup t x

/-- The binary-search loop of source `get_coefficient`.  The loop runs at
most `hi - lo` times; it is modelled with a structural fuel argument that
every caller instantiates with a sufficient value. -/
def bsearchLo (vars : List LinVar) (x : Nat) : Nat → Nat → Nat → Nat
  | 0, lo, _ => lo
  | fuel + 1, lo, hi =>
    if lo < hi then
      let mid := lo + (hi - lo) / 2
      let id := (vars.getD mid default).id
      if id = x then mid
      else if id < x then bsearchLo vars x fuel (mid + 1) hi
      else bsearchLo vars x fuel lo mid
    else lo

/-- Source `get_coefficient`: binary search over the sorted variable list,
returning zero when the variable is absent. -/
def get_coefficient (r : Row) (x : Nat) : ℚ :=
  if r.vars.isEmpty then 0
  else
    let lo := bsearchLo r.vars x r.vars.length 0 r.vars.length
    if h : lo < r.vars.length then
      let v := r.vars.get ⟨lo, h⟩
      if v.id = x then v.coeff else 0
    else 0

/-- The sorted-merge loop of source `mul_add`: merges `r1.vars` with
`c * r2.vars`, dropping entries whose summed coefficient is zero.  The second
component collects the ids newly introduced from `r2` (those pushed to the
variable index by the source loop).  The merge performs at most `l1.length + l2.length` steps; it is modelled
with a structural fuel argument that every caller instantiates with exactly
that value. -/
def mulAddVars (c : ℚ) : Nat → List LinVar → List LinVar → List LinVar × List Nat
  | 0, l1, _ => (l1, [])
  | _ + 1, l1, [] => (l1, [])
  | fuel + 1, [], v2 :: t2 =>
    let p := mulAddVars c fuel [] t2
    (⟨v2.id, v2.coeff * c⟩ :: p.1, v2.id :: p.2)
  | fuel + 1, v1 :: t1, v2 :: t2 =>
    if v1.id = v2.id then
      let p := mulAddVars c fuel t1 t2
      let sum := v1.coeff + c * v2.coeff
      if sum = 0 then p else (⟨v1.id, sum⟩ :: p.1, p.2)
    else if v1.id < v2.id then
      let p := mulAddVars c fuel t1 (v2 :: t2)
      (v1 :: p.1, p.2)
    else
      let p := mulAddVars c fuel (v1 :: t1) t2
      (⟨v2.id, v2.coeff * c⟩ :: p.1, v2.id :: p.2)

def pushRowId (s : MBO) (v : Nat) (rid : Nat) : MBO :=
  { s with var2row_ids := s.var2row_ids.set v (s.var2row_ids.getD v [] ++ [rid]) }

def pushRowIds (s : MBO) (vs : List Nat) (rid : Nat) : MBO :=
  vs.foldl (fun s v => pushRowId s v rid) s

/-- The relation-strengthening rule of source `mul_add`. -/
def combineType (same_sign : Bool) (t1 t2 : IneqType) : IneqType :=
  if same_sign = false ∧ t2 = IneqType.t_lt then IneqType.t_lt
  else if same_sign = true ∧ t1 = IneqType.t_lt ∧ t2 = IneqType.t_lt then IneqType.t_le
  else t1

/-- The effect of source `mul_add` on the destination row (`row1 += c *
row2`): merged variable list, combined constant and cached value, and the
strengthened relation. -/
def combineRow (same_sign : Bool) (r1 : Row) (c : ℚ) (r2 : Row) : Row :=
  { vars := (mulAddVars c (r1.vars.length + r2.vars.length) r1.vars r2.vars).1,
    coeff := r1.coeff + c * r2.coeff,
    type := combineType same_sign r1.type r2.type, value := r1.value + c * r2.value,
    alive := r1.alive }

/-- Source `mul_add`: `row1 += c * row2`, with the relation-strengthening
rules and the variable-index updates (skipped when the destination is the
objective row).  No-op when `c` is zero. -/
def mul_add (same_sign : Bool) (row_id1 : Nat) (c : ℚ) (row_id2 : Nat) (s : MBO) : MBO :=
  if c = 0 then s
  else
    let r1 := getRow s row_id1
    let r2 := getRow s row_id2
    let s1 := setRow s row_id1 (combineRow same_sign r1 c r2)
    if row_id1 = objective_id then s1
    else pushRowIds s1 (mulAddVars c (r1.vars.length + r2.vars.length) r1.vars r2.vars).2
      row_id1

/-- Source `resolve`: cancel `x`'s contribution in `row_dst` using `row_src`
(no-op when the destination is dead). -/
def resolve (row_src : Nat) (a1 : ℚ) (row_dst : Nat) (x : Nat) (s : MBO) : MBO :=
  if (getRow s row_dst).alive then
    let a2 := get_coefficient (getRow s row_dst) x
    mul_add (decide (row_dst ≠ objective_id ∧ ((0 < a1) ↔ (0 < a2)))) row_dst (-a2 / a1)
      row_src s
  else s

/-- The scan loop of source `find_bound`: deduplicated walk over the rows
referencing `x`, classifying each live row with non-zero coefficient as the
current tightest bound, a further candidate (`m_above`), or a row on the
wrong side (`m_below`).  The running bound carries (row id, bound value,
coefficient). -/
def find_bound_loop (s : MBO) (x : Nat) (x_val : ℚ) (is_pos : Bool) :
    List Nat → List Nat → Option (Nat × ℚ × ℚ) → List Nat → List Nat →
      Option (Nat × ℚ × ℚ) × List Nat × List Nat
  | [], _, bound, above, below => (bound, above, below)
  | rid :: rest, visited, bound, above, below =>
    if rid ∈ visited then find_bound_loop s x x_val is_pos rest visited bound above below
    else
      let visited := rid :: visited
      let r := getRow s rid
      if r.alive then
        let a := get_coefficient r x
        if a = 0 then find_bound_loop s x x_val is_pos rest visited bound above below
        else if decide (0 < a) = is_pos ∨ r.type = IneqType.t_eq then
          let value := x_val - r.value / a
          match bound with
          | none => find_bound_loop s x x_val is_pos rest visited (some (rid, value, a)) above below
          | some b =>
            if (value = b.2.1 ∧ r.type = IneqType.t_lt) ∨ (is_pos = true ∧ value < b.2.1) ∨
                (is_pos = false ∧ b.2.1 < value) then
              find_bound_loop s x x_val is_pos rest visited (some (rid, value, a))
                (above ++ [b.1]) below
            else find_bound_loop s x x_val is_pos rest visited bound (above ++ [rid]) below
        else find_bound_loop s x x_val is_pos rest visited bound above (below ++ [rid])
      else find_bound_loop s x x_val is_pos rest visited bound above below

/-- Source `find_bound`. -/
def find_bound (x : Nat) (is_pos : Bool) (s : MBO) :
    Option (Nat × ℚ × ℚ) × List Nat × List Nat :=
  find_bound_loop s x (valueOf s x) is_pos (rowIdsOf s x) [] none [] []

/-- The per-row scan of source `update_values`: accumulates the row's
residual (constant plus contributions of variables other than `x`) and
records `x`'s coefficient. -/
def uv_fold (vals : List ℚ) (coeff : ℚ) (x : Nat) (l : List LinVar) : ℚ × ℚ :=
  l.foldl
    (fun acc v => if x = v.id then (acc.1, v.coeff) else (acc.1 + vals.getD v.id 0 * v.coeff, acc.2))
    (coeff, 0)

/-- One entry of the first loop of source `update_values`: recompute `x`'s
value from its bound row, perturbing by `eps` when the row is strict, then
refresh the row's cached value. -/
def uv_step (s : MBO) (x : Nat) (rid : Nat) : MBO :=
  let r := getRow s rid
  let p := uv_fold s.var2value r.coeff x r.vars
  let val := p.1
  let x_coeff := p.2
  let old_x_val := valueOf s x
  let new0 := -val / x_coeff
  let new_x_val :=
    if r.type = IneqType.t_lt then
      let eps := min 1 (|old_x_val - new0| / 2)
      if 0 < x_coeff then new0 - eps else new0 + eps
    else new0
  let s1 : MBO := { s with var2value := s.var2value.set x new_x_val }
  setRow s1 rid { r with value := get_row_value s1 r }

def uv_recompute_row (s : MBO) (rid : Nat) : MBO :=
  setRow s rid { getRow s rid with value := get_row_value s (getRow s rid) }

/-- Source `update_values`: walk the bound trail in reverse, back-substituting
each eliminated variable, then recompute the cached value of every row
referencing a trail variable. -/
def update_values (bound_vars bound_trail : List Nat) (s : MBO) : MBO :=
  let pairs := (bound_vars.zip bound_trail).reverse
  let s1 := pairs.foldl (fun s p => uv_step s p.1 p.2) s
  pairs.foldl (fun s p => (rowIdsOf s p.1).foldl uv_recompute_row s) s1

/-- Result type of `maximize`: either unbounded, or a rational value paired
with an infinitesimal coefficient (source `inf_eps`). -/
inductive InfEps where
  | infinity : InfEps
  | finite (value : ℚ) (eps : ℚ) : InfEps
deriving DecidableEq, Repr

/-- One iteration of the main loop of source `maximize`, for the objective
variable `x` with coefficient `coeff`: find a bound row, resolve it against
`m_above` and `m_below`, fold it into the objective and mark it dead.
Returns `none` when no bound exists (the unbounded case). -/
def maximize_step (s : MBO) (x : Nat) (coeff : ℚ) : Option (MBO × Nat) :=
  match find_bound x (decide (0 < coeff)) s with
  | (some b, above, below) =>
    let bri := b.1
    let bc := b.2.2
    let s1 := above.foldl (fun s rid => resolve bri bc rid x s) s
    let s2 := below.foldl (fun s rid => resolve bri bc rid x s) s1
    let s3 := mul_add false objective_id (-coeff / bc) bri s2
    let s4 := setRow s3 bri { getRow s3 bri with alive := false }
    some (s4, bri)
  | (none, _, _) => none

/-- The main loop of source `maximize`, with explicit fuel (the source loop
terminates because every successful iteration kills a live row). -/
def maximize_loop : Nat → MBO → List Nat → List Nat → Option (InfEps × MBO)
  | 0, _, _, _ => none
  | Nat.succ fuel, s, bound_vars, bound_trail =>
    match (getRow s objective_id).vars.getLast? with
    | none =>
      let s1 := update_values bound_vars bound_trail s
      let value := (getRow s1 objective_id).value
      if (getRow s1 objective_id).type = IneqType.t_lt then some (InfEps.finite value (-1), s1)
      else some (InfEps.finite value 0, s1)
    | some v =>
      match maximize_step s v.id v.coeff with
      | some (s4, bri) =>
        maximize_loop fuel s4 (bound_vars ++ [v.id]) (bound_trail ++ [bri])
      | none =>
        let s1 := update_values bound_vars bound_trail s
        some (InfEps.infinity, s1)

/-- Source `maximize`. -/
def maximize (fuel : Nat) (s : MBO) : Option (InfEps × MBO) := maximize_loop fuel s [] []

/-- Source `solve_for`: resolve every not-yet-visited row referencing `x`
against the equality row `row_id1`, then mark it dead. -/
def solve_for (row_id1 : Nat) (x : Nat) (s : MBO) : MBO :=
  let a := get_coefficient (getRow s row_id1) x
  let row_ids := rowIdsOf s x
  let p := row_ids.foldl
    (fun acc rid2 =>
      if rid2 ∈ acc.2 then acc else (resolve row_id1 a rid2 x acc.1, rid2 :: acc.2))
    (s, [row_id1])
  setRow p.1 row_id1 { getRow p.1 row_id1 with alive := false }

/-- Outcome of the selection scan of source `project`: either an equality row
was encountered (diverting to `solve_for`), or the scan finished with the
`lub`/`glb` candidate lists and representatives. -/
inductive ScanResult where
  | eqRow (rid : Nat) : ScanResult
  | finished (lubRows glbRows : List Nat) (lubIndex glbIndex : Option Nat) : ScanResult
deriving Repr, DecidableEq

/-- The selection scan of source `project`: deduplicated walk over the rows
referencing `x`, partitioning live rows with non-zero coefficient by sign and
tracking the lub/glb representative with the strict-preferred tie-break. -/
def project_loop (s : MBO) (x : Nat) (x_val : ℚ) :
    List Nat → List Nat → List Nat → List Nat → Option Nat → Option Nat → Bool → Bool →
      ℚ → ℚ → ScanResult
  | [], _, lubRows, glbRows, lubIndex, glbIndex, _, _, _, _ =>
    ScanResult.finished lubRows glbRows lubIndex glbIndex
  | rid :: rest, visited, lubRows, glbRows, lubIndex, glbIndex, lubStrict, glbStrict,
      lubVal, glbVal =>
    if rid ∈ visited then
      project_loop s x x_val rest visited lubRows glbRows lubIndex glbIndex lubStrict
        glbStrict lubVal glbVal
    else
      let visited := rid :: visited
      let r := getRow s rid
      if r.alive = false then
        project_loop s x x_val rest visited lubRows glbRows lubIndex glbIndex lubStrict
          glbStrict lubVal glbVal
      else
        let a := get_coefficient r x
        if a = 0 then
          project_loop s x x_val rest visited lubRows glbRows lubIndex glbIndex lubStrict
            glbStrict lubVal glbVal
        else if r.type = IneqType.t_eq then ScanResult.eqRow rid
        else if 0 < a then
          let lub_value := x_val - r.value / a
          if lubRows = [] ∨ lub_value < lubVal ∨
              (lub_value = lubVal ∧ r.type = IneqType.t_lt ∧ lubStrict = false) then
            project_loop s x x_val rest visited (lubRows ++ [rid]) glbRows (some rid)
              glbIndex (decide (r.type = IneqType.t_lt)) glbStrict lub_value glbVal
          else
            project_loop s x x_val rest visited (lubRows ++ [rid]) glbRows lubIndex
              glbIndex lubStrict glbStrict lubVal glbVal
        else
          let glb_value := x_val - r.value / a
          if glbRows = [] ∨ glbVal < glb_value ∨
              (glb_value = glbVal ∧ r.type = IneqType.t_lt ∧ glbStrict = false) then
            project_loop s x x_val rest visited lubRows (glbRows ++ [rid]) lubIndex
              (some rid) lubStrict (decide (r.type = IneqType.t_lt)) lubVal glb_value
          else
            project_loop s x x_val rest visited lubRows (glbRows ++ [rid]) lubIndex
              glbIndex lubStrict glbStrict lubVal glbVal

/-- Source `project`: model-guided elimination of `x` from the live rows. -/
def project (x : Nat) (s : MBO) : MBO :=
  match project_loop s x (valueOf s x) (rowIdsOf s x) [] [] [] none none false false 0 0 with
  | ScanResult.eqRow rid => solve_for rid x s
  | ScanResult.finished lubRows glbRows lubIndex glbIndex =>
    let row_index := if lubRows.length ≤ glbRows.length then lubIndex else glbIndex
    let allRows := glbRows ++ lubRows
    match row_index with
    | none =>
      allRows.foldl (fun s rid => setRow s rid { getRow s rid with alive := false }) s
    | some ri =>
      let coeff := get_coefficient (getRow s ri) x
      let s1 := allRows.foldl
        (fun s rid => if rid = ri then s else resolve ri coeff rid x s) s
      setRow s1 ri { getRow s1 ri with alive := false }

/-- Source `add_var`. -/
def add_var (value : ℚ) (s : MBO) : MBO × Nat :=
  ({ s with var2value := s.var2value ++ [value], var2row_ids := s.var2row_ids ++ [[]] },
    s.var2value.length)

/-- Insertion into a list sorted by id (used to model the `std::sort` call
of source `set_row`). -/
def insertVar (v : LinVar) : List LinVar → List LinVar
  | [] => [v]
  | w :: t => if v.id ≤ w.id then v :: w :: t else w :: insertVar v t

/-- Sorting by variable id (source `set_row` uses `std::sort` with
`var::compare`; on the duplicate-free inputs of the contract any comparison
sort computes this function). -/
def sortVars : List LinVar → List LinVar
  | [] => []
  | v :: t => insertVar v (sortVars t)

/-- Source `set_row`: populate a row from a coefficient list (sorted by id)
and a constant, computing the cached value from the current model. -/
def set_row (row_id : Nat) (coeffs : List LinVar) (c : ℚ) (rel : IneqType) (s : MBO) : MBO :=
  let r := getRow s row_id
  let sortedVars := sortVars (r.vars ++ coeffs)
  let val := coeffs.foldl (fun acc v => acc + valueOf s v.id * v.coeff) c
  setRow s row_id { vars := sortedVars, coeff := c, type := rel, value := val, alive := true }

/-- Source `add_constraint`: append a fresh live row and index its
variables. -/
def add_constraint (coeffs : List LinVar) (c : ℚ) (rel : IneqType) (s : MBO) : MBO :=
  let row_id := s.rows.length
  let s1 : MBO := { s with rows := s.rows ++ [default] }
  let s2 := set_row row_id coeffs c rel s1
  coeffs.foldl (fun s v => pushRowId s v.id row_id) s2

/-- Source `set_objective`: (re)populate row 0 as a non-strict row. -/
def set_objective (coeffs : List LinVar) (c : ℚ) (s : MBO) : MBO :=
  set_row objective_id coeffs c IneqType.t_le s

/-- The freshly constructed tableau: one (dead, empty) objective row. -/
def mbo_init : MBO := { rows := [default], var2value := [], var2row_ids := [] }

/-! ### Invariant predicates (from source `model_based_opt::invariant`) -/

/-- Variables in a row are strictly sorted by id. -/
def SortedVars (l : List LinVar) : Prop := l.Pairwise (fun a b => a.id < b.id)

instance : DecidablePred SortedVars := fun l => by
  unfold SortedVars
  infer_instance

/-- No stored coefficient is zero. -/
def NonzeroVars (l : List LinVar) : Prop := ∀ e ∈ l, e.coeff ≠ 0

instance : DecidablePred NonzeroVars := fun l => by
  unfold NonzeroVars
  infer_instance

def RowOk (r : Row) : Prop := SortedVars r.vars ∧ NonzeroVars r.vars

/-- Structural part of the row invariant, for every row of the tableau. -/
def RowsOk (s : MBO) : Prop := ∀ rid, RowOk (getRow s rid)

/-- The cached-value part of the row invariant, for every row: `m_value`
equals the constant plus the dot product of coefficients and model values. -/
def ValsOk (s : MBO) : Prop := ∀ rid, (getRow s rid).value = get_row_value s (getRow s rid)

/-- Every non-objective row is recorded in the index of each variable it
references (maintained by `add_constraint` and `mul_add`). -/
def Complete (s : MBO) : Prop :=
  ∀ rid, rid ≠ objective_id → ∀ e ∈ (getRow s rid).vars, rid ∈ rowIdsOf s e.id

/-- The objective row is never entered into the variable index. -/
def NoObjIdx (s : MBO) : Prop := ∀ v, objective_id ∉ rowIdsOf s v

/-- Every referenced variable has an index slot (it was created by
`add_var`). -/
def VarsValid (s : MBO) : Prop :=
  ∀ rid, ∀ e ∈ (getRow s rid).vars, e.id < s.var2row_ids.length

/-- The structural state invariant used throughout. -/
structure Inv (s : MBO) : Prop where
  rowsOk : RowsOk s
  valsOk : ValsOk s
  complete : Complete s
  noObj : NoObjIdx s
  varsValid : VarsValid s
  rowsNe : 0 < s.rows.length

/-- The satisfaction invariant for one non-objective row (source
`invariant(index, r)`): equalities evaluate to zero, strict rows to a
negative value, non-strict rows to a non-positive value. -/
def RowSat (r : Row) : Prop :=
  (r.type = IneqType.t_eq → r.value = 0) ∧
  (r.type = IneqType.t_lt → r.value < 0) ∧
  (r.type = IneqType.t_le → r.value ≤ 0)

/-- Satisfaction of every live non-objective row. -/
def LiveSat (s : MBO) : Prop :=
  ∀ rid, rid ≠ objective_id → (getRow s rid).alive = true → RowSat (getRow s rid)

/-- No live row, nor the objective row, still references `x` (holds for every
variable already eliminated by `maximize`). -/
def CleanVar (s : MBO) (x : Nat) : Prop :=
  ∀ rid, ((getRow s rid).alive = true ∨ rid = objective_id) →
    coeffLookup (getRow s rid).vars x = 0

/-- Invariant of the bound trail built by `maximize`: each entry's row is
dead, still contains its variable, sits in that variable's index, and no
later trail row mentions an earlier trail variable. -/
def TrailOk : MBO → List Nat → List Nat → Prop
  | _, [], [] => True
  | s, x :: xs, rid :: rids =>
    (getRow s rid).alive = false ∧
    coeffLookup (getRow s rid).vars x ≠ 0 ∧
    rid ∈ rowIdsOf s x ∧
    (∀ rid2 ∈ rids, coeffLookup (getRow s rid2).vars x = 0) ∧
    TrailOk s xs rids
  | _, _ :: _, [] => False
  | _, [], _ :: _ => False

/-- Count of live rows (the termination measure of `maximize`). -/
def liveCount (s : MBO) : Nat := (s.rows.filter (fun r => r.alive)).length

/-- Bound-candidate predicate of `find_bound`: a live row with non-zero
coefficient on `x` whose sign matches the direction, or an equality row. -/
def isCand (s : MBO) (x : Nat) (is_pos : Bool) (rid : Nat) : Prop :=
  (getRow s rid).alive = true ∧ get_coefficient (getRow s rid) x ≠ 0 ∧
    (decide (0 < get_coefficient (getRow s rid) x) = is_pos ∨
      (getRow s rid).type = IneqType.t_eq)

/-- The bound value a row implies for `x`: `x_val - value / coeff`. -/
def bval (s : MBO) (x : Nat) (rid : Nat) : ℚ :=
  valueOf s x - (getRow s rid).value / get_coefficient (getRow s rid) x

/-- A live equality row with non-zero coefficient on `x` (the rows that
divert `project` to `solve_for`). -/
def eqCand (s : MBO) (x : Nat) (rid : Nat) : Prop :=
  (getRow s rid).alive = true ∧ get_coefficient (getRow s rid) x ≠ 0 ∧
    (getRow s rid).type = IneqType.t_eq

/-- A live row with positive (upper-bound side) coefficient on `x`. -/
def posCand (s : MBO) (x : Nat) (rid : Nat) : Prop :=
  (getRow s rid).alive = true ∧ 0 < get_coefficient (getRow s rid) x ∧
    (getRow s rid).type ≠ IneqType.t_eq

/-- A live row with negative (lower-bound side) coefficient on `x`. -/
def negCand (s : MBO) (x : Nat) (rid : Nat) : Prop :=
  (getRow s rid).alive = true ∧ get_coefficient (getRow s rid) x < 0 ∧
    (getRow s rid).type ≠ IneqType.t_eq

instance : DecidablePred RowOk := fun r => by
  unfold RowOk
  infer_instance

instance : DecidablePred RowSat := fun r => by
  unfold RowSat
  infer_instance

/-- Example tableau used to witness the `mul_add` claim: two live
constraint rows over three variables. -/
def wC8 : MBO :=
  { rows :=
      [default,
       ⟨[⟨0, 1⟩, ⟨1, 2⟩], 3, IneqType.t_le, -6, true⟩,
       ⟨[⟨1, 1⟩, ⟨2, -1⟩], 0, IneqType.t_lt, -1, true⟩],
    var2value := [1, 1, 1],
    var2row_ids := [[1], [1, 2], [2]] }

/-- Full characterization of the `find_bound` scan state over a set `vs` of
visited row ids: the running bound is a candidate realizing the tightest
bound value with the strict-preferred tie-break, `m_above` holds the other
candidates, `m_below` the live wrong-side rows, and every live referencing
row visited so far is classified exactly once. -/
def FBInv (s : MBO) (x : Nat) (ip : Bool) (vs : List Nat)
    (bound : Option (Nat × ℚ × ℚ)) (above below : List Nat) : Prop :=
  (∀ bi lv bc, bound = some (bi, lv, bc) →
    bi ∈ vs ∧ isCand s x ip bi ∧ lv = bval s x bi ∧
    bc = get_coefficient (getRow s bi) x ∧
    (∀ rid ∈ vs, isCand s x ip rid →
      (ip = true → lv ≤ bval s x rid) ∧ (ip = false → bval s x rid ≤ lv)) ∧
    ((getRow s bi).type ≠ IneqType.t_lt →
      ∀ rid ∈ vs, isCand s x ip rid → bval s x rid = lv →
        (getRow s rid).type ≠ IneqType.t_lt)) ∧
  (bound = none → ∀ rid ∈ vs, ¬isCand s x ip rid) ∧
  (∀ rid ∈ above, rid ∈ vs ∧ isCand s x ip rid) ∧
  (∀ rid ∈ below, rid ∈ vs ∧ (getRow s rid).alive = true ∧
    get_coefficient (getRow s rid) x ≠ 0 ∧ ¬isCand s x ip rid) ∧
  (∀ rid ∈ vs, (getRow s rid).alive = true → get_coefficient (getRow s rid) x ≠ 0 →
    ((∃ lv bc, bound = some (rid, lv, bc)) ∨ rid ∈ above ∨ rid ∈ below)) ∧
  (∀ bi lv bc, bound = some (bi, lv, bc) → bi ∉ above ∧ bi ∉ below) ∧
  List.Nodup (above ++ below)

instance (s : MBO) (x : Nat) (ip : Bool) (rid : Nat) : Decidable (isCand s x ip rid) := by
  unfold isCand
  infer_instance

instance (s : MBO) (x : Nat) (rid : Nat) : Decidable (eqCand s x rid) := by
  unfold eqCand
  infer_instance

instance (s : MBO) (x : Nat) (rid : Nat) : Decidable (posCand s x rid) := by
  unfold posCand
  infer_instance

instance (s : MBO) (x : Nat) (rid : Nat) : Decidable (negCand s x rid) := by
  unfold negCand
  infer_instance

/-- Example tableau for the `find_bound` claim: `x - 5 <= 0` and `x - 3 < 0`
at model `x = 0`. -/
def wC6 : MBO :=
  { rows :=
      [default,
       ⟨[⟨0, 1⟩], -5, IneqType.t_le, -5, true⟩,
       ⟨[⟨0, 1⟩], -3, IneqType.t_lt, -3, true⟩],
    var2value := [0],
    var2row_ids := [[1, 2]] }

/-- Characterization of the `project` selection scan state over the visited
set `vs`: `lub`/`glb` hold exactly the visited upper/lower-bound rows
(without duplicates), no visited row is an equality candidate, and each
representative is a member of its list, present exactly when the list is
non-empty. -/
def PLInv (s : MBO) (x : Nat) (vs lub glb : List Nat) (li gi : Option Nat) : Prop :=
  (∀ rid, rid ∈ lub ↔ (rid ∈ vs ∧ posCand s x rid)) ∧
  (∀ rid, rid ∈ glb ↔ (rid ∈ vs ∧ negCand s x rid)) ∧
  (∀ rid ∈ vs, ¬eqCand s x rid) ∧
  List.Nodup lub ∧ List.Nodup glb ∧
  (∀ ri, li = some ri → ri ∈ lub) ∧ (li = none → lub = []) ∧
  (∀ ri, gi = some ri → ri ∈ glb) ∧ (gi = none → glb = [])

/-- The bound a row implies for `x` at model value `xv` (the `lub_value` /
`glb_value` computed by the `project` scan). -/
def pbound (s : MBO) (x : Nat) (xv : ℚ) (rid : Nat) : ℚ :=
  xv - (getRow s rid).value / get_coefficient (getRow s rid) x

/-- Minimality state of the `lub` representative of the `project` scan: the
running value and strictness flag describe the representative, the value is
a lower bound on the implied bound of every collected upper-bound row, and
when the representative is non-strict no collected row ties with a strict
relation. -/
def PMinL (s : MBO) (x : Nat) (xv : ℚ) (lub : List Nat) (li : Option Nat)
    (ls : Bool) (lv : ℚ) : Prop :=
  ∀ ri, li = some ri →
    lv = pbound s x xv ri ∧ ls = decide ((getRow s ri).type = IneqType.t_lt) ∧
    (∀ r ∈ lub, lv ≤ pbound s x xv r) ∧
    (ls = false → ∀ r ∈ lub, pbound s x xv r = lv → (getRow s r).type ≠ IneqType.t_lt)

/-- Maximality state of the `glb` representative of the `project` scan
(mirror image of `PMinL`). -/
def PMinG (s : MBO) (x : Nat) (xv : ℚ) (glb : List Nat) (gi : Option Nat)
    (gs : Bool) (gv : ℚ) : Prop :=
  ∀ ri, gi = some ri →
    gv = pbound s x xv ri ∧ gs = decide ((getRow s ri).type = IneqType.t_lt) ∧
    (∀ r ∈ glb, pbound s x xv r ≤ gv) ∧
    (gs = false → ∀ r ∈ glb, pbound s x xv r = gv → (getRow s r).type ≠ IneqType.t_lt)

/-- Example tableau: objective `x1`, constraint `x1 - x0 <= 0`, all model
values 0, plus a variable `x2` referenced by no row. -/
def wC5 : MBO :=
  { rows :=
      [⟨[⟨1, 1⟩], 0, IneqType.t_le, 0, true⟩,
       ⟨[⟨0, -1⟩, ⟨1, 1⟩], 0, IneqType.t_le, 0, true⟩],
    var2value := [0, 0, 0],
    var2row_ids := [[1], [1], []] }

/-- Example tableau with both an upper-bound and a lower-bound row on `x1`:
`x0 + x1 <= 0` and `-x1 <= 0` at model `(0, 0)`. -/
def wC10 : MBO :=
  { rows :=
      [default,
       ⟨[⟨0, 1⟩, ⟨1, 1⟩], 0, IneqType.t_le, 0, true⟩,
       ⟨[⟨1, -1⟩], 0, IneqType.t_le, 0, true⟩],
    var2value := [0, 0],
    var2row_ids := [[1], [1, 2]] }

/-- Example tableau with an equality row: objective `x0`, rows `x0 - 1 = 0`
and `x0 - 2 < 0` at model `x0 = 1`. -/
def wC7 : MBO :=
  { rows :=
      [⟨[⟨0, 1⟩], 0, IneqType.t_le, 1, true⟩,
       ⟨[⟨0, 1⟩], -1, IneqType.t_eq, 0, true⟩,
       ⟨[⟨0, 1⟩], -2, IneqType.t_lt, -1, true⟩],
    var2value := [1],
    var2row_ids := [[1, 2]] }

/-- Example tableau for `project` with two upper-bound rows (`x0 <= 0`,
`x0 + x1 <= 0`) and three lower-bound rows (`-x0 <= 0`, `-x0 - 1 <= 0`,
`-x0 + x1 <= 0`) on `x0`, at model `(0, 0)`. -/
def wC4 : MBO :=
  { rows :=
      [default,
       ⟨[⟨0, 1⟩], 0, IneqType.t_le, 0, true⟩,
       ⟨[⟨0, 1⟩, ⟨1, 1⟩], 0, IneqType.t_le, 0, true⟩,
       ⟨[⟨0, -1⟩], 0, IneqType.t_le, 0, true⟩,
       ⟨[⟨0, -1⟩], -1, IneqType.t_le, -1, true⟩,
       ⟨[⟨0, -1⟩, ⟨1, 1⟩], 0, IneqType.t_le, 0, true⟩],
    var2value := [0, 0],
    var2row_ids := [[1, 2, 3, 4, 5], [2, 5]] }

/-- The failing input for the `update_values` epsilon claim, built by the
public operations: variables `x0 = 5`, `x1 = 1`, objective `x1 - 2*x0`,
constraints `x1 - x0 < 0` and `1 - x0 <= 0`. -/
def sC9 : MBO :=
  add_constraint [⟨0, -1⟩] 1 IneqType.t_le
    (add_constraint [⟨0, -1⟩, ⟨1, 1⟩] 0 IneqType.t_lt
      (set_objective [⟨0, -2⟩, ⟨1, 1⟩] 0
        ((add_var 1 (add_var 5 mbo_init).1).1)))

/-- Example tableau with an unbounded objective: objective `x0` and no
constraint rows at all. -/
def wC3 : MBO :=
  { rows := [⟨[⟨0, 1⟩], 0, IneqType.t_le, 0, true⟩],
    var2value := [0],
    var2row_ids := [[]] }

/-- A tableau with one variable (value 0) and no constraints: every
invariant holds (there is no live row at all). -/
def wC2pre : MBO := (add_var 0 mbo_init).1

/-! ### Basic list and state lemmas -/

theorem getD_set_self {α : Type} :
    ∀ (l : List α) (i : Nat) (a d : α), i < l.length → (l.set i a).getD i d = a
  | [], i, _, _, h => absurd h (by simp)
  | _ :: _, 0, _, _, _ => rfl
  | _ :: t, i + 1, a, d, h => by
    simpa [List.getD] using getD_set_self t i a d (by simpa using h)

theorem getD_set_ne {α : Type} :
    ∀ (l : List α) (i j : Nat) (a d : α), i ≠ j → (l.set i a).getD j d = l.getD j d
  | [], _, _, _, _, _ => rfl
  | _ :: _, 0, 0, _, _, h => absurd rfl h
  | _ :: _, 0, _ + 1, _, _, _ => rfl
  | _ :: _, _ + 1, 0, _, _, _ => rfl
  | _ :: t, i + 1, j + 1, a, d, h => by
    simpa [List.getD] using getD_set_ne t i j a d (fun hh => h (by omega))

theorem getD_of_le {α : Type} (l : List α) (i : Nat) (d : α) (h : l.length ≤ i) :
    l.getD i d = d := by
  simp [List.getD, List.getElem?_eq_none h]

theorem getRow_setRow_self (s : MBO) (i : Nat) (r : Row) (h : i < s.rows.length) :
    getRow (setRow s i r) i = r :=
  getD_set_self s.rows i r default h

theorem getRow_setRow_ne (s : MBO) (i j : Nat) (r : Row) (h : i ≠ j) :
    getRow (setRow s i r) j = getRow s j :=
  getD_set_ne s.rows i j r default h

theorem setRow_rows_length (s : MBO) (i : Nat) (r : Row) :
    (setRow s i r).rows.length = s.rows.length := by
  simp [setRow]

theorem setRow_var2value (s : MBO) (i : Nat) (r : Row) :
    (setRow s i r).var2value = s.var2value := rfl

theorem setRow_var2row_ids (s : MBO) (i : Nat) (r : Row) :
    (setRow s i r).var2row_ids = s.var2row_ids := rfl

theorem alive_lt_length (s : MBO) (rid : Nat) (h : (getRow s rid).alive = true) :
    rid < s.rows.length := by
  by_contra hn
  have : getRow s rid = default := getD_of_le s.rows rid default (by omega)
  rw [this] at h
  exact Bool.false_ne_true h

theorem pushRowId_rows (s : MBO) (v rid : Nat) : (pushRowId s v rid).rows = s.rows := rfl

theorem pushRowId_var2value (s : MBO) (v rid : Nat) :
    (pushRowId s v rid).var2value = s.var2value := rfl

theorem rowIdsOf_pushRowId_mem (s : MBO) (v rid : Nat) (w rid2 : Nat)
    (h : rid2 ∈ rowIdsOf s w) : rid2 ∈ rowIdsOf (pushRowId s v rid) w := by
  unfold pushRowId rowIdsOf
  rcases eq_or_ne v w with rfl | hne
  · rcases Nat.lt_or_ge v s.var2row_ids.length with hlt | hge
    · rw [getD_set_self _ _ _ _ hlt]
      exact List.mem_append_left _ h
    · rw [List.set_eq_of_length_le hge]
      exact h
  · rw [getD_set_ne _ _ _ _ _ hne]
    exact h

theorem rowIdsOf_pushRowId_self (s : MBO) (v rid : Nat) (h : v < s.var2row_ids.length) :
    rid ∈ rowIdsOf (pushRowId s v rid) v := by
  unfold pushRowId rowIdsOf
  rw [getD_set_self _ _ _ _ h]
  exact List.mem_append_right _ (List.mem_singleton.mpr rfl)

theorem rowIdsOf_pushRowId_sub (s : MBO) (v rid : Nat) (w rid2 : Nat)
    (h : rid2 ∈ rowIdsOf (pushRowId s v rid) w) :
    rid2 ∈ rowIdsOf s w ∨ rid2 = rid := by
  unfold pushRowId rowIdsOf at h
  rcases eq_or_ne v w with rfl | hne
  · rcases Nat.lt_or_ge v s.var2row_ids.length with hlt | hge
    · rw [getD_set_self _ _ _ _ hlt] at h
      rcases List.mem_append.mp h with h | h
      · exact Or.inl h
      · exact Or.inr (List.mem_singleton.mp h)
    · rw [List.set_eq_of_length_le hge] at h
      exact Or.inl h
  · rw [getD_set_ne _ _ _ _ _ hne] at h
    exact Or.inl h

theorem pushRowId_var2row_ids_length (s : MBO) (v rid : Nat) :
    (pushRowId s v rid).var2row_ids.length = s.var2row_ids.length := by
  simp [pushRowId]

theorem pushRowIds_rows (s : MBO) (vs : List Nat) (rid : Nat) :
    (pushRowIds s vs rid).rows = s.rows := by
  induction vs generalizing s with
  | nil => rfl
  | cons v t ih => simpa [pushRowIds, List.foldl_cons] using ih (pushRowId s v rid)

theorem pushRowIds_var2value (s : MBO) (vs : List Nat) (rid : Nat) :
    (pushRowIds s vs rid).var2value = s.var2value := by
  induction vs generalizing s with
  | nil => rfl
  | cons v t ih => simpa [pushRowIds, List.foldl_cons] using ih (pushRowId s v rid)

theorem pushRowIds_var2row_ids_length (s : MBO) (vs : List Nat) (rid : Nat) :
    (pushRowIds s vs rid).var2row_ids.length = s.var2row_ids.length := by
  induction vs generalizing s with
  | nil => rfl
  | cons v t ih =>
    simpa [pushRowIds, List.foldl_cons, pushRowId_var2row_ids_length]
      using ih (pushRowId s v rid)

theorem rowIdsOf_pushRowIds_mem (s : MBO) (vs : List Nat) (rid : Nat) (w rid2 : Nat)
    (h : rid2 ∈ rowIdsOf s w) : rid2 ∈ rowIdsOf (pushRowIds s vs rid) w := by
  induction vs generalizing s with
  | nil => exact h
  | cons v t ih =>
    simpa [pushRowIds, List.foldl_cons]
      using ih (pushRowId s v rid) (rowIdsOf_pushRowId_mem s v rid w rid2 h)

theorem rowIdsOf_pushRowIds_self (s : MBO) (vs : List Nat) (rid : Nat) (v : Nat)
    (hv : v ∈ vs) (hlen : v < s.var2row_ids.length) :
    rid ∈ rowIdsOf (pushRowIds s vs rid) v := by
  induction vs generalizing s with
  | nil => cases hv
  | cons w t ih =>
    rcases List.mem_cons.mp hv with rfl | hv
    · have h1 : rid ∈ rowIdsOf (pushRowId s v rid) v := rowIdsOf_pushRowId_self s v rid hlen
      simpa [pushRowIds, List.foldl_cons]
        using rowIdsOf_pushRowIds_mem (pushRowId s v rid) t rid v rid h1
    · have hlen2 : v < (pushRowId s w rid).var2row_ids.length := by
        rwa [pushRowId_var2row_ids_length]
      simpa [pushRowIds, List.foldl_cons] using ih (pushRowId s w rid) hv hlen2

theorem rowIdsOf_pushRowIds_sub (s : MBO) (vs : List Nat) (rid : Nat) (w rid2 : Nat)
    (h : rid2 ∈ rowIdsOf (pushRowIds s vs rid) w) :
    rid2 ∈ rowIdsOf s w ∨ rid2 = rid := by
  induction vs generalizing s with
  | nil => exact Or.inl h
  | cons v t ih =>
    rw [pushRowIds, List.foldl_cons] at h
    rcases ih (pushRowId s v rid) h with h2 | h2
    · exact rowIdsOf_pushRowId_sub s v rid w rid2 h2
    · exact Or.inr h2

/-! ### Lemmas about the sparse merge `mulAddVars` -/

theorem mulAddVars_nil_right (c : ℚ) (fuel : Nat) (l1 : List LinVar) :
    mulAddVars c (fuel + 1) l1 [] = (l1, []) := by
  cases l1 <;> rfl

theorem mulAddVars_nil_left (c : ℚ) (fuel : Nat) (v2 : LinVar) (t2 : List LinVar) :
    mulAddVars c (fuel + 1) [] (v2 :: t2) =
      (⟨v2.id, v2.coeff * c⟩ :: (mulAddVars c fuel [] t2).1,
        v2.id :: (mulAddVars c fuel [] t2).2) := rfl

theorem mulAddVars_cons_zero (c : ℚ) (fuel : Nat) (v1 v2 : LinVar) (t1 t2 : List LinVar)
    (h : v1.id = v2.id) (hs : v1.coeff + c * v2.coeff = 0) :
    mulAddVars c (fuel + 1) (v1 :: t1) (v2 :: t2) = mulAddVars c fuel t1 t2 := by
  simp [mulAddVars, h, hs]

theorem mulAddVars_cons_sum (c : ℚ) (fuel : Nat) (v1 v2 : LinVar) (t1 t2 : List LinVar)
    (h : v1.id = v2.id) (hs : v1.coeff + c * v2.coeff ≠ 0) :
    mulAddVars c (fuel + 1) (v1 :: t1) (v2 :: t2) =
      (⟨v1.id, v1.coeff + c * v2.coeff⟩ :: (mulAddVars c fuel t1 t2).1,
        (mulAddVars c fuel t1 t2).2) := by
  simp [mulAddVars, h, hs]

theorem mulAddVars_cons_lt (c : ℚ) (fuel : Nat) (v1 v2 : LinVar) (t1 t2 : List LinVar)
    (h : v1.id < v2.id) :
    mulAddVars c (fuel + 1) (v1 :: t1) (v2 :: t2) =
      (v1 :: (mulAddVars c fuel t1 (v2 :: t2)).1, (mulAddVars c fuel t1 (v2 :: t2)).2) := by
  simp [mulAddVars, Nat.ne_of_lt h, h]

theorem mulAddVars_cons_gt (c : ℚ) (fuel : Nat) (v1 v2 : LinVar) (t1 t2 : List LinVar)
    (h : v1.id ≠ v2.id) (h2 : ¬v1.id < v2.id) :
    mulAddVars c (fuel + 1) (v1 :: t1) (v2 :: t2) =
      (⟨v2.id, v2.coeff * c⟩ :: (mulAddVars c fuel (v1 :: t1) t2).1,
        v2.id :: (mulAddVars c fuel (v1 :: t1) t2).2) := by
  simp [mulAddVars, h, h2]

theorem coeffLookup_eq_zero (l : List LinVar) (x : Nat) (h : ∀ e ∈ l, e.id ≠ x) :
    coeffLookup l x = 0 := by
  induction l with
  | nil => rfl
  | cons v t ih =>
    have hv : v.id ≠ x := h v (List.mem_cons_self v t)
    simp only [coeffLookup, if_neg hv]
    exact ih (fun e he => h e (List.mem_cons_of_mem v he))

theorem coeffLookup_cons (v : LinVar) (t : List LinVar) (x : Nat) :
    coeffLookup (v :: t) x = if v.id = x then v.coeff else coeffLookup t x := rfl

theorem sortedVars_head (v : LinVar) (t : List LinVar) (h : SortedVars (v :: t)) :
    ∀ e ∈ t, v.id < e.id :=
  (List.pairwise_cons.mp h).1

theorem sortedVars_tail (v : LinVar) (t : List LinVar) (h : SortedVars (v :: t)) :
    SortedVars t :=
  (List.pairwise_cons.mp h).2

theorem mulAddVars_mem_ids (c : ℚ) :
    ∀ (fuel : Nat) (l1 l2 : List LinVar), l1.length + l2.length ≤ fuel →
      ∀ e ∈ (mulAddVars c fuel l1 l2).1,
        (∃ u ∈ l1, u.id = e.id) ∨ ∃ u ∈ l2, u.id = e.id := by
  intro fuel
  induction fuel with
  | zero =>
    intro l1 l2 _ e he
    exact Or.inl ⟨e, he, rfl⟩
  | succ fuel ih =>
    intro l1 l2 hf e he
    cases l2 with
    | nil =>
      rw [mulAddVars_nil_right] at he
      exact Or.inl ⟨e, he, rfl⟩
    | cons v2 t2 =>
      cases l1 with
      | nil =>
        rw [mulAddVars_nil_left] at he
        rcases List.mem_cons.mp he with rfl | he
        · exact Or.inr ⟨v2, List.mem_cons_self _ _, rfl⟩
        · rcases ih [] t2 (by simp only [List.length_nil, List.length_cons] at hf ⊢; omega)
              e he with ⟨u, hu, _⟩ | ⟨u, hu, hue⟩
          · cases hu
          · exact Or.inr ⟨u, List.mem_cons_of_mem _ hu, hue⟩
      | cons v1 t1 =>
        have hfa : t1.length + t2.length ≤ fuel := by
          simp only [List.length_cons] at hf
          omega
        have hfb : t1.length + (v2 :: t2).length ≤ fuel := by
          simp only [List.length_cons] at hf ⊢
          omega
        have hfc : (v1 :: t1).length + t2.length ≤ fuel := by
          simp only [List.length_cons] at hf ⊢
          omega
        by_cases h : v1.id = v2.id
        · by_cases hs : v1.coeff + c * v2.coeff = 0
          · rw [mulAddVars_cons_zero c fuel v1 v2 t1 t2 h hs] at he
            rcases ih t1 t2 hfa e he with ⟨u, hu, hue⟩ | ⟨u, hu, hue⟩
            · exact Or.inl ⟨u, List.mem_cons_of_mem _ hu, hue⟩
            · exact Or.inr ⟨u, List.mem_cons_of_mem _ hu, hue⟩
          · rw [mulAddVars_cons_sum c fuel v1 v2 t1 t2 h hs] at he
            rcases List.mem_cons.mp he with rfl | he
            · exact Or.inl ⟨v1, List.mem_cons_self _ _, rfl⟩
            · rcases ih t1 t2 hfa e he with ⟨u, hu, hue⟩ | ⟨u, hu, hue⟩
              · exact Or.inl ⟨u, List.mem_cons_of_mem _ hu, hue⟩
              · exact Or.inr ⟨u, List.mem_cons_of_mem _ hu, hue⟩
        · by_cases hlt : v1.id < v2.id
          · rw [mulAddVars_cons_lt c fuel v1 v2 t1 t2 hlt] at he
            rcases List.mem_cons.mp he with rfl | he
            · exact Or.inl ⟨_, List.mem_cons_self _ _, rfl⟩
            · rcases ih t1 (v2 :: t2) hfb e he with ⟨u, hu, hue⟩ | ⟨u, hu, hue⟩
              · exact Or.inl ⟨u, List.mem_cons_of_mem _ hu, hue⟩
              · exact Or.inr ⟨u, hu, hue⟩
          · rw [mulAddVars_cons_gt c fuel v1 v2 t1 t2 h hlt] at he
            rcases List.mem_cons.mp he with rfl | he
            · exact Or.inr ⟨v2, List.mem_cons_self _ _, rfl⟩
            · rcases ih (v1 :: t1) t2 hfc e he with ⟨u, hu, hue⟩ | ⟨u, hu, hue⟩
              · exact Or.inl ⟨u, hu, hue⟩
              · exact Or.inr ⟨u, List.mem_cons_of_mem _ hu, hue⟩

theorem mulAddVars_sorted (c : ℚ) :
    ∀ (fuel : Nat) (l1 l2 : List LinVar), l1.length + l2.length ≤ fuel →
      SortedVars l1 → SortedVars l2 → SortedVars (mulAddVars c fuel l1 l2).1 := by
  intro fuel
  induction fuel with
  | zero =>
    intro l1 l2 _ h1 _
    exact h1
  | succ fuel ih =>
    intro l1 l2 hf h1 h2
    cases l2 with
    | nil =>
      rw [mulAddVars_nil_right]
      exact h1
    | cons v2 t2 =>
      cases l1 with
      | nil =>
        rw [mulAddVars_nil_left]
        have hfz : List.length ([] : List LinVar) + t2.length ≤ fuel := by
          simp only [List.length_nil, List.length_cons] at hf ⊢
          omega
        refine List.pairwise_cons.mpr ⟨?_, ih [] t2 hfz h1 (sortedVars_tail _ _ h2)⟩
        intro e he
        rcases mulAddVars_mem_ids c fuel [] t2 hfz e he with ⟨u, hu, _⟩ | ⟨u, hu, hue⟩
        · cases hu
        · exact hue ▸ sortedVars_head _ _ h2 u hu
      | cons v1 t1 =>
        have hfa : t1.length + t2.length ≤ fuel := by
          simp only [List.length_cons] at hf
          omega
        have hfb : t1.length + (v2 :: t2).length ≤ fuel := by
          simp only [List.length_cons] at hf ⊢
          omega
        have hfc : (v1 :: t1).length + t2.length ≤ fuel := by
          simp only [List.length_cons] at hf ⊢
          omega
        by_cases h : v1.id = v2.id
        · by_cases hs : v1.coeff + c * v2.coeff = 0
          · rw [mulAddVars_cons_zero c fuel v1 v2 t1 t2 h hs]
            exact ih t1 t2 hfa (sortedVars_tail _ _ h1) (sortedVars_tail _ _ h2)
          · rw [mulAddVars_cons_sum c fuel v1 v2 t1 t2 h hs]
            refine List.pairwise_cons.mpr
              ⟨?_, ih t1 t2 hfa (sortedVars_tail _ _ h1) (sortedVars_tail _ _ h2)⟩
            intro e he
            rcases mulAddVars_mem_ids c fuel t1 t2 hfa e he with ⟨u, hu, hue⟩ | ⟨u, hu, hue⟩
            · exact hue ▸ sortedVars_head _ _ h1 u hu
            · exact hue ▸ h ▸ sortedVars_head _ _ h2 u hu
        · by_cases hlt : v1.id < v2.id
          · rw [mulAddVars_cons_lt c fuel v1 v2 t1 t2 hlt]
            refine List.pairwise_cons.mpr ⟨?_, ih t1 (v2 :: t2) hfb (sortedVars_tail _ _ h1) h2⟩
            intro e he
            rcases mulAddVars_mem_ids c fuel t1 (v2 :: t2) hfb e he with
              ⟨u, hu, hue⟩ | ⟨u, hu, hue⟩
            · exact hue ▸ sortedVars_head _ _ h1 u hu
            · rcases List.mem_cons.mp hu with rfl | hu
              · omega
              · have := sortedVars_head _ _ h2 u hu
                omega
          · rw [mulAddVars_cons_gt c fuel v1 v2 t1 t2 h hlt]
            refine List.pairwise_cons.mpr ⟨?_, ih (v1 :: t1) t2 hfc h1 (sortedVars_tail _ _ h2)⟩
            intro e he
            show v2.id < e.id
            rcases mulAddVars_mem_ids c fuel (v1 :: t1) t2 hfc e he with
              ⟨u, hu, hue⟩ | ⟨u, hu, hue⟩
            · rcases List.mem_cons.mp hu with rfl | hu
              · omega
              · have := sortedVars_head _ _ h1 u hu
                omega
            · exact hue ▸ sortedVars_head _ _ h2 u hu

theorem mulAddVars_nonzero (c : ℚ) (hc : c ≠ 0) :
    ∀ (fuel : Nat) (l1 l2 : List LinVar), l1.length + l2.length ≤ fuel →
      NonzeroVars l1 → NonzeroVars l2 → NonzeroVars (mulAddVars c fuel l1 l2).1 := by
  intro fuel
  induction fuel with
  | zero =>
    intro l1 l2 _ h1 _
    exact h1
  | succ fuel ih =>
    intro l1 l2 hf h1 h2
    cases l2 with
    | nil =>
      rw [mulAddVars_nil_right]
      exact h1
    | cons v2 t2 =>
      cases l1 with
      | nil =>
        rw [mulAddVars_nil_left]
        have hfz : List.length ([] : List LinVar) + t2.length ≤ fuel := by
          simp only [List.length_nil, List.length_cons] at hf ⊢
          omega
        intro e he
        rcases List.mem_cons.mp he with rfl | he
        · exact mul_ne_zero (h2 v2 (List.mem_cons_self _ _)) hc
        · exact ih [] t2 hfz h1 (fun u hu => h2 u (List.mem_cons_of_mem _ hu)) e he
      | cons v1 t1 =>
        have hfa : t1.length + t2.length ≤ fuel := by
          simp only [List.length_cons] at hf
          omega
        have hfb : t1.length + (v2 :: t2).length ≤ fuel := by
          simp only [List.length_cons] at hf ⊢
          omega
        have hfc : (v1 :: t1).length + t2.length ≤ fuel := by
          simp only [List.length_cons] at hf ⊢
          omega
        by_cases h : v1.id = v2.id
        · by_cases hs : v1.coeff + c * v2.coeff = 0
          · rw [mulAddVars_cons_zero c fuel v1 v2 t1 t2 h hs]
            exact ih t1 t2 hfa (fun u hu => h1 u (List.mem_cons_of_mem _ hu))
              (fun u hu => h2 u (List.mem_cons_of_mem _ hu))
          · rw [mulAddVars_cons_sum c fuel v1 v2 t1 t2 h hs]
            intro e he
            rcases List.mem_cons.mp he with rfl | he
            · exact hs
            · exact ih t1 t2 hfa (fun u hu => h1 u (List.mem_cons_of_mem _ hu))
                (fun u hu => h2 u (List.mem_cons_of_mem _ hu)) e he
        · by_cases hlt : v1.id < v2.id
          · rw [mulAddVars_cons_lt c fuel v1 v2 t1 t2 hlt]
            intro e he
            rcases List.mem_cons.mp he with rfl | he
            · exact h1 e (List.mem_cons_self _ _)
            · exact ih t1 (v2 :: t2) hfb (fun u hu => h1 u (List.mem_cons_of_mem _ hu)) h2 e he
          · rw [mulAddVars_cons_gt c fuel v1 v2 t1 t2 h hlt]
            intro e he
            rcases List.mem_cons.mp he with rfl | he
            · exact mul_ne_zero (h2 v2 (List.mem_cons_self _ _)) hc
            · exact ih (v1 :: t1) t2 hfc h1 (fun u hu => h2 u (List.mem_cons_of_mem _ hu)) e he

theorem mulAddVars_lookup (c : ℚ) (x : Nat) :
    ∀ (fuel : Nat) (l1 l2 : List LinVar), l1.length + l2.length ≤ fuel →
      SortedVars l1 → SortedVars l2 →
      coeffLookup (mulAddVars c fuel l1 l2).1 x =
        coeffLookup l1 x + c * coeffLookup l2 x := by
  intro fuel
  induction fuel with
  | zero =>
    intro l1 l2 hf _ _
    have h2 : l2 = [] := by
      cases l2 with
      | nil => rfl
      | cons a b => simp at hf
    subst h2
    show coeffLookup l1 x = coeffLookup l1 x + c * coeffLookup [] x
    simp [coeffLookup]
  | succ fuel ih =>
    intro l1 l2 hf h1 h2
    cases l2 with
    | nil =>
      rw [mulAddVars_nil_right]
      simp [coeffLookup]
    | cons v2 t2 =>
      cases l1 with
      | nil =>
        rw [mulAddVars_nil_left]
        have hfz : List.length ([] : List LinVar) + t2.length ≤ fuel := by
          simp only [List.length_nil, List.length_cons] at hf ⊢
          omega
        by_cases hx : v2.id = x
        · simp only [coeffLookup, if_pos hx]
          ring
        · simp only [coeffLookup, if_neg hx]
          exact ih [] t2 hfz h1 (sortedVars_tail _ _ h2)
      | cons v1 t1 =>
        have hfa : t1.length + t2.length ≤ fuel := by
          simp only [List.length_cons] at hf
          omega
        have hfb : t1.length + (v2 :: t2).length ≤ fuel := by
          simp only [List.length_cons] at hf ⊢
          omega
        have hfc : (v1 :: t1).length + t2.length ≤ fuel := by
          simp only [List.length_cons] at hf ⊢
          omega
        by_cases h : v1.id = v2.id
        · by_cases hs : v1.coeff + c * v2.coeff = 0
          · rw [mulAddVars_cons_zero c fuel v1 v2 t1 t2 h hs]
            by_cases hx : v1.id = x
            · have hx2 : v2.id = x := h ▸ hx
              have e1 : coeffLookup t1 x = 0 :=
                coeffLookup_eq_zero t1 x (fun e he => by
                  have := sortedVars_head _ _ h1 e he
                  omega)
              have e2 : coeffLookup t2 x = 0 :=
                coeffLookup_eq_zero t2 x (fun e he => by
                  have := sortedVars_head _ _ h2 e he
                  omega)
              rw [ih t1 t2 hfa (sortedVars_tail _ _ h1) (sortedVars_tail _ _ h2), e1, e2,
                coeffLookup_cons v1 t1 x, coeffLookup_cons v2 t2 x, if_pos hx, if_pos hx2]
              linarith [hs]
            · have hx2 : v2.id ≠ x := h ▸ hx
              rw [coeffLookup_cons v1 t1 x, coeffLookup_cons v2 t2 x, if_neg hx, if_neg hx2]
              exact ih t1 t2 hfa (sortedVars_tail _ _ h1) (sortedVars_tail _ _ h2)
          · rw [mulAddVars_cons_sum c fuel v1 v2 t1 t2 h hs]
            show (if v1.id = x then v1.coeff + c * v2.coeff
              else coeffLookup (mulAddVars c fuel t1 t2).1 x) = _
            by_cases hx : v1.id = x
            · have hx2 : v2.id = x := h ▸ hx
              rw [if_pos hx, coeffLookup_cons v1 t1 x, coeffLookup_cons v2 t2 x, if_pos hx,
                if_pos hx2]
            · have hx2 : v2.id ≠ x := h ▸ hx
              rw [if_neg hx, coeffLookup_cons v1 t1 x, coeffLookup_cons v2 t2 x, if_neg hx,
                if_neg hx2]
              exact ih t1 t2 hfa (sortedVars_tail _ _ h1) (sortedVars_tail _ _ h2)
        · by_cases hlt : v1.id < v2.id
          · rw [mulAddVars_cons_lt c fuel v1 v2 t1 t2 hlt]
            by_cases hx : v1.id = x
            · have e2 : coeffLookup (v2 :: t2) x = 0 :=
                coeffLookup_eq_zero _ x (fun e he => by
                  rcases List.mem_cons.mp he with rfl | he
                  · omega
                  · have := sortedVars_head _ _ h2 e he
                    omega)
              rw [coeffLookup_cons v1 (mulAddVars c fuel t1 (v2 :: t2)).1 x, if_pos hx, e2,
                coeffLookup_cons v1 t1 x, if_pos hx]
              ring
            · rw [coeffLookup_cons v1 (mulAddVars c fuel t1 (v2 :: t2)).1 x, if_neg hx,
                coeffLookup_cons v1 t1 x, if_neg hx]
              exact ih t1 (v2 :: t2) hfb (sortedVars_tail _ _ h1) h2
          · rw [mulAddVars_cons_gt c fuel v1 v2 t1 t2 h hlt]
            show (if v2.id = x then v2.coeff * c
              else coeffLookup (mulAddVars c fuel (v1 :: t1) t2).1 x) = _
            by_cases hx : v2.id = x
            · have e1 : coeffLookup (v1 :: t1) x = 0 :=
                coeffLookup_eq_zero _ x (fun e he => by
                  rcases List.mem_cons.mp he with rfl | he
                  · omega
                  · have := sortedVars_head _ _ h1 e he
                    omega)
              rw [if_pos hx, e1, coeffLookup_cons v2 t2 x, if_pos hx]
              ring
            · rw [if_neg hx, coeffLookup_cons v2 t2 x, if_neg hx]
              exact ih (v1 :: t1) t2 hfc h1 (sortedVars_tail _ _ h2)

theorem mulAddVars_rowSum (c : ℚ) (vals : List ℚ) :
    ∀ (fuel : Nat) (l1 l2 : List LinVar), l1.length + l2.length ≤ fuel →
      rowSum vals (mulAddVars c fuel l1 l2).1 = rowSum vals l1 + c * rowSum vals l2 := by
  intro fuel
  induction fuel with
  | zero =>
    intro l1 l2 hf
    have h2 : l2 = [] := by
      cases l2 with
      | nil => rfl
      | cons a b => simp at hf
    subst h2
    show rowSum vals l1 = rowSum vals l1 + c * rowSum vals []
    simp [rowSum]
  | succ fuel ih =>
    intro l1 l2 hf
    cases l2 with
    | nil =>
      rw [mulAddVars_nil_right]
      simp [rowSum]
    | cons v2 t2 =>
      cases l1 with
      | nil =>
        rw [mulAddVars_nil_left]
        have hfz : List.length ([] : List LinVar) + t2.length ≤ fuel := by
          simp only [List.length_nil, List.length_cons] at hf ⊢
          omega
        simp only [rowSum, ih [] t2 hfz]
        ring
      | cons v1 t1 =>
        have hfa : t1.length + t2.length ≤ fuel := by
          simp only [List.length_cons] at hf
          omega
        have hfb : t1.length + (v2 :: t2).length ≤ fuel := by
          simp only [List.length_cons] at hf ⊢
          omega
        have hfc : (v1 :: t1).length + t2.length ≤ fuel := by
          simp only [List.length_cons] at hf ⊢
          omega
        by_cases h : v1.id = v2.id
        · by_cases hs : v1.coeff + c * v2.coeff = 0
          · rw [mulAddVars_cons_zero c fuel v1 v2 t1 t2 h hs, ih t1 t2 hfa]
            simp only [rowSum]
            rw [h]
            linear_combination (-(vals.getD v2.id 0)) * hs
          · rw [mulAddVars_cons_sum c fuel v1 v2 t1 t2 h hs]
            simp only [rowSum, ih t1 t2 hfa, h]
            ring
        · by_cases hlt : v1.id < v2.id
          · rw [mulAddVars_cons_lt c fuel v1 v2 t1 t2 hlt]
            simp only [rowSum, ih t1 (v2 :: t2) hfb]
            ring
          · rw [mulAddVars_cons_gt c fuel v1 v2 t1 t2 h hlt]
            simp only [rowSum, ih (v1 :: t1) t2 hfc]
            ring

theorem mulAddVars_cover (c : ℚ) :
    ∀ (fuel : Nat) (l1 l2 : List LinVar), l1.length + l2.length ≤ fuel →
      ∀ e ∈ (mulAddVars c fuel l1 l2).1,
        (∃ u ∈ l1, u.id = e.id) ∨ e.id ∈ (mulAddVars c fuel l1 l2).2 := by
  intro fuel
  induction fuel with
  | zero =>
    intro l1 l2 _ e he
    exact Or.inl ⟨e, he, rfl⟩
  | succ fuel ih =>
    intro l1 l2 hf e he
    cases l2 with
    | nil =>
      rw [mulAddVars_nil_right] at he ⊢
      exact Or.inl ⟨e, he, rfl⟩
    | cons v2 t2 =>
      cases l1 with
      | nil =>
        rw [mulAddVars_nil_left] at he ⊢
        have hfz : List.length ([] : List LinVar) + t2.length ≤ fuel := by
          simp only [List.length_nil, List.length_cons] at hf ⊢
          omega
        rcases List.mem_cons.mp he with rfl | he
        · exact Or.inr (List.mem_cons_self _ _)
        · rcases ih [] t2 hfz e he with ⟨u, hu, _⟩ | hu
          · cases hu
          · exact Or.inr (List.mem_cons_of_mem _ hu)
      | cons v1 t1 =>
        have hfa : t1.length + t2.length ≤ fuel := by
          simp only [List.length_cons] at hf
          omega
        have hfb : t1.length + (v2 :: t2).length ≤ fuel := by
          simp only [List.length_cons] at hf ⊢
          omega
        have hfc : (v1 :: t1).length + t2.length ≤ fuel := by
          simp only [List.length_cons] at hf ⊢
          omega
        by_cases h : v1.id = v2.id
        · by_cases hs : v1.coeff + c * v2.coeff = 0
          · rw [mulAddVars_cons_zero c fuel v1 v2 t1 t2 h hs] at he ⊢
            rcases ih t1 t2 hfa e he with ⟨u, hu, hue⟩ | hu
            · exact Or.inl ⟨u, List.mem_cons_of_mem _ hu, hue⟩
            · exact Or.inr hu
          · rw [mulAddVars_cons_sum c fuel v1 v2 t1 t2 h hs] at he ⊢
            rcases List.mem_cons.mp he with rfl | he
            · exact Or.inl ⟨v1, List.mem_cons_self _ _, rfl⟩
            · rcases ih t1 t2 hfa e he with ⟨u, hu, hue⟩ | hu
              · exact Or.inl ⟨u, List.mem_cons_of_mem _ hu, hue⟩
              · exact Or.inr hu
        · by_cases hlt : v1.id < v2.id
          · rw [mulAddVars_cons_lt c fuel v1 v2 t1 t2 hlt] at he ⊢
            rcases List.mem_cons.mp he with rfl | he
            · exact Or.inl ⟨_, List.mem_cons_self _ _, rfl⟩
            · rcases ih t1 (v2 :: t2) hfb e he with ⟨u, hu, hue⟩ | hu
              · exact Or.inl ⟨u, List.mem_cons_of_mem _ hu, hue⟩
              · exact Or.inr hu
          · rw [mulAddVars_cons_gt c fuel v1 v2 t1 t2 h hlt] at he ⊢
            rcases List.mem_cons.mp he with rfl | he
            · exact Or.inr (List.mem_cons_self _ _)
            · rcases ih (v1 :: t1) t2 hfc e he with ⟨u, hu, hue⟩ | hu
              · exact Or.inl ⟨u, hu, hue⟩
              · exact Or.inr (List.mem_cons_of_mem _ hu)

theorem mulAddVars_snd_sub (c : ℚ) :
    ∀ (fuel : Nat) (l1 l2 : List LinVar), l1.length + l2.length ≤ fuel →
      ∀ v ∈ (mulAddVars c fuel l1 l2).2, ∃ u ∈ l2, u.id = v := by
  intro fuel
  induction fuel with
  | zero =>
    intro l1 l2 _ v hv
    cases hv
  | succ fuel ih =>
    intro l1 l2 hf v hv
    cases l2 with
    | nil =>
      rw [mulAddVars_nil_right] at hv
      cases hv
    | cons v2 t2 =>
      cases l1 with
      | nil =>
        rw [mulAddVars_nil_left] at hv
        have hfz : List.length ([] : List LinVar) + t2.length ≤ fuel := by
          simp only [List.length_nil, List.length_cons] at hf ⊢
          omega
        rcases List.mem_cons.mp hv with rfl | hv
        · exact ⟨v2, List.mem_cons_self _ _, rfl⟩
        · rcases ih [] t2 hfz v hv with ⟨u, hu, hue⟩
          exact ⟨u, List.mem_cons_of_mem _ hu, hue⟩
      | cons v1 t1 =>
        have hfa : t1.length + t2.length ≤ fuel := by
          simp only [List.length_cons] at hf
          omega
        have hfb : t1.length + (v2 :: t2).length ≤ fuel := by
          simp only [List.length_cons] at hf ⊢
          omega
        have hfc : (v1 :: t1).length + t2.length ≤ fuel := by
          simp only [List.length_cons] at hf ⊢
          omega
        by_cases h : v1.id = v2.id
        · by_cases hs : v1.coeff + c * v2.coeff = 0
          · rw [mulAddVars_cons_zero c fuel v1 v2 t1 t2 h hs] at hv
            rcases ih t1 t2 hfa v hv with ⟨u, hu, hue⟩
            exact ⟨u, List.mem_cons_of_mem _ hu, hue⟩
          · rw [mulAddVars_cons_sum c fuel v1 v2 t1 t2 h hs] at hv
            rcases ih t1 t2 hfa v hv with ⟨u, hu, hue⟩
            exact ⟨u, List.mem_cons_of_mem _ hu, hue⟩
        · by_cases hlt : v1.id < v2.id
          · rw [mulAddVars_cons_lt c fuel v1 v2 t1 t2 hlt] at hv
            exact ih t1 (v2 :: t2) hfb v hv
          · rw [mulAddVars_cons_gt c fuel v1 v2 t1 t2 h hlt] at hv
            rcases List.mem_cons.mp hv with rfl | hv
            · exact ⟨v2, List.mem_cons_self _ _, rfl⟩
            · rcases ih (v1 :: t1) t2 hfc v hv with ⟨u, hu, hue⟩
              exact ⟨u, List.mem_cons_of_mem _ hu, hue⟩

/-! ### Binary search agrees with linear lookup on sorted rows -/

theorem coeffLookup_mem (x : Nat) :
    ∀ (l : List LinVar), SortedVars l → ∀ u ∈ l, u.id = x → coeffLookup l x = u.coeff := by
  intro l
  induction l with
  | nil => intro _ u hu; cases hu
  | cons v t ih =>
    intro hs u hu hx
    rcases List.mem_cons.mp hu with rfl | hu
    · rw [coeffLookup_cons, if_pos hx]
    · have hvx : v.id ≠ x := by
        have := sortedVars_head _ _ hs u hu
        omega
      rw [coeffLookup_cons, if_neg hvx]
      exact ih (sortedVars_tail _ _ hs) u hu hx

theorem getD_eq_get {α : Type} [Inhabited α] (l : List α) (k : Nat) (h : k < l.length) :
    l.getD k default = l.get ⟨k, h⟩ := by
  rw [List.getD_eq_getElem l default h, List.get_eq_getElem]

theorem sorted_id_lt (l : List LinVar) (hs : SortedVars l) (i j : Nat)
    (hi : i < l.length) (hj : j < l.length) (hij : i < j) :
    (l.get ⟨i, hi⟩).id < (l.get ⟨j, hj⟩).id := by
  have := List.pairwise_iff_get.mp hs ⟨i, hi⟩ ⟨j, hj⟩ hij
  exact this

theorem bsearch_bridge (l : List LinVar) (x : Nat) (hs : SortedVars l) :
    ∀ n lo hi, hi - lo ≤ n → lo ≤ hi → hi ≤ l.length →
      (∀ k, k < lo → (hk : k < l.length) → (l.get ⟨k, hk⟩).id < x) →
      (∀ k, hi ≤ k → (hk : k < l.length) → x < (l.get ⟨k, hk⟩).id) →
      (if h : bsearchLo l x n lo hi < l.length then
        (if (l.get ⟨bsearchLo l x n lo hi, h⟩).id = x then
          (l.get ⟨bsearchLo l x n lo hi, h⟩).coeff
        else 0)
      else 0) = coeffLookup l x := by
  intro n
  induction n with
  | zero =>
    intro lo hi hn hlohi hhi hleft hright
    have hb : bsearchLo l x 0 lo hi = lo := rfl
    rw [hb]
    have hnone : ∀ e ∈ l, e.id ≠ x := by
      intro e he
      rcases List.mem_iff_get.mp he with ⟨⟨k, hk⟩, rfl⟩
      rcases Nat.lt_or_ge k lo with hklo | hklo
      · have := hleft k hklo hk
        omega
      · have := hright k (by omega) hk
        omega
    rw [coeffLookup_eq_zero l x hnone]
    by_cases hlen : lo < l.length
    · rw [dif_pos hlen]
      have : (l.get ⟨lo, hlen⟩).id ≠ x := hnone _ (List.get_mem l _ _)
      rw [if_neg this]
    · rw [dif_neg hlen]
  | succ n ihn =>
    intro lo hi hn hlohi hhi hleft hright
    by_cases hlt : lo < hi
    · have hmidlt : lo + (hi - lo) / 2 < hi := by omega
      have hmidlen : lo + (hi - lo) / 2 < l.length := by omega
      rcases Nat.lt_trichotomy (l.get ⟨lo + (hi - lo) / 2, hmidlen⟩).id x with hcmp | hcmp | hcmp
      · have hb : bsearchLo l x (n + 1) lo hi = bsearchLo l x n (lo + (hi - lo) / 2 + 1) hi := by
          show (if lo < hi then _ else lo) = _
          rw [if_pos hlt]
          show (if (l.getD (lo + (hi - lo) / 2) default).id = x then lo + (hi - lo) / 2
            else if (l.getD (lo + (hi - lo) / 2) default).id < x then
              bsearchLo l x n (lo + (hi - lo) / 2 + 1) hi
            else bsearchLo l x n lo (lo + (hi - lo) / 2)) = _
          rw [getD_eq_get l _ hmidlen]
          rw [if_neg (by omega : ¬(l.get ⟨lo + (hi - lo) / 2, hmidlen⟩).id = x),
            if_pos hcmp]
        rw [hb]
        refine ihn (lo + (hi - lo) / 2 + 1) hi (by omega) (by omega) hhi ?_ hright
        intro k hk hkl
        rcases Nat.lt_or_ge k (lo + (hi - lo) / 2) with hk2 | hk2
        · have := sorted_id_lt l hs k (lo + (hi - lo) / 2) hkl hmidlen hk2
          omega
        · have hkeq : k = lo + (hi - lo) / 2 := by omega
          subst hkeq
          exact hcmp
      · have hb : bsearchLo l x (n + 1) lo hi = lo + (hi - lo) / 2 := by
          show (if lo < hi then _ else lo) = _
          rw [if_pos hlt]
          show (if (l.getD (lo + (hi - lo) / 2) default).id = x then lo + (hi - lo) / 2
            else if (l.getD (lo + (hi - lo) / 2) default).id < x then
              bsearchLo l x n (lo + (hi - lo) / 2 + 1) hi
            else bsearchLo l x n lo (lo + (hi - lo) / 2)) = _
          rw [getD_eq_get l _ hmidlen, if_pos hcmp]
        rw [hb, dif_pos hmidlen, if_pos hcmp]
        exact (coeffLookup_mem x l hs _ (List.get_mem l _ _) hcmp).symm
      · have hb : bsearchLo l x (n + 1) lo hi = bsearchLo l x n lo (lo + (hi - lo) / 2) := by
          show (if lo < hi then _ else lo) = _
          rw [if_pos hlt]
          show (if (l.getD (lo + (hi - lo) / 2) default).id = x then lo + (hi - lo) / 2
            else if (l.getD (lo + (hi - lo) / 2) default).id < x then
              bsearchLo l x n (lo + (hi - lo) / 2 + 1) hi
            else bsearchLo l x n lo (lo + (hi - lo) / 2)) = _
          rw [getD_eq_get l _ hmidlen]
          rw [if_neg (by omega : ¬(l.get ⟨lo + (hi - lo) / 2, hmidlen⟩).id = x),
            if_neg (by omega : ¬(l.get ⟨lo + (hi - lo) / 2, hmidlen⟩).id < x)]
        rw [hb]
        refine ihn lo (lo + (hi - lo) / 2) (by omega) (by omega) (by omega) hleft ?_
        intro k hk hkl
        rcases Nat.lt_or_ge k (lo + (hi - lo) / 2) with hk2 | hk2
        · omega
        · rcases Nat.eq_or_lt_of_le hk2 with hkeq | hk3
          · subst hkeq
            exact hcmp
          · have := sorted_id_lt l hs (lo + (hi - lo) / 2) k hmidlen hkl hk3
            omega
    · have hb : bsearchLo l x (n + 1) lo hi = lo := by
        show (if lo < hi then _ else lo) = _
        rw [if_neg hlt]
      rw [hb]
      have hnone : ∀ e ∈ l, e.id ≠ x := by
        intro e he
        rcases List.mem_iff_get.mp he with ⟨⟨k, hk⟩, rfl⟩
        rcases Nat.lt_or_ge k lo with hklo | hklo
        · have := hleft k hklo hk
          omega
        · have := hright k (by omega) hk
          omega
      rw [coeffLookup_eq_zero l x hnone]
      by_cases hlen : lo < l.length
      · rw [dif_pos hlen]
        rw [if_neg (hnone _ (List.get_mem l _ _))]
      · rw [dif_neg hlen]

theorem get_coefficient_eq (r : Row) (x : Nat) (hs : SortedVars r.vars) :
    get_coefficient r x = coeffLookup r.vars x := by
  unfold get_coefficient
  by_cases he : r.vars.isEmpty
  · rw [if_pos he]
    have hnil : r.vars = [] := by
      cases hv : r.vars with
      | nil => rfl
      | cons a b => rw [hv] at he; simp [List.isEmpty] at he
    rw [hnil]
    rfl
  · rw [if_neg he]
    exact bsearch_bridge r.vars x hs r.vars.length 0 r.vars.length (by omega) (by omega)
      (by omega) (fun k hk _ => absurd hk (by omega)) (fun k hk hkl => absurd hk (by omega))

/-! ### State lemmas for `mul_add` and `resolve` -/

theorem mul_add_zero (ss : Bool) (id1 id2 : Nat) (s : MBO) :
    mul_add ss id1 0 id2 s = s := by
  simp [mul_add]

theorem getRow_pushRowIds (s : MBO) (vs : List Nat) (rid j : Nat) :
    getRow (pushRowIds s vs rid) j = getRow s j := by
  unfold getRow
  rw [pushRowIds_rows]

theorem mul_add_getRow_ne (ss : Bool) (id1 : Nat) (c : ℚ) (id2 : Nat) (s : MBO) (j : Nat)
    (hj : j ≠ id1) : getRow (mul_add ss id1 c id2 s) j = getRow s j := by
  unfold mul_add
  by_cases hc : c = 0
  · rw [if_pos hc]
  · rw [if_neg hc]
    by_cases ho : id1 = objective_id
    · rw [if_pos ho]
      exact getRow_setRow_ne s id1 j _ (fun h => hj h.symm)
    · rw [if_neg ho]
      rw [getRow_pushRowIds]
      exact getRow_setRow_ne s id1 j _ (fun h => hj h.symm)

theorem mul_add_getRow_self (ss : Bool) (id1 : Nat) (c : ℚ) (id2 : Nat) (s : MBO)
    (hc : c ≠ 0) (hlen : id1 < s.rows.length) :
    getRow (mul_add ss id1 c id2 s) id1 =
      combineRow ss (getRow s id1) c (getRow s id2) := by
  unfold mul_add
  rw [if_neg hc]
  by_cases ho : id1 = objective_id
  · rw [if_pos ho]
    exact getRow_setRow_self s id1 _ hlen
  · rw [if_neg ho]
    rw [getRow_pushRowIds]
    exact getRow_setRow_self s id1 _ hlen

theorem mul_add_var2value (ss : Bool) (id1 : Nat) (c : ℚ) (id2 : Nat) (s : MBO) :
    (mul_add ss id1 c id2 s).var2value = s.var2value := by
  unfold mul_add
  by_cases hc : c = 0
  · rw [if_pos hc]
  · rw [if_neg hc]
    by_cases ho : id1 = objective_id
    · rw [if_pos ho]
      rfl
    · rw [if_neg ho, pushRowIds_var2value]
      rfl

theorem mul_add_rows_length (ss : Bool) (id1 : Nat) (c : ℚ) (id2 : Nat) (s : MBO) :
    (mul_add ss id1 c id2 s).rows.length = s.rows.length := by
  unfold mul_add
  by_cases hc : c = 0
  · rw [if_pos hc]
  · rw [if_neg hc]
    by_cases ho : id1 = objective_id
    · rw [if_pos ho, setRow_rows_length]
    · rw [if_neg ho, pushRowIds_rows, setRow_rows_length]

theorem mul_add_var2row_ids_length (ss : Bool) (id1 : Nat) (c : ℚ) (id2 : Nat) (s : MBO) :
    (mul_add ss id1 c id2 s).var2row_ids.length = s.var2row_ids.length := by
  unfold mul_add
  by_cases hc : c = 0
  · rw [if_pos hc]
  · rw [if_neg hc]
    by_cases ho : id1 = objective_id
    · rw [if_pos ho]
      rfl
    · rw [if_neg ho, pushRowIds_var2row_ids_length]
      rfl

theorem mul_add_alive (ss : Bool) (id1 : Nat) (c : ℚ) (id2 : Nat) (s : MBO) (j : Nat) :
    (getRow (mul_add ss id1 c id2 s) j).alive = (getRow s j).alive := by
  by_cases hj : j = id1
  · subst hj
    by_cases hc : c = 0
    · rw [hc, mul_add_zero]
    · by_cases hlen : j < s.rows.length
      · rw [mul_add_getRow_self ss j c id2 s hc hlen]
        rfl
      · have hrows : (mul_add ss j c id2 s).rows = s.rows := by
          unfold mul_add
          rw [if_neg hc]
          by_cases ho : j = objective_id
          · rw [if_pos ho]
            show s.rows.set j _ = s.rows
            exact List.set_eq_of_length_le (by omega)
          · rw [if_neg ho, pushRowIds_rows]
            show s.rows.set j _ = s.rows
            exact List.set_eq_of_length_le (by omega)
        unfold getRow
        rw [hrows]
  · rw [mul_add_getRow_ne ss id1 c id2 s j hj]

theorem mul_add_index_mem (ss : Bool) (id1 : Nat) (c : ℚ) (id2 : Nat) (s : MBO)
    (v rid : Nat) (h : rid ∈ rowIdsOf s v) : rid ∈ rowIdsOf (mul_add ss id1 c id2 s) v := by
  unfold mul_add
  by_cases hc : c = 0
  · rw [if_pos hc]
    exact h
  · rw [if_neg hc]
    by_cases ho : id1 = objective_id
    · rw [if_pos ho]
      exact h
    · rw [if_neg ho]
      exact rowIdsOf_pushRowIds_mem _ _ _ _ _ h

theorem mul_add_index_sub (ss : Bool) (id1 : Nat) (c : ℚ) (id2 : Nat) (s : MBO)
    (v rid : Nat) (h : rid ∈ rowIdsOf (mul_add ss id1 c id2 s) v) :
    rid ∈ rowIdsOf s v ∨ rid = id1 := by
  unfold mul_add at h
  by_cases hc : c = 0
  · rw [if_pos hc] at h
    exact Or.inl h
  · rw [if_neg hc] at h
    by_cases ho : id1 = objective_id
    · rw [if_pos ho] at h
      exact Or.inl h
    · rw [if_neg ho] at h
      rcases rowIdsOf_pushRowIds_sub
          (setRow s id1 (combineRow ss (getRow s id1) c (getRow s id2))) _ id1 v rid h with
        h2 | h2
      · exact Or.inl h2
      · exact Or.inr h2

theorem resolve_getRow_ne (row_src : Nat) (a1 : ℚ) (row_dst x : Nat) (s : MBO) (j : Nat)
    (hj : j ≠ row_dst) : getRow (resolve row_src a1 row_dst x s) j = getRow s j := by
  unfold resolve
  by_cases ha : (getRow s row_dst).alive
  · rw [if_pos ha]
    exact mul_add_getRow_ne _ _ _ _ _ _ hj
  · rw [if_neg ha]

theorem resolve_var2value (row_src : Nat) (a1 : ℚ) (row_dst x : Nat) (s : MBO) :
    (resolve row_src a1 row_dst x s).var2value = s.var2value := by
  unfold resolve
  by_cases ha : (getRow s row_dst).alive
  · rw [if_pos ha]
    exact mul_add_var2value _ _ _ _ _
  · rw [if_neg ha]

theorem resolve_rows_length (row_src : Nat) (a1 : ℚ) (row_dst x : Nat) (s : MBO) :
    (resolve row_src a1 row_dst x s).rows.length = s.rows.length := by
  unfold resolve
  by_cases ha : (getRow s row_dst).alive
  · rw [if_pos ha]
    exact mul_add_rows_length _ _ _ _ _
  · rw [if_neg ha]

theorem resolve_var2row_ids_length (row_src : Nat) (a1 : ℚ) (row_dst x : Nat) (s : MBO) :
    (resolve row_src a1 row_dst x s).var2row_ids.length = s.var2row_ids.length := by
  unfold resolve
  by_cases ha : (getRow s row_dst).alive
  · rw [if_pos ha]
    exact mul_add_var2row_ids_length _ _ _ _ _
  · rw [if_neg ha]

theorem resolve_alive (row_src : Nat) (a1 : ℚ) (row_dst x : Nat) (s : MBO) (j : Nat) :
    (getRow (resolve row_src a1 row_dst x s) j).alive = (getRow s j).alive := by
  unfold resolve
  by_cases ha : (getRow s row_dst).alive
  · rw [if_pos ha]
    exact mul_add_alive _ _ _ _ _ _
  · rw [if_neg ha]

theorem resolve_index_mem (row_src : Nat) (a1 : ℚ) (row_dst x : Nat) (s : MBO)
    (v rid : Nat) (h : rid ∈ rowIdsOf s v) :
    rid ∈ rowIdsOf (resolve row_src a1 row_dst x s) v := by
  unfold resolve
  by_cases ha : (getRow s row_dst).alive
  · rw [if_pos ha]
    exact mul_add_index_mem _ _ _ _ _ _ _ h
  · rw [if_neg ha]
    exact h

theorem resolve_index_sub (row_src : Nat) (a1 : ℚ) (row_dst x : Nat) (s : MBO)
    (v rid : Nat) (h : rid ∈ rowIdsOf (resolve row_src a1 row_dst x s) v) :
    rid ∈ rowIdsOf s v ∨ rid = row_dst := by
  unfold resolve at h
  by_cases ha : (getRow s row_dst).alive
  · rw [if_pos ha] at h
    exact mul_add_index_sub _ _ _ _ _ _ _ h
  · rw [if_neg ha] at h
    exact Or.inl h

theorem resolve_of_dead (row_src : Nat) (a1 : ℚ) (row_dst x : Nat) (s : MBO)
    (ha : (getRow s row_dst).alive = false) : resolve row_src a1 row_dst x s = s := by
  unfold resolve
  rw [if_neg (by rw [ha]; exact Bool.false_ne_true)]

theorem resolve_getRow_self (row_src : Nat) (a1 : ℚ) (row_dst x : Nat) (s : MBO)
    (ha : (getRow s row_dst).alive = true) (hlen : row_dst < s.rows.length)
    (hc : -(get_coefficient (getRow s row_dst) x) / a1 ≠ 0) :
    getRow (resolve row_src a1 row_dst x s) row_dst =
      combineRow
        (decide (row_dst ≠ objective_id ∧
          ((0 < a1) ↔ (0 < get_coefficient (getRow s row_dst) x))))
        (getRow s row_dst) (-(get_coefficient (getRow s row_dst) x) / a1)
        (getRow s row_src) := by
  unfold resolve
  rw [if_pos ha]
  exact mul_add_getRow_self _ _ _ _ _ hc hlen

/-! ### Claim C8: specification of `mul_add` -/

/-- C8: `mul_add(same_sign, row1, c, row2)` is a no-op when `c` is zero;
otherwise it sets row1's linear term to `term(row1) + c * term(row2)` with
every zero-sum entry removed (no zero coefficient is ever stored), updates
row1's constant and cached value by the same linear combination, and sets
row1's relation to `Lt` if `same_sign` is false and row2's relation is `Lt`,
to `Le` if `same_sign` is true and both relations are `Lt`, and leaves it
unchanged otherwise. -/
theorem claim_C8 (s : MBO) (same_sign : Bool) (row_id1 row_id2 : Nat) (c : ℚ)
    (hlen : row_id1 < s.rows.length)
    (h1 : RowOk (getRow s row_id1)) (h2 : RowOk (getRow s row_id2)) :
    (c = 0 → mul_add same_sign row_id1 c row_id2 s = s) ∧
    (c ≠ 0 →
      (∀ v : Nat,
        coeffLookup (getRow (mul_add same_sign row_id1 c row_id2 s) row_id1).vars v =
          coeffLookup (getRow s row_id1).vars v +
            c * coeffLookup (getRow s row_id2).vars v) ∧
      (∀ e ∈ (getRow (mul_add same_sign row_id1 c row_id2 s) row_id1).vars, e.coeff ≠ 0) ∧
      (getRow (mul_add same_sign row_id1 c row_id2 s) row_id1).coeff =
        (getRow s row_id1).coeff + c * (getRow s row_id2).coeff ∧
      (getRow (mul_add same_sign row_id1 c row_id2 s) row_id1).value =
        (getRow s row_id1).value + c * (getRow s row_id2).value ∧
      (getRow (mul_add same_sign row_id1 c row_id2 s) row_id1).type =
        (if same_sign = false ∧ (getRow s row_id2).type = IneqType.t_lt then IneqType.t_lt
         else if same_sign = true ∧ (getRow s row_id1).type = IneqType.t_lt ∧
             (getRow s row_id2).type = IneqType.t_lt then IneqType.t_le
         else (getRow s row_id1).type)) := by
  constructor
  · intro hc
    subst hc
    exact mul_add_zero same_sign row_id1 row_id2 s
  · intro hc
    rw [mul_add_getRow_self same_sign row_id1 c row_id2 s hc hlen]
    refine ⟨?_, ?_, rfl, rfl, rfl⟩
    · intro v
      exact mulAddVars_lookup c v
        ((getRow s row_id1).vars.length + (getRow s row_id2).vars.length)
        (getRow s row_id1).vars (getRow s row_id2).vars (le_refl _) h1.1 h2.1
    · exact mulAddVars_nonzero c hc
        ((getRow s row_id1).vars.length + (getRow s row_id2).vars.length)
        (getRow s row_id1).vars (getRow s row_id2).vars (le_refl _) h1.2 h2.2

theorem claim_C8_witness :
    (2 : ℚ) ≠ 0 ∧
      coeffLookup (getRow (mul_add true 1 2 2 wC8) 1).vars 1 =
        coeffLookup (getRow wC8 1).vars 1 + 2 * coeffLookup (getRow wC8 2).vars 1 :=
  ⟨by decide,
    ((claim_C8 wC8 true 1 2 2 (by decide) (by decide) (by decide)).2 (by decide)).1 1⟩

/-! ### Step equations for the `find_bound` scan -/

theorem fbl_nil (s : MBO) (x : Nat) (xv : ℚ) (ip : Bool) (visited : List Nat)
    (bound : Option (Nat × ℚ × ℚ)) (above below : List Nat) :
    find_bound_loop s x xv ip [] visited bound above below = (bound, above, below) := by
  rfl

theorem fbl_visited (s : MBO) (x : Nat) (xv : ℚ) (ip : Bool) (rid : Nat)
    (rest visited : List Nat) (bound : Option (Nat × ℚ × ℚ)) (above below : List Nat)
    (h : rid ∈ visited) :
    find_bound_loop s x xv ip (rid :: rest) visited bound above below =
      find_bound_loop s x xv ip rest visited bound above below := by
  rw [find_bound_loop]
  simp only [if_pos h]

theorem fbl_dead (s : MBO) (x : Nat) (xv : ℚ) (ip : Bool) (rid : Nat)
    (rest visited : List Nat) (bound : Option (Nat × ℚ × ℚ)) (above below : List Nat)
    (h : rid ∉ visited) (h2 : (getRow s rid).alive = false) :
    find_bound_loop s x xv ip (rid :: rest) visited bound above below =
      find_bound_loop s x xv ip rest (rid :: visited) bound above below := by
  rw [find_bound_loop]
  simp only [if_neg h, h2, Bool.false_eq_true, if_false]

theorem fbl_zero (s : MBO) (x : Nat) (xv : ℚ) (ip : Bool) (rid : Nat)
    (rest visited : List Nat) (bound : Option (Nat × ℚ × ℚ)) (above below : List Nat)
    (h : rid ∉ visited) (h2 : (getRow s rid).alive = true)
    (h3 : get_coefficient (getRow s rid) x = 0) :
    find_bound_loop s x xv ip (rid :: rest) visited bound above below =
      find_bound_loop s x xv ip rest (rid :: visited) bound above below := by
  rw [find_bound_loop]
  simp only [if_neg h, h2, if_true, h3, if_pos rfl]

theorem fbl_new (s : MBO) (x : Nat) (xv : ℚ) (ip : Bool) (rid : Nat)
    (rest visited : List Nat) (above below : List Nat)
    (h : rid ∉ visited) (h2 : (getRow s rid).alive = true)
    (h3 : get_coefficient (getRow s rid) x ≠ 0)
    (h4 : decide (0 < get_coefficient (getRow s rid) x) = ip ∨
      (getRow s rid).type = IneqType.t_eq) :
    find_bound_loop s x xv ip (rid :: rest) visited none above below =
      find_bound_loop s x xv ip rest (rid :: visited)
        (some (rid, xv - (getRow s rid).value / get_coefficient (getRow s rid) x,
          get_coefficient (getRow s rid) x)) above below := by
  rw [find_bound_loop]
  simp only [if_neg h, h2, if_true, if_neg h3, if_pos h4]

theorem fbl_switch (s : MBO) (x : Nat) (xv : ℚ) (ip : Bool) (rid : Nat)
    (rest visited : List Nat) (b : Nat × ℚ × ℚ) (above below : List Nat)
    (h : rid ∉ visited) (h2 : (getRow s rid).alive = true)
    (h3 : get_coefficient (getRow s rid) x ≠ 0)
    (h4 : decide (0 < get_coefficient (getRow s rid) x) = ip ∨
      (getRow s rid).type = IneqType.t_eq)
    (h5 : (xv - (getRow s rid).value / get_coefficient (getRow s rid) x = b.2.1 ∧
        (getRow s rid).type = IneqType.t_lt) ∨
      (ip = true ∧ xv - (getRow s rid).value / get_coefficient (getRow s rid) x < b.2.1) ∨
      (ip = false ∧ b.2.1 < xv - (getRow s rid).value / get_coefficient (getRow s rid) x)) :
    find_bound_loop s x xv ip (rid :: rest) visited (some b) above below =
      find_bound_loop s x xv ip rest (rid :: visited)
        (some (rid, xv - (getRow s rid).value / get_coefficient (getRow s rid) x,
          get_coefficient (getRow s rid) x)) (above ++ [b.1]) below := by
  rw [find_bound_loop]
  simp only [if_neg h, h2, if_true, if_neg h3, if_pos h4]
  rw [if_pos h5]

theorem fbl_keep (s : MBO) (x : Nat) (xv : ℚ) (ip : Bool) (rid : Nat)
    (rest visited : List Nat) (b : Nat × ℚ × ℚ) (above below : List Nat)
    (h : rid ∉ visited) (h2 : (getRow s rid).alive = true)
    (h3 : get_coefficient (getRow s rid) x ≠ 0)
    (h4 : decide (0 < get_coefficient (getRow s rid) x) = ip ∨
      (getRow s rid).type = IneqType.t_eq)
    (h5 : ¬((xv - (getRow s rid).value / get_coefficient (getRow s rid) x = b.2.1 ∧
        (getRow s rid).type = IneqType.t_lt) ∨
      (ip = true ∧ xv - (getRow s rid).value / get_coefficient (getRow s rid) x < b.2.1) ∨
      (ip = false ∧ b.2.1 < xv - (getRow s rid).value / get_coefficient (getRow s rid) x))) :
    find_bound_loop s x xv ip (rid :: rest) visited (some b) above below =
      find_bound_loop s x xv ip rest (rid :: visited) (some b) (above ++ [rid]) below := by
  rw [find_bound_loop]
  simp only [if_neg h, h2, if_true, if_neg h3, if_pos h4]
  rw [if_neg h5]

theorem fbl_below (s : MBO) (x : Nat) (xv : ℚ) (ip : Bool) (rid : Nat)
    (rest visited : List Nat) (bound : Option (Nat × ℚ × ℚ)) (above below : List Nat)
    (h : rid ∉ visited) (h2 : (getRow s rid).alive = true)
    (h3 : get_coefficient (getRow s rid) x ≠ 0)
    (h4 : ¬(decide (0 < get_coefficient (getRow s rid) x) = ip ∨
      (getRow s rid).type = IneqType.t_eq)) :
    find_bound_loop s x xv ip (rid :: rest) visited bound above below =
      find_bound_loop s x xv ip rest (rid :: visited) bound above (below ++ [rid]) := by
  rw [find_bound_loop]
  simp only [if_neg h, h2, if_true, if_neg h3, if_neg h4]

/-! ### Preservation of `FBInv` across scan steps -/

theorem FBInv_congr (s : MBO) (x : Nat) (ip : Bool) (vs vs2 : List Nat)
    (bound : Option (Nat × ℚ × ℚ)) (above below : List Nat)
    (hvs : ∀ r : Nat, r ∈ vs ↔ r ∈ vs2)
    (h : FBInv s x ip vs bound above below) : FBInv s x ip vs2 bound above below := by
  obtain ⟨a1, a2, a3, a4, a5, a6, a7⟩ := h
  refine ⟨?_, ?_, ?_, ?_, ?_, a6, a7⟩
  · intro bi lv bc hb
    obtain ⟨m1, m2, m3, m4, m5, m6⟩ := a1 bi lv bc hb
    exact ⟨(hvs bi).mp m1, m2, m3, m4,
      fun rid hr hc => m5 rid ((hvs rid).mpr hr) hc,
      fun ht rid hr hc hv => m6 ht rid ((hvs rid).mpr hr) hc hv⟩
  · intro hb rid hr
    exact a2 hb rid ((hvs rid).mpr hr)
  · intro rid hr
    obtain ⟨q1, q2⟩ := a3 rid hr
    exact ⟨(hvs rid).mp q1, q2⟩
  · intro rid hr
    obtain ⟨q1, q2⟩ := a4 rid hr
    exact ⟨(hvs rid).mp q1, q2⟩
  · intro rid hr
    exact a5 rid ((hvs rid).mpr hr)

theorem FBInv_skip (s : MBO) (x : Nat) (ip : Bool) (vs : List Nat)
    (bound : Option (Nat × ℚ × ℚ)) (above below : List Nat) (rid : Nat)
    (hskip : (getRow s rid).alive = true → get_coefficient (getRow s rid) x = 0)
    (h : FBInv s x ip vs bound above below) :
    FBInv s x ip (rid :: vs) bound above below := by
  obtain ⟨a1, a2, a3, a4, a5, a6, a7⟩ := h
  have hnc : ¬isCand s x ip rid := by
    intro ⟨hc1, hc2, _⟩
    exact hc2 (hskip hc1)
  refine ⟨?_, ?_, ?_, ?_, ?_, a6, a7⟩
  · intro bi lv bc hb
    obtain ⟨m1, m2, m3, m4, m5, m6⟩ := a1 bi lv bc hb
    refine ⟨List.mem_cons_of_mem _ m1, m2, m3, m4, ?_, ?_⟩
    · intro r2 hr2 hc2
      rcases List.mem_cons.mp hr2 with rfl | hr2
      · exact absurd hc2 hnc
      · exact m5 r2 hr2 hc2
    · intro ht r2 hr2 hc2 hv2
      rcases List.mem_cons.mp hr2 with rfl | hr2
      · exact absurd hc2 hnc
      · exact m6 ht r2 hr2 hc2 hv2
  · intro hb r2 hr2
    rcases List.mem_cons.mp hr2 with rfl | hr2
    · exact hnc
    · exact a2 hb r2 hr2
  · intro r2 hr2
    obtain ⟨q1, q2⟩ := a3 r2 hr2
    exact ⟨List.mem_cons_of_mem _ q1, q2⟩
  · intro r2 hr2
    obtain ⟨q1, q2⟩ := a4 r2 hr2
    exact ⟨List.mem_cons_of_mem _ q1, q2⟩
  · intro r2 hr2 hal hz
    rcases List.mem_cons.mp hr2 with rfl | hr2
    · exact absurd (hskip hal) hz
    · exact a5 r2 hr2 hal hz

theorem FBInv_below_step (s : MBO) (x : Nat) (ip : Bool) (vs : List Nat)
    (bound : Option (Nat × ℚ × ℚ)) (above below : List Nat) (rid : Nat)
    (hv : rid ∉ vs) (hal : (getRow s rid).alive = true)
    (hz : get_coefficient (getRow s rid) x ≠ 0)
    (hnc : ¬(decide (0 < get_coefficient (getRow s rid) x) = ip ∨
      (getRow s rid).type = IneqType.t_eq))
    (h : FBInv s x ip vs bound above below) :
    FBInv s x ip (rid :: vs) bound above (below ++ [rid]) := by
  obtain ⟨a1, a2, a3, a4, a5, a6, a7⟩ := h
  have hnc2 : ¬isCand s x ip rid := by
    intro ⟨_, _, hc3⟩
    exact hnc hc3
  refine ⟨?_, ?_, ?_, ?_, ?_, ?_, ?_⟩
  · intro bi lv bc hb
    obtain ⟨m1, m2, m3, m4, m5, m6⟩ := a1 bi lv bc hb
    refine ⟨List.mem_cons_of_mem _ m1, m2, m3, m4, ?_, ?_⟩
    · intro r2 hr2 hc2
      rcases List.mem_cons.mp hr2 with rfl | hr2
      · exact absurd hc2 hnc2
      · exact m5 r2 hr2 hc2
    · intro ht r2 hr2 hc2 hv2
      rcases List.mem_cons.mp hr2 with rfl | hr2
      · exact absurd hc2 hnc2
      · exact m6 ht r2 hr2 hc2 hv2
  · intro hb r2 hr2
    rcases List.mem_cons.mp hr2 with rfl | hr2
    · exact hnc2
    · exact a2 hb r2 hr2
  · intro r2 hr2
    obtain ⟨q1, q2⟩ := a3 r2 hr2
    exact ⟨List.mem_cons_of_mem _ q1, q2⟩
  · intro r2 hr2
    rcases List.mem_append.mp hr2 with hr2 | hr2
    · obtain ⟨q1, q2, q3, q4⟩ := a4 r2 hr2
      exact ⟨List.mem_cons_of_mem _ q1, q2, q3, q4⟩
    · rcases List.mem_singleton.mp hr2 with rfl
      exact ⟨List.mem_cons_self _ _, hal, hz, hnc2⟩
  · intro r2 hr2 hal2 hz2
    rcases List.mem_cons.mp hr2 with rfl | hr2
    · exact Or.inr (Or.inr (List.mem_append_right _ (List.mem_singleton.mpr rfl)))
    · rcases a5 r2 hr2 hal2 hz2 with hcase | hcase | hcase
      · exact Or.inl hcase
      · exact Or.inr (Or.inl hcase)
      · exact Or.inr (Or.inr (List.mem_append_left _ hcase))
  · intro bi lv bc hb
    obtain ⟨q1, q2⟩ := a6 bi lv bc hb
    refine ⟨q1, ?_⟩
    intro hmem
    rcases List.mem_append.mp hmem with hmem | hmem
    · exact q2 hmem
    · rcases List.mem_singleton.mp hmem with rfl
      obtain ⟨m1, _, _, _, _, _⟩ := a1 bi lv bc hb
      exact hv m1
  · rw [← List.append_assoc, List.nodup_append]
    refine ⟨a7, List.nodup_singleton rid, ?_⟩
    intro r2 hr2 hmem
    rw [List.mem_singleton] at hmem
    subst hmem
    rcases List.mem_append.mp hr2 with hcase | hcase
    · exact hv (a3 r2 hcase).1
    · exact hv (a4 r2 hcase).1

theorem FBInv_new (s : MBO) (x : Nat) (ip : Bool) (vs : List Nat)
    (above below : List Nat) (rid : Nat)
    (hv : rid ∉ vs) (hal : (getRow s rid).alive = true)
    (hz : get_coefficient (getRow s rid) x ≠ 0)
    (hside : decide (0 < get_coefficient (getRow s rid) x) = ip ∨
      (getRow s rid).type = IneqType.t_eq)
    (h : FBInv s x ip vs none above below) :
    FBInv s x ip (rid :: vs)
      (some (rid, bval s x rid, get_coefficient (getRow s rid) x)) above below := by
  obtain ⟨_, a2, a3, a4, a5, _, a7⟩ := h
  have hcand : isCand s x ip rid := ⟨hal, hz, hside⟩
  have hnone := a2 rfl
  refine ⟨?_, ?_, ?_, ?_, ?_, ?_, a7⟩
  · intro bi lv bc hb
    have h0 := Option.some.inj hb
    have e1 : rid = bi := congrArg Prod.fst h0
    have e2 : bval s x rid = lv := congrArg (fun p => p.2.1) h0
    have e3 : get_coefficient (getRow s rid) x = bc := congrArg (fun p => p.2.2) h0
    subst e1
    refine ⟨List.mem_cons_self _ _, hcand, e2.symm, e3.symm, ?_, ?_⟩
    · intro r2 hr2 hc2
      rcases List.mem_cons.mp hr2 with rfl | hr2
      · exact ⟨fun _ => le_of_eq e2.symm, fun _ => le_of_eq e2⟩
      · exact absurd hc2 (hnone r2 hr2)
    · intro ht r2 hr2 hc2 _
      rcases List.mem_cons.mp hr2 with rfl | hr2
      · exact ht
      · exact absurd hc2 (hnone r2 hr2)
  · intro hb
    exact absurd hb (Option.some_ne_none _)
  · intro r2 hr2
    obtain ⟨q1, q2⟩ := a3 r2 hr2
    exact ⟨List.mem_cons_of_mem _ q1, q2⟩
  · intro r2 hr2
    obtain ⟨q1, q2⟩ := a4 r2 hr2
    exact ⟨List.mem_cons_of_mem _ q1, q2⟩
  · intro r2 hr2 hal2 hz2
    rcases List.mem_cons.mp hr2 with rfl | hr2
    · exact Or.inl ⟨bval s x r2, get_coefficient (getRow s r2) x, rfl⟩
    · rcases a5 r2 hr2 hal2 hz2 with ⟨lv, bc, hcase⟩ | hcase | hcase
      · exact absurd hcase.symm (Option.some_ne_none _)
      · exact Or.inr (Or.inl hcase)
      · exact Or.inr (Or.inr hcase)
  · intro bi lv bc hb
    have h0 := Option.some.inj hb
    have e1 : rid = bi := congrArg Prod.fst h0
    subst e1
    exact ⟨fun hmem => hv (a3 rid hmem).1, fun hmem => hv (a4 rid hmem).1⟩

theorem FBInv_switch (s : MBO) (x : Nat) (ip : Bool) (vs : List Nat)
    (b : Nat × ℚ × ℚ) (above below : List Nat) (rid : Nat)
    (hv : rid ∉ vs) (hal : (getRow s rid).alive = true)
    (hz : get_coefficient (getRow s rid) x ≠ 0)
    (hside : decide (0 < get_coefficient (getRow s rid) x) = ip ∨
      (getRow s rid).type = IneqType.t_eq)
    (hC : (bval s x rid = b.2.1 ∧ (getRow s rid).type = IneqType.t_lt) ∨
      (ip = true ∧ bval s x rid < b.2.1) ∨ (ip = false ∧ b.2.1 < bval s x rid))
    (h : FBInv s x ip vs (some b) above below) :
    FBInv s x ip (rid :: vs)
      (some (rid, bval s x rid, get_coefficient (getRow s rid) x))
      (above ++ [b.1]) below := by
  obtain ⟨a1, _, a3, a4, a5, a6, a7⟩ := h
  have hcand : isCand s x ip rid := ⟨hal, hz, hside⟩
  obtain ⟨hb1, hbcand, _, _, hbmin, _⟩ := a1 b.1 b.2.1 b.2.2 rfl
  obtain ⟨hba, hbb⟩ := a6 b.1 b.2.1 b.2.2 rfl
  have hle : (ip = true → bval s x rid ≤ b.2.1) ∧
      (ip = false → b.2.1 ≤ bval s x rid) := by
    rcases hC with ⟨he, _⟩ | ⟨hip, hlt⟩ | ⟨hip, hlt⟩
    · exact ⟨fun _ => le_of_eq he, fun _ => le_of_eq he.symm⟩
    · refine ⟨fun _ => le_of_lt hlt, fun hf => ?_⟩
      rw [hip] at hf
      cases hf
    · refine ⟨fun ht => ?_, fun _ => le_of_lt hlt⟩
      rw [hip] at ht
      cases ht
  refine ⟨?_, ?_, ?_, ?_, ?_, ?_, ?_⟩
  · intro bi lv bc hb
    have h0 := Option.some.inj hb
    have e1 : rid = bi := congrArg Prod.fst h0
    have e2 : bval s x rid = lv := congrArg (fun p => p.2.1) h0
    have e3 : get_coefficient (getRow s rid) x = bc := congrArg (fun p => p.2.2) h0
    subst e1
    refine ⟨List.mem_cons_self _ _, hcand, e2.symm, e3.symm, ?_, ?_⟩
    · intro r2 hr2 hc2
      rcases List.mem_cons.mp hr2 with rfl | hr2
      · exact ⟨fun _ => le_of_eq e2.symm, fun _ => le_of_eq e2⟩
      · obtain ⟨m1, m2⟩ := hbmin r2 hr2 hc2
        rw [← e2]
        exact ⟨fun ht => le_trans (hle.1 ht) (m1 ht), fun hf => le_trans (m2 hf) (hle.2 hf)⟩
    · intro ht r2 hr2 hc2 hv2
      rcases List.mem_cons.mp hr2 with rfl | hr2
      · intro hlt
        exact ht hlt
      · rw [← e2] at hv2
        rcases hC with ⟨_, hlt⟩ | ⟨hip, hlt⟩ | ⟨hip, hlt⟩
        · exact absurd hlt ht
        · obtain ⟨m1, _⟩ := hbmin r2 hr2 hc2
          have := m1 hip
          intro _
          rw [hv2] at this
          exact absurd this (not_le.mpr hlt)
        · obtain ⟨_, m2⟩ := hbmin r2 hr2 hc2
          have := m2 hip
          intro _
          rw [hv2] at this
          exact absurd this (not_le.mpr hlt)
  · intro hb
    exact absurd hb (Option.some_ne_none _)
  · intro r2 hr2
    rcases List.mem_append.mp hr2 with hr2 | hr2
    · obtain ⟨q1, q2⟩ := a3 r2 hr2
      exact ⟨List.mem_cons_of_mem _ q1, q2⟩
    · rcases List.mem_singleton.mp hr2 with rfl
      exact ⟨List.mem_cons_of_mem _ hb1, hbcand⟩
  · intro r2 hr2
    obtain ⟨q1, q2⟩ := a4 r2 hr2
    exact ⟨List.mem_cons_of_mem _ q1, q2⟩
  · intro r2 hr2 hal2 hz2
    rcases List.mem_cons.mp hr2 with rfl | hr2
    · exact Or.inl ⟨bval s x r2, get_coefficient (getRow s r2) x, rfl⟩
    · rcases a5 r2 hr2 hal2 hz2 with ⟨lv, bc, hcase⟩ | hcase | hcase
      · have h0 := Option.some.inj hcase
        have e1 : b.1 = r2 := congrArg Prod.fst h0
        subst e1
        exact Or.inr (Or.inl (List.mem_append_right _ (List.mem_singleton.mpr rfl)))
      · exact Or.inr (Or.inl (List.mem_append_left _ hcase))
      · exact Or.inr (Or.inr hcase)
  · intro bi lv bc hb
    have h0 := Option.some.inj hb
    have e1 : rid = bi := congrArg Prod.fst h0
    subst e1
    constructor
    · intro hmem
      rcases List.mem_append.mp hmem with hmem | hmem
      · exact hv (a3 rid hmem).1
      · rcases List.mem_singleton.mp hmem with rfl
        exact hv hb1
    · intro hmem
      exact hv (a4 rid hmem).1
  · rw [List.nodup_append] at a7
    obtain ⟨na, nb, dab⟩ := a7
    rw [List.nodup_append]
    refine ⟨?_, nb, ?_⟩
    · rw [List.nodup_append]
      refine ⟨na, List.nodup_singleton _, ?_⟩
      intro r2 hr2 hmem
      rcases List.mem_singleton.mp hmem with rfl
      exact hba hr2
    · intro r2 hr2 hmem
      rcases List.mem_append.mp hr2 with hr2 | hr2
      · exact dab hr2 hmem
      · rcases List.mem_singleton.mp hr2 with rfl
        exact hbb hmem

theorem FBInv_keep (s : MBO) (x : Nat) (ip : Bool) (vs : List Nat)
    (b : Nat × ℚ × ℚ) (above below : List Nat) (rid : Nat)
    (hv : rid ∉ vs) (hal : (getRow s rid).alive = true)
    (hz : get_coefficient (getRow s rid) x ≠ 0)
    (hside : decide (0 < get_coefficient (getRow s rid) x) = ip ∨
      (getRow s rid).type = IneqType.t_eq)
    (hnC : ¬((bval s x rid = b.2.1 ∧ (getRow s rid).type = IneqType.t_lt) ∨
      (ip = true ∧ bval s x rid < b.2.1) ∨ (ip = false ∧ b.2.1 < bval s x rid)))
    (h : FBInv s x ip vs (some b) above below) :
    FBInv s x ip (rid :: vs) (some b) (above ++ [rid]) below := by
  obtain ⟨a1, _, a3, a4, a5, a6, a7⟩ := h
  have hcand : isCand s x ip rid := ⟨hal, hz, hside⟩
  push_neg at hnC
  obtain ⟨hnC1, hnC2, hnC3⟩ := hnC
  refine ⟨?_, ?_, ?_, ?_, ?_, ?_, ?_⟩
  · intro bi lv bc hb
    obtain ⟨m1, m2, m3, m4, m5, m6⟩ := a1 bi lv bc hb
    have hbeq : bi = b.1 := by
      have h0 := Option.some.inj hb
      exact (congrArg Prod.fst h0).symm
    have hlveq : lv = b.2.1 := by
      have h0 := Option.some.inj hb
      exact (congrArg (fun p => p.2.1) h0).symm
    refine ⟨List.mem_cons_of_mem _ m1, m2, m3, m4, ?_, ?_⟩
    · intro r2 hr2 hc2
      rcases List.mem_cons.mp hr2 with rfl | hr2
      · constructor
        · intro ht
          rw [hlveq]
          exact hnC2 ht
        · intro hf
          rw [hlveq]
          exact hnC3 hf
      · exact m5 r2 hr2 hc2
    · intro ht r2 hr2 hc2 hv2
      rcases List.mem_cons.mp hr2 with rfl | hr2
      · rw [hlveq] at hv2
        exact hnC1 hv2
      · exact m6 ht r2 hr2 hc2 hv2
  · intro hb
    exact absurd hb (Option.some_ne_none _)
  · intro r2 hr2
    rcases List.mem_append.mp hr2 with hr2 | hr2
    · obtain ⟨q1, q2⟩ := a3 r2 hr2
      exact ⟨List.mem_cons_of_mem _ q1, q2⟩
    · rcases List.mem_singleton.mp hr2 with rfl
      exact ⟨List.mem_cons_self _ _, hcand⟩
  · intro r2 hr2
    obtain ⟨q1, q2⟩ := a4 r2 hr2
    exact ⟨List.mem_cons_of_mem _ q1, q2⟩
  · intro r2 hr2 hal2 hz2
    rcases List.mem_cons.mp hr2 with rfl | hr2
    · exact Or.inr (Or.inl (List.mem_append_right _ (List.mem_singleton.mpr rfl)))
    · rcases a5 r2 hr2 hal2 hz2 with hcase | hcase | hcase
      · exact Or.inl hcase
      · exact Or.inr (Or.inl (List.mem_append_left _ hcase))
      · exact Or.inr (Or.inr hcase)
  · intro bi lv bc hb
    obtain ⟨q1, q2⟩ := a6 bi lv bc hb
    obtain ⟨m1, _, _, _, _, _⟩ := a1 bi lv bc hb
    constructor
    · intro hmem
      rcases List.mem_append.mp hmem with hmem | hmem
      · exact q1 hmem
      · rcases List.mem_singleton.mp hmem with rfl
        exact hv m1
    · exact q2
  · rw [List.nodup_append] at a7
    obtain ⟨na, nb, dab⟩ := a7
    rw [List.nodup_append]
    refine ⟨?_, nb, ?_⟩
    · rw [List.nodup_append]
      refine ⟨na, List.nodup_singleton _, ?_⟩
      intro r2 hr2 hmem
      rcases List.mem_singleton.mp hmem with rfl
      exact hv (a3 r2 hr2).1
    · intro r2 hr2 hmem
      rcases List.mem_append.mp hr2 with hr2 | hr2
      · exact dab hr2 hmem
      · rcases List.mem_singleton.mp hr2 with rfl
        exact hv (a4 r2 hmem).1

/-- The `find_bound` scan establishes `FBInv` over all processed row ids. -/
theorem find_bound_loop_inv (s : MBO) (x : Nat) (ip : Bool) :
    ∀ (l visited : List Nat) (bound : Option (Nat × ℚ × ℚ)) (above below : List Nat),
      FBInv s x ip visited bound above below →
      FBInv s x ip (l ++ visited)
        (find_bound_loop s x (valueOf s x) ip l visited bound above below).1
        (find_bound_loop s x (valueOf s x) ip l visited bound above below).2.1
        (find_bound_loop s x (valueOf s x) ip l visited bound above below).2.2 := by
  intro l
  induction l with
  | nil =>
    intro visited bound above below h
    rw [fbl_nil]
    exact FBInv_congr s x ip visited _ bound above below (by simp) h
  | cons rid rest ih =>
    intro visited bound above below h
    by_cases hv : rid ∈ visited
    · rw [fbl_visited s x _ ip rid rest visited bound above below hv]
      refine FBInv_congr s x ip (rest ++ visited) _ _ _ _ ?_ (ih visited bound above below h)
      intro r
      simp only [List.mem_append, List.mem_cons]
      constructor
      · intro hc
        rcases hc with hc | hc
        · exact Or.inl (Or.inr hc)
        · exact Or.inr hc
      · intro hc
        rcases hc with hc | hc
        · rcases hc with rfl | hc
          · exact Or.inr hv
          · exact Or.inl hc
        · exact Or.inr hc
    · have htrans : ∀ (b2 : Option (Nat × ℚ × ℚ)) (ab2 bl2 : List Nat),
          FBInv s x ip (rest ++ rid :: visited)
            (find_bound_loop s x (valueOf s x) ip rest (rid :: visited) b2 ab2 bl2).1
            (find_bound_loop s x (valueOf s x) ip rest (rid :: visited) b2 ab2 bl2).2.1
            (find_bound_loop s x (valueOf s x) ip rest (rid :: visited) b2 ab2 bl2).2.2 →
          FBInv s x ip (rid :: rest ++ visited)
            (find_bound_loop s x (valueOf s x) ip rest (rid :: visited) b2 ab2 bl2).1
            (find_bound_loop s x (valueOf s x) ip rest (rid :: visited) b2 ab2 bl2).2.1
            (find_bound_loop s x (valueOf s x) ip rest (rid :: visited) b2 ab2 bl2).2.2 := by
        intro b2 ab2 bl2 hh
        refine FBInv_congr s x ip (rest ++ rid :: visited) _ _ _ _ ?_ hh
        intro r
        simp only [List.mem_append, List.mem_cons]
        constructor
        · intro hc
          rcases hc with hc | hc
          · exact Or.inl (Or.inr hc)
          · rcases hc with rfl | hc
            · exact Or.inl (Or.inl rfl)
            · exact Or.inr hc
        · intro hc
          rcases hc with hc | hc
          · rcases hc with rfl | hc
            · exact Or.inr (Or.inl rfl)
            · exact Or.inl hc
          · exact Or.inr (Or.inr hc)
      by_cases hal : (getRow s rid).alive = true
      · by_cases ha : get_coefficient (getRow s rid) x = 0
        · rw [fbl_zero s x _ ip rid rest visited bound above below hv hal ha]
          exact htrans bound above below
            (ih (rid :: visited) bound above below
              (FBInv_skip s x ip visited bound above below rid (fun _ => ha) h))
        · by_cases hside : decide (0 < get_coefficient (getRow s rid) x) = ip ∨
              (getRow s rid).type = IneqType.t_eq
          · cases bound with
            | none =>
              rw [fbl_new s x _ ip rid rest visited above below hv hal ha hside]
              exact htrans _ above below
                (ih (rid :: visited) _ above below
                  (FBInv_new s x ip visited above below rid hv hal ha hside h))
            | some b =>
              by_cases hC : (valueOf s x - (getRow s rid).value /
                    get_coefficient (getRow s rid) x = b.2.1 ∧
                  (getRow s rid).type = IneqType.t_lt) ∨
                (ip = true ∧ valueOf s x - (getRow s rid).value /
                  get_coefficient (getRow s rid) x < b.2.1) ∨
                (ip = false ∧ b.2.1 < valueOf s x - (getRow s rid).value /
                  get_coefficient (getRow s rid) x)
              · rw [fbl_switch s x _ ip rid rest visited b above below hv hal ha hside hC]
                exact htrans _ (above ++ [b.1]) below
                  (ih (rid :: visited) _ (above ++ [b.1]) below
                    (FBInv_switch s x ip visited b above below rid hv hal ha hside hC h))
              · rw [fbl_keep s x _ ip rid rest visited b above below hv hal ha hside hC]
                exact htrans _ (above ++ [rid]) below
                  (ih (rid :: visited) _ (above ++ [rid]) below
                    (FBInv_keep s x ip visited b above below rid hv hal ha hside hC h))
          · rw [fbl_below s x _ ip rid rest visited bound above below hv hal ha hside]
            exact htrans bound above (below ++ [rid])
              (ih (rid :: visited) bound above (below ++ [rid])
                (FBInv_below_step s x ip visited bound above below rid hv hal ha hside h))
      · have hal2 : (getRow s rid).alive = false := by
          revert hal
          cases (getRow s rid).alive <;> simp
        rw [fbl_dead s x _ ip rid rest visited bound above below hv hal2]
        exact htrans bound above below
          (ih (rid :: visited) bound above below
            (FBInv_skip s x ip visited bound above below rid
              (fun hc => absurd hc (by rw [hal2]; exact Bool.false_ne_true)) h))

/-- `find_bound` satisfies the scan invariant over the whole index of `x`. -/
theorem find_bound_spec (s : MBO) (x : Nat) (ip : Bool) :
    FBInv s x ip (rowIdsOf s x) (find_bound x ip s).1 (find_bound x ip s).2.1
      (find_bound x ip s).2.2 := by
  have h0 : FBInv s x ip [] none [] [] := by
    refine ⟨?_, ?_, ?_, ?_, ?_, ?_, List.nodup_nil⟩
    · intro bi lv bc hb
      exact absurd hb (by simp)
    · intro _ rid hr
      cases hr
    · intro rid hr
      cases hr
    · intro rid hr
      cases hr
    · intro rid hr
      cases hr
    · intro bi lv bc hb
      exact absurd hb (by simp)
  have := find_bound_loop_inv s x ip (rowIdsOf s x) [] none [] [] h0
  rw [List.append_nil] at this
  exact this

/-! ### Claim C6: specification of `find_bound` -/

/-- C6: `find_bound(x, ..., is_pos)` considers, among the deduplicated live
rows with non-zero coefficient `a` on `x`, exactly those whose coefficient
sign equals `is_pos` or whose relation is an equality (`isCand`); for each it
computes the implied bound `x_val - cached_value / a`, and the returned pivot
realizes the least such value when `is_pos` is true and the greatest when
`is_pos` is false, with a strict (`Lt`) row preferred over a non-strict one
on an exact value tie; it returns no bound exactly when no candidate row
exists. -/
theorem claim_C6 (s : MBO) (x : Nat) (is_pos : Bool) :
    ((find_bound x is_pos s).1 = none ↔ ∀ rid ∈ rowIdsOf s x, ¬isCand s x is_pos rid) ∧
    (∀ bi lv bc, (find_bound x is_pos s).1 = some (bi, lv, bc) →
      bi ∈ rowIdsOf s x ∧ isCand s x is_pos bi ∧
      lv = valueOf s x - (getRow s bi).value / get_coefficient (getRow s bi) x ∧
      bc = get_coefficient (getRow s bi) x ∧
      (∀ rid ∈ rowIdsOf s x, isCand s x is_pos rid →
        (is_pos = true → lv ≤ bval s x rid) ∧ (is_pos = false → bval s x rid ≤ lv)) ∧
      ((getRow s bi).type ≠ IneqType.t_lt →
        ∀ rid ∈ rowIdsOf s x, isCand s x is_pos rid → bval s x rid = lv →
          (getRow s rid).type ≠ IneqType.t_lt)) := by
  obtain ⟨a1, a2, _, _, _, _, _⟩ := find_bound_spec s x is_pos
  constructor
  · constructor
    · intro hnone
      exact a2 hnone
    · intro hnone
      cases hb : (find_bound x is_pos s).1 with
      | none => rfl
      | some b =>
        obtain ⟨m1, m2, _, _, _, _⟩ := a1 b.1 b.2.1 b.2.2 (by rw [hb])
        exact absurd m2 (hnone b.1 m1)
  · intro bi lv bc hb
    obtain ⟨m1, m2, m3, m4, m5, m6⟩ := a1 bi lv bc hb
    exact ⟨m1, m2, m3, m4, m5, m6⟩


theorem claim_C6_witness :
    (find_bound 0 true wC6).1 = some (2, 3, 1) ∧ isCand wC6 0 true 1 ∧
      (3 : ℚ) ≤ bval wC6 0 1 :=
  ⟨by with_unfolding_all decide, by with_unfolding_all decide,
    (((claim_C6 wC6 0 true).2 2 3 1 (by with_unfolding_all decide)).2.2.2.2.1 1
      (by with_unfolding_all decide) (by with_unfolding_all decide)).1 rfl⟩

/-! ### Live-row counting: the termination measure of `maximize` -/

theorem countP_cons_general {α : Type} (p : α → Bool) (a : α) (l : List α) :
    (a :: l).countP p = l.countP p + (if p a then 1 else 0) := by
  by_cases hp : p a
  · rw [List.countP_cons_of_pos p l hp, if_pos hp]
  · rw [List.countP_cons_of_neg p l hp, if_neg hp]
    omega

theorem countP_set_false {α : Type} [Inhabited α] (p : α → Bool) :
    ∀ (l : List α) (i : Nat) (a : α), i < l.length → p (l.getD i default) = true →
      p a = false → (l.set i a).countP p + 1 = l.countP p := by
  intro l
  induction l with
  | nil => intro i a h; simp at h
  | cons b t ih =>
    intro i a hi hp hpa
    cases i with
    | zero =>
      simp only [List.set]
      rw [countP_cons_general, countP_cons_general, hpa, if_neg (by simp)]
      have hb : p b = true := hp
      rw [if_pos hb]
    | succ i =>
      simp only [List.set]
      rw [countP_cons_general, countP_cons_general]
      have hi2 : i < t.length := by simpa using hi
      have hp2 : p (t.getD i default) = true := by
        simpa [List.getD] using hp
      have := ih i a hi2 hp2 hpa
      omega

theorem countP_eq_of_getD {α : Type} [Inhabited α] (p : α → Bool) :
    ∀ (l1 l2 : List α), l1.length = l2.length →
      (∀ i, i < l1.length → p (l1.getD i default) = p (l2.getD i default)) →
      l1.countP p = l2.countP p := by
  intro l1
  induction l1 with
  | nil =>
    intro l2 hlen _
    cases l2 with
    | nil => rfl
    | cons b t => simp at hlen
  | cons a t ih =>
    intro l2 hlen hp
    cases l2 with
    | nil => simp at hlen
    | cons b t2 =>
      rw [countP_cons_general, countP_cons_general]
      have h0 : p a = p b := hp 0 (by simp)
      rw [h0]
      have := ih t2 (by simpa using hlen) (fun i hi => by
        have := hp (i + 1) (by simpa using Nat.succ_lt_succ hi)
        simpa [List.getD] using this)
      omega

theorem liveCount_eq_countP (s : MBO) : liveCount s = s.rows.countP (fun r => r.alive) := by
  unfold liveCount
  rw [List.countP_eq_length_filter]

theorem liveCount_congr (s1 s2 : MBO) (hlen : s1.rows.length = s2.rows.length)
    (h : ∀ j : Nat, (getRow s1 j).alive = (getRow s2 j).alive) :
    liveCount s1 = liveCount s2 := by
  rw [liveCount_eq_countP, liveCount_eq_countP]
  exact countP_eq_of_getD _ s1.rows s2.rows hlen (fun i _ => h i)

theorem liveCount_kill (s : MBO) (i : Nat) (hi : i < s.rows.length)
    (hal : (getRow s i).alive = true) (r : Row) (hr : r.alive = false) :
    liveCount (setRow s i r) + 1 = liveCount s := by
  rw [liveCount_eq_countP, liveCount_eq_countP]
  exact countP_set_false _ s.rows i r hi hal hr

theorem foldl_resolve_alive (bri : Nat) (bc : ℚ) (x : Nat) :
    ∀ (l : List Nat) (s : MBO) (j : Nat),
      (getRow (l.foldl (fun s rid => resolve bri bc rid x s) s) j).alive =
        (getRow s j).alive := by
  intro l
  induction l with
  | nil => intro s j; rfl
  | cons rid t ih =>
    intro s j
    rw [List.foldl_cons]
    rw [ih (resolve bri bc rid x s) j, resolve_alive]

theorem foldl_resolve_rows_length (bri : Nat) (bc : ℚ) (x : Nat) :
    ∀ (l : List Nat) (s : MBO),
      ((l.foldl (fun s rid => resolve bri bc rid x s) s)).rows.length = s.rows.length := by
  intro l
  induction l with
  | nil => intro s; rfl
  | cons rid t ih =>
    intro s
    rw [List.foldl_cons, ih (resolve bri bc rid x s), resolve_rows_length]

theorem foldl_resolve_var2value (bri : Nat) (bc : ℚ) (x : Nat) :
    ∀ (l : List Nat) (s : MBO),
      ((l.foldl (fun s rid => resolve bri bc rid x s) s)).var2value = s.var2value := by
  intro l
  induction l with
  | nil => intro s; rfl
  | cons rid t ih =>
    intro s
    rw [List.foldl_cons, ih (resolve bri bc rid x s), resolve_var2value]

/-- A successful `maximize` iteration kills exactly one live row (the bound
row), so the live-row count strictly decreases. -/
theorem maximize_step_liveCount (s : MBO) (x : Nat) (coeff : ℚ) (s4 : MBO) (bri : Nat)
    (h : maximize_step s x coeff = some (s4, bri)) :
    liveCount s4 + 1 = liveCount s := by
  unfold maximize_step at h
  rcases hfb : find_bound x (decide (0 < coeff)) s with ⟨bound, above, below⟩
  rw [hfb] at h
  cases bound with
  | none => cases h
  | some b =>
    simp only at h
    have hb1 := congrArg Prod.snd (Option.some.inj h)
    have hs4 := congrArg Prod.fst (Option.some.inj h)
    simp only at hb1 hs4
    subst hb1
    subst hs4
    obtain ⟨a1, _, _, _, _, _, _⟩ := find_bound_spec s x (decide (0 < coeff))
    have hfb1 : (find_bound x (decide (0 < coeff)) s).1 = some b := by rw [hfb]
    obtain ⟨_, ⟨hal, _, _⟩, _, _, _, _⟩ := a1 b.1 b.2.1 b.2.2 (by rw [hfb1])
    set s1 := above.foldl (fun s rid => resolve b.1 b.2.2 rid x s) s with hs1
    set s2 := below.foldl (fun s rid => resolve b.1 b.2.2 rid x s) s1 with hs2
    set s3 := mul_add false objective_id (-coeff / b.2.2) b.1 s2 with hs3
    have halive3 : ∀ j : Nat, (getRow s3 j).alive = (getRow s j).alive := by
      intro j
      rw [hs3, mul_add_alive, hs2, foldl_resolve_alive, hs1, foldl_resolve_alive]
    have hlen3 : s3.rows.length = s.rows.length := by
      rw [hs3, mul_add_rows_length, hs2, foldl_resolve_rows_length, hs1,
        foldl_resolve_rows_length]
    have hal3 : (getRow s3 b.1).alive = true := by rw [halive3]; exact hal
    have hlt3 : b.1 < s3.rows.length := alive_lt_length s3 b.1 hal3
    have hkill := liveCount_kill s3 b.1 hlt3 hal3
      ⟨(getRow s3 b.1).vars, (getRow s3 b.1).coeff, (getRow s3 b.1).type,
        (getRow s3 b.1).value, false⟩ rfl
    have hcongr : liveCount s3 = liveCount s := liveCount_congr s3 s hlen3 halive3
    omega

/-- With fuel exceeding the live-row count, `maximize_loop` never exhausts
its fuel. -/
theorem maximize_loop_total :
    ∀ (fuel : Nat) (s : MBO) (bv bt : List Nat), liveCount s < fuel →
      maximize_loop fuel s bv bt ≠ none := by
  intro fuel
  induction fuel with
  | zero => intro s bv bt h; omega
  | succ fuel ih =>
    intro s bv bt h
    rw [maximize_loop]
    cases hlast : (getRow s objective_id).vars.getLast? with
    | none =>
      show (if (getRow (update_values bv bt s) objective_id).type = IneqType.t_lt
            then some (InfEps.finite (getRow (update_values bv bt s) objective_id).value (-1),
              update_values bv bt s)
            else some (InfEps.finite (getRow (update_values bv bt s) objective_id).value 0,
              update_values bv bt s)) ≠ none
      split
      · exact Option.some_ne_none _
      · exact Option.some_ne_none _
    | some v =>
      show (match maximize_step s v.id v.coeff with
            | some (s4, bri) => maximize_loop fuel s4 (bv ++ [v.id]) (bt ++ [bri])
            | none => some (InfEps.infinity, update_values bv bt s)) ≠ none
      cases hstep : maximize_step s v.id v.coeff with
      | none =>
        exact Option.some_ne_none _
      | some p =>
        have := maximize_step_liveCount s v.id v.coeff p.1 p.2 hstep
        exact ih p.1 (bv ++ [v.id]) (bt ++ [p.2]) (by omega)

/-! ### Step equations for the `project` selection scan -/

theorem pl_nil (s : MBO) (x : Nat) (xv : ℚ) (vs lub glb : List Nat)
    (li gi : Option Nat) (ls gs : Bool) (lv gv : ℚ) :
    project_loop s x xv [] vs lub glb li gi ls gs lv gv =
      ScanResult.finished lub glb li gi := by
  rfl

theorem pl_visited (s : MBO) (x : Nat) (xv : ℚ) (rid : Nat) (rest vs lub glb : List Nat)
    (li gi : Option Nat) (ls gs : Bool) (lv gv : ℚ) (h : rid ∈ vs) :
    project_loop s x xv (rid :: rest) vs lub glb li gi ls gs lv gv =
      project_loop s x xv rest vs lub glb li gi ls gs lv gv := by
  rw [project_loop]
  simp only [if_pos h]

theorem pl_dead (s : MBO) (x : Nat) (xv : ℚ) (rid : Nat) (rest vs lub glb : List Nat)
    (li gi : Option Nat) (ls gs : Bool) (lv gv : ℚ) (h : rid ∉ vs)
    (h2 : (getRow s rid).alive = false) :
    project_loop s x xv (rid :: rest) vs lub glb li gi ls gs lv gv =
      project_loop s x xv rest (rid :: vs) lub glb li gi ls gs lv gv := by
  rw [project_loop]
  simp only [if_neg h, h2, if_true]

theorem pl_zero (s : MBO) (x : Nat) (xv : ℚ) (rid : Nat) (rest vs lub glb : List Nat)
    (li gi : Option Nat) (ls gs : Bool) (lv gv : ℚ) (h : rid ∉ vs)
    (h2 : (getRow s rid).alive = true) (h3 : get_coefficient (getRow s rid) x = 0) :
    project_loop s x xv (rid :: rest) vs lub glb li gi ls gs lv gv =
      project_loop s x xv rest (rid :: vs) lub glb li gi ls gs lv gv := by
  rw [project_loop]
  simp only [if_neg h, h2, Bool.true_eq_false, if_false, h3, if_true]

theorem pl_eq (s : MBO) (x : Nat) (xv : ℚ) (rid : Nat) (rest vs lub glb : List Nat)
    (li gi : Option Nat) (ls gs : Bool) (lv gv : ℚ) (h : rid ∉ vs)
    (h2 : (getRow s rid).alive = true) (h3 : get_coefficient (getRow s rid) x ≠ 0)
    (h4 : (getRow s rid).type = IneqType.t_eq) :
    project_loop s x xv (rid :: rest) vs lub glb li gi ls gs lv gv =
      ScanResult.eqRow rid := by
  rw [project_loop]
  simp only [if_neg h, h2, Bool.true_eq_false, if_false, if_neg h3, if_pos h4]

theorem pl_pos_new (s : MBO) (x : Nat) (xv : ℚ) (rid : Nat) (rest vs lub glb : List Nat)
    (li gi : Option Nat) (ls gs : Bool) (lv gv : ℚ) (h : rid ∉ vs)
    (h2 : (getRow s rid).alive = true) (h3 : get_coefficient (getRow s rid) x ≠ 0)
    (h4 : (getRow s rid).type ≠ IneqType.t_eq)
    (h5 : 0 < get_coefficient (getRow s rid) x)
    (h6 : lub = [] ∨ xv - (getRow s rid).value / get_coefficient (getRow s rid) x < lv ∨
      (xv - (getRow s rid).value / get_coefficient (getRow s rid) x = lv ∧
        (getRow s rid).type = IneqType.t_lt ∧ ls = false)) :
    project_loop s x xv (rid :: rest) vs lub glb li gi ls gs lv gv =
      project_loop s x xv rest (rid :: vs) (lub ++ [rid]) glb (some rid) gi
        (decide ((getRow s rid).type = IneqType.t_lt)) gs
        (xv - (getRow s rid).value / get_coefficient (getRow s rid) x) gv := by
  rw [project_loop]
  simp only [if_neg h, h2, Bool.true_eq_false, if_false, if_neg h3, if_neg h4, if_pos h5]
  rw [if_pos h6]

theorem pl_pos_keep (s : MBO) (x : Nat) (xv : ℚ) (rid : Nat) (rest vs lub glb : List Nat)
    (li gi : Option Nat) (ls gs : Bool) (lv gv : ℚ) (h : rid ∉ vs)
    (h2 : (getRow s rid).alive = true) (h3 : get_coefficient (getRow s rid) x ≠ 0)
    (h4 : (getRow s rid).type ≠ IneqType.t_eq)
    (h5 : 0 < get_coefficient (getRow s rid) x)
    (h6 : ¬(lub = [] ∨ xv - (getRow s rid).value / get_coefficient (getRow s rid) x < lv ∨
      (xv - (getRow s rid).value / get_coefficient (getRow s rid) x = lv ∧
        (getRow s rid).type = IneqType.t_lt ∧ ls = false))) :
    project_loop s x xv (rid :: rest) vs lub glb li gi ls gs lv gv =
      project_loop s x xv rest (rid :: vs) (lub ++ [rid]) glb li gi ls gs lv gv := by
  rw [project_loop]
  simp only [if_neg h, h2, Bool.true_eq_false, if_false, if_neg h3, if_neg h4, if_pos h5]
  rw [if_neg h6]

theorem pl_neg_new (s : MBO) (x : Nat) (xv : ℚ) (rid : Nat) (rest vs lub glb : List Nat)
    (li gi : Option Nat) (ls gs : Bool) (lv gv : ℚ) (h : rid ∉ vs)
    (h2 : (getRow s rid).alive = true) (h3 : get_coefficient (getRow s rid) x ≠ 0)
    (h4 : (getRow s rid).type ≠ IneqType.t_eq)
    (h5 : ¬0 < get_coefficient (getRow s rid) x)
    (h6 : glb = [] ∨ gv < xv - (getRow s rid).value / get_coefficient (getRow s rid) x ∨
      (xv - (getRow s rid).value / get_coefficient (getRow s rid) x = gv ∧
        (getRow s rid).type = IneqType.t_lt ∧ gs = false)) :
    project_loop s x xv (rid :: rest) vs lub glb li gi ls gs lv gv =
      project_loop s x xv rest (rid :: vs) lub (glb ++ [rid]) li (some rid) ls
        (decide ((getRow s rid).type = IneqType.t_lt))
        lv (xv - (getRow s rid).value / get_coefficient (getRow s rid) x) := by
  rw [project_loop]
  simp only [if_neg h, h2, Bool.true_eq_false, if_false, if_neg h3, if_neg h4, if_neg h5]
  rw [if_pos h6]

theorem pl_neg_keep (s : MBO) (x : Nat) (xv : ℚ) (rid : Nat) (rest vs lub glb : List Nat)
    (li gi : Option Nat) (ls gs : Bool) (lv gv : ℚ) (h : rid ∉ vs)
    (h2 : (getRow s rid).alive = true) (h3 : get_coefficient (getRow s rid) x ≠ 0)
    (h4 : (getRow s rid).type ≠ IneqType.t_eq)
    (h5 : ¬0 < get_coefficient (getRow s rid) x)
    (h6 : ¬(glb = [] ∨ gv < xv - (getRow s rid).value / get_coefficient (getRow s rid) x ∨
      (xv - (getRow s rid).value / get_coefficient (getRow s rid) x = gv ∧
        (getRow s rid).type = IneqType.t_lt ∧ gs = false))) :
    project_loop s x xv (rid :: rest) vs lub glb li gi ls gs lv gv =
      project_loop s x xv rest (rid :: vs) lub (glb ++ [rid]) li gi ls gs lv gv := by
  rw [project_loop]
  simp only [if_neg h, h2, Bool.true_eq_false, if_false, if_neg h3, if_neg h4, if_neg h5]
  rw [if_neg h6]

/-! ### Preservation of `PLInv` across scan steps -/

theorem PLInv_skip (s : MBO) (x : Nat) (vs lub glb : List Nat) (li gi : Option Nat)
    (rid : Nat) (h : PLInv s x vs lub glb li gi)
    (hpos : ¬posCand s x rid) (hneg : ¬negCand s x rid) (heq : ¬eqCand s x rid) :
    PLInv s x (rid :: vs) lub glb li gi := by
  obtain ⟨h1, h2, h3, h4, h5, h6, h7, h8, h9⟩ := h
  refine ⟨?_, ?_, ?_, h4, h5, h6, h7, h8, h9⟩
  · intro r
    simp only [List.mem_cons]
    constructor
    · intro hr
      rcases (h1 r).1 hr with ⟨hrv, hrp⟩
      exact ⟨Or.inr hrv, hrp⟩
    · rintro ⟨hv, hrp⟩
      rcases hv with rfl | hrv
      · exact absurd hrp hpos
      · exact (h1 r).2 ⟨hrv, hrp⟩
  · intro r
    simp only [List.mem_cons]
    constructor
    · intro hr
      rcases (h2 r).1 hr with ⟨hrv, hrn⟩
      exact ⟨Or.inr hrv, hrn⟩
    · rintro ⟨hv, hrn⟩
      rcases hv with rfl | hrv
      · exact absurd hrn hneg
      · exact (h2 r).2 ⟨hrv, hrn⟩
  · intro r hr
    rcases List.mem_cons.1 hr with rfl | hrv
    · exact heq
    · exact h3 r hrv

theorem PLInv_pos_extend (s : MBO) (x : Nat) (vs lub glb : List Nat) (li gi : Option Nat)
    (rid : Nat) (li2 : Option Nat) (h : PLInv s x vs lub glb li gi) (hrid : rid ∉ vs)
    (hpos : posCand s x rid)
    (hli2 : ∀ ri, li2 = some ri → ri ∈ lub ++ [rid]) (hli2n : li2 ≠ none) :
    PLInv s x (rid :: vs) (lub ++ [rid]) glb li2 gi := by
  obtain ⟨h1, h2, h3, h4, h5, h6, h7, h8, h9⟩ := h
  have hnl : rid ∉ lub := fun hm => hrid ((h1 rid).1 hm).1
  refine ⟨?_, ?_, ?_, ?_, h5, hli2, fun hn => absurd hn hli2n, h8, h9⟩
  · intro r
    simp only [List.mem_append, List.mem_singleton, List.mem_cons, List.not_mem_nil, or_false]
    constructor
    · rintro (hr | rfl)
      · rcases (h1 r).1 hr with ⟨hrv, hrp⟩
        exact ⟨Or.inr hrv, hrp⟩
      · exact ⟨Or.inl rfl, hpos⟩
    · rintro ⟨hv, hrp⟩
      rcases hv with rfl | hrv
      · exact Or.inr rfl
      · exact Or.inl ((h1 r).2 ⟨hrv, hrp⟩)
  · intro r
    simp only [List.mem_cons]
    constructor
    · intro hr
      rcases (h2 r).1 hr with ⟨hrv, hrn⟩
      exact ⟨Or.inr hrv, hrn⟩
    · rintro ⟨hv, hrn⟩
      rcases hv with rfl | hrv
      · exact absurd hpos.2.1 (by simpa using le_of_lt hrn.2.1)
      · exact (h2 r).2 ⟨hrv, hrn⟩
  · intro r hr
    rcases List.mem_cons.1 hr with rfl | hrv
    · intro hc
      exact hpos.2.2 hc.2.2
    · exact h3 r hrv
  · simp only [List.nodup_append, List.nodup_cons, List.nodup_nil, and_true, true_and]
    exact ⟨h4, by simpa using hnl⟩

theorem PLInv_neg_extend (s : MBO) (x : Nat) (vs lub glb : List Nat) (li gi : Option Nat)
    (rid : Nat) (gi2 : Option Nat) (h : PLInv s x vs lub glb li gi) (hrid : rid ∉ vs)
    (hneg : negCand s x rid)
    (hgi2 : ∀ ri, gi2 = some ri → ri ∈ glb ++ [rid]) (hgi2n : gi2 ≠ none) :
    PLInv s x (rid :: vs) lub (glb ++ [rid]) li gi2 := by
  obtain ⟨h1, h2, h3, h4, h5, h6, h7, h8, h9⟩ := h
  have hnl : rid ∉ glb := fun hm => hrid ((h2 rid).1 hm).1
  refine ⟨?_, ?_, ?_, h4, ?_, h6, h7, hgi2, fun hn => absurd hn hgi2n⟩
  · intro r
    simp only [List.mem_cons]
    constructor
    · intro hr
      rcases (h1 r).1 hr with ⟨hrv, hrp⟩
      exact ⟨Or.inr hrv, hrp⟩
    · rintro ⟨hv, hrp⟩
      rcases hv with rfl | hrv
      · exact absurd hrp.2.1 (by simpa using le_of_lt hneg.2.1)
      · exact (h1 r).2 ⟨hrv, hrp⟩
  · intro r
    simp only [List.mem_append, List.mem_singleton, List.mem_cons, List.not_mem_nil, or_false]
    constructor
    · rintro (hr | rfl)
      · rcases (h2 r).1 hr with ⟨hrv, hrn⟩
        exact ⟨Or.inr hrv, hrn⟩
      · exact ⟨Or.inl rfl, hneg⟩
    · rintro ⟨hv, hrn⟩
      rcases hv with rfl | hrv
      · exact Or.inr rfl
      · exact Or.inl ((h2 r).2 ⟨hrv, hrn⟩)
  · intro r hr
    rcases List.mem_cons.1 hr with rfl | hrv
    · intro hc
      exact hneg.2.2 hc.2.2
    · exact h3 r hrv
  · simp only [List.nodup_append, List.nodup_cons, List.nodup_nil, and_true, true_and]
    exact ⟨h5, by simpa using hnl⟩

/-- The selection scan of `project` either finds an equality candidate or
finishes with `PLInv` over a visited set covering the whole input list. -/
theorem project_loop_inv (s : MBO) (x : Nat) (xv : ℚ) :
    ∀ (todo vs lub glb : List Nat) (li gi : Option Nat) (ls gs : Bool) (lv gv : ℚ),
      PLInv s x vs lub glb li gi →
      (∃ rid, project_loop s x xv todo vs lub glb li gi ls gs lv gv = ScanResult.eqRow rid ∧
        eqCand s x rid ∧ rid ∈ todo) ∨
      (∃ vs2 lub2 glb2 li2 gi2,
        project_loop s x xv todo vs lub glb li gi ls gs lv gv =
          ScanResult.finished lub2 glb2 li2 gi2 ∧
        (∀ rid, rid ∈ vs2 ↔ (rid ∈ vs ∨ rid ∈ todo)) ∧
        PLInv s x vs2 lub2 glb2 li2 gi2) := by
  intro todo
  induction todo with
  | nil =>
    intro vs lub glb li gi ls gs lv gv hinv
    right
    refine ⟨vs, lub, glb, li, gi, pl_nil s x xv vs lub glb li gi ls gs lv gv, ?_, hinv⟩
    intro rid
    simp
  | cons rid rest ih =>
    intro vs lub glb li gi ls gs lv gv hinv
    have hcons : ∀ vs2 : List Nat, (∀ r : Nat, r ∈ vs2 ↔ (r ∈ rid :: vs ∨ r ∈ rest)) →
        (∀ r : Nat, r ∈ vs2 ↔ (r ∈ vs ∨ r ∈ rid :: rest)) := by
      intro vs2 hv r
      rw [hv r]
      simp only [List.mem_cons]
      tauto
    by_cases hv : rid ∈ vs
    · rw [pl_visited s x xv rid rest vs lub glb li gi ls gs lv gv hv]
      rcases ih vs lub glb li gi ls gs lv gv hinv with ⟨r0, ha0, hb0, hc0⟩ | ⟨vs2, lub2, glb2, li2, gi2, heq, hiff, hinv2⟩
      · exact Or.inl ⟨r0, ha0, hb0, List.mem_cons_of_mem _ hc0⟩
      · right
        refine ⟨vs2, lub2, glb2, li2, gi2, heq, ?_, hinv2⟩
        intro r
        rw [hiff r]
        simp only [List.mem_cons]
        constructor
        · rintro (hr | hr)
          · exact Or.inl hr
          · exact Or.inr (Or.inr hr)
        · rintro (hr | rfl | hr)
          · exact Or.inl hr
          · exact Or.inl hv
          · exact Or.inr hr
    · by_cases ha : (getRow s rid).alive = true
      · by_cases h0 : get_coefficient (getRow s rid) x = 0
        · rw [pl_zero s x xv rid rest vs lub glb li gi ls gs lv gv hv ha h0]
          have hinv2 := PLInv_skip s x vs lub glb li gi rid hinv
            (fun hc => hc.2.1.ne.symm (by rw [h0])) (fun hc => hc.2.1.ne (by rw [h0]))
            (fun hc => hc.2.1 h0)
          rcases ih (rid :: vs) lub glb li gi ls gs lv gv hinv2 with ⟨r0, ha0, hb0, hc0⟩ | ⟨vs2, lub2, glb2, li2, gi2, heq, hiff, hinv3⟩
          · exact Or.inl ⟨r0, ha0, hb0, List.mem_cons_of_mem _ hc0⟩
          · exact Or.inr ⟨vs2, lub2, glb2, li2, gi2, heq, hcons vs2 hiff, hinv3⟩
        · by_cases he : (getRow s rid).type = IneqType.t_eq
          · rw [pl_eq s x xv rid rest vs lub glb li gi ls gs lv gv hv ha h0 he]
            exact Or.inl ⟨rid, rfl, ⟨ha, h0, he⟩, List.mem_cons_self _ _⟩
          · by_cases hp : 0 < get_coefficient (getRow s rid) x
            · have hposc : posCand s x rid := ⟨ha, hp, he⟩
              by_cases h6 : lub = [] ∨
                  xv - (getRow s rid).value / get_coefficient (getRow s rid) x < lv ∨
                  (xv - (getRow s rid).value / get_coefficient (getRow s rid) x = lv ∧
                    (getRow s rid).type = IneqType.t_lt ∧ ls = false)
              · rw [pl_pos_new s x xv rid rest vs lub glb li gi ls gs lv gv hv ha h0 he hp h6]
                have hinv2 := PLInv_pos_extend s x vs lub glb li gi rid (some rid) hinv hv
                  hposc (by intro ri hri; simp at hri; simp [hri]) (by simp)
                rcases ih (rid :: vs) (lub ++ [rid]) glb (some rid) gi _ gs _ gv hinv2 with
                  ⟨r0, ha0, hb0, hc0⟩ | ⟨vs2, lub2, glb2, li2, gi2, heq, hiff, hinv3⟩
                · exact Or.inl ⟨r0, ha0, hb0, List.mem_cons_of_mem _ hc0⟩
                · exact Or.inr ⟨vs2, lub2, glb2, li2, gi2, heq, hcons vs2 hiff, hinv3⟩
              · rw [pl_pos_keep s x xv rid rest vs lub glb li gi ls gs lv gv hv ha h0 he hp h6]
                have hlubne : lub ≠ [] := fun hnil => h6 (Or.inl hnil)
                have hli : ∃ ri, li = some ri := by
                  cases hli0 : li with
                  | none => exact absurd (hinv.2.2.2.2.2.2.1 hli0) hlubne
                  | some ri => exact ⟨ri, rfl⟩
                rcases hli with ⟨ri, hri⟩
                have hinv2 := PLInv_pos_extend s x vs lub glb li gi rid li hinv hv hposc
                  (by
                    intro r hr
                    rw [hri] at hr
                    cases hr
                    exact List.mem_append_left _ (hinv.2.2.2.2.2.1 ri hri))
                  (by rw [hri]; exact Option.some_ne_none _)
                rcases ih (rid :: vs) (lub ++ [rid]) glb li gi ls gs lv gv hinv2 with
                  ⟨r0, ha0, hb0, hc0⟩ | ⟨vs2, lub2, glb2, li2, gi2, heq, hiff, hinv3⟩
                · exact Or.inl ⟨r0, ha0, hb0, List.mem_cons_of_mem _ hc0⟩
                · exact Or.inr ⟨vs2, lub2, glb2, li2, gi2, heq, hcons vs2 hiff, hinv3⟩
            · have hnegc : negCand s x rid := ⟨ha, lt_of_le_of_ne (not_lt.1 hp) h0, he⟩
              by_cases h6 : glb = [] ∨
                  gv < xv - (getRow s rid).value / get_coefficient (getRow s rid) x ∨
                  (xv - (getRow s rid).value / get_coefficient (getRow s rid) x = gv ∧
                    (getRow s rid).type = IneqType.t_lt ∧ gs = false)
              · rw [pl_neg_new s x xv rid rest vs lub glb li gi ls gs lv gv hv ha h0 he hp h6]
                have hinv2 := PLInv_neg_extend s x vs lub glb li gi rid (some rid) hinv hv
                  hnegc (by intro ri hri; simp at hri; simp [hri]) (by simp)
                rcases ih (rid :: vs) lub (glb ++ [rid]) li (some rid) ls _ lv _ hinv2 with
                  ⟨r0, ha0, hb0, hc0⟩ | ⟨vs2, lub2, glb2, li2, gi2, heq, hiff, hinv3⟩
                · exact Or.inl ⟨r0, ha0, hb0, List.mem_cons_of_mem _ hc0⟩
                · exact Or.inr ⟨vs2, lub2, glb2, li2, gi2, heq, hcons vs2 hiff, hinv3⟩
              · rw [pl_neg_keep s x xv rid rest vs lub glb li gi ls gs lv gv hv ha h0 he hp h6]
                have hglbne : glb ≠ [] := fun hnil => h6 (Or.inl hnil)
                have hgi : ∃ ri, gi = some ri := by
                  cases hgi0 : gi with
                  | none => exact absurd (hinv.2.2.2.2.2.2.2.2 hgi0) hglbne
                  | some ri => exact ⟨ri, rfl⟩
                rcases hgi with ⟨ri, hri⟩
                have hinv2 := PLInv_neg_extend s x vs lub glb li gi rid gi hinv hv hnegc
                  (by
                    intro r hr
                    rw [hri] at hr
                    cases hr
                    exact List.mem_append_left _ (hinv.2.2.2.2.2.2.2.1 ri hri))
                  (by rw [hri]; exact Option.some_ne_none _)
                rcases ih (rid :: vs) lub (glb ++ [rid]) li gi ls gs lv gv hinv2 with
                  ⟨r0, ha0, hb0, hc0⟩ | ⟨vs2, lub2, glb2, li2, gi2, heq, hiff, hinv3⟩
                · exact Or.inl ⟨r0, ha0, hb0, List.mem_cons_of_mem _ hc0⟩
                · exact Or.inr ⟨vs2, lub2, glb2, li2, gi2, heq, hcons vs2 hiff, hinv3⟩
      · rw [pl_dead s x xv rid rest vs lub glb li gi ls gs lv gv hv (by simpa using ha)]
        have hinv2 := PLInv_skip s x vs lub glb li gi rid hinv
          (fun hc => ha hc.1) (fun hc => ha hc.1) (fun hc => ha hc.1)
        rcases ih (rid :: vs) lub glb li gi ls gs lv gv hinv2 with ⟨r0, ha0, hb0, hc0⟩ | ⟨vs2, lub2, glb2, li2, gi2, heq, hiff, hinv3⟩
        · exact Or.inl ⟨r0, ha0, hb0, List.mem_cons_of_mem _ hc0⟩
        · exact Or.inr ⟨vs2, lub2, glb2, li2, gi2, heq, hcons vs2 hiff, hinv3⟩

/-! ### Fold lemmas for the `project` branches and `solve_for` -/

theorem countP_set_le {α : Type} (p : α → Bool) :
    ∀ (l : List α) (i : Nat) (a : α), p a = false → (l.set i a).countP p ≤ l.countP p := by
  intro l
  induction l with
  | nil => intro i a _; simp
  | cons b t ih =>
    intro i a hpa
    cases i with
    | zero =>
      simp only [List.set]
      rw [countP_cons_general, countP_cons_general, hpa, if_neg (by simp)]
      by_cases hb : p b = true
      · rw [if_pos hb]
        omega
      · rw [if_neg hb]
    | succ i =>
      simp only [List.set]
      rw [countP_cons_general, countP_cons_general]
      have := ih i a hpa
      omega

theorem liveCount_kill_le (s : MBO) (i : Nat) (r : Row) (hr : r.alive = false) :
    liveCount (setRow s i r) ≤ liveCount s := by
  rw [liveCount_eq_countP, liveCount_eq_countP]
  exact countP_set_le _ s.rows i r (by rw [hr])

theorem foldl_kill_le :
    ∀ (l : List Nat) (s : MBO),
      liveCount (l.foldl (fun s rid => setRow s rid { getRow s rid with alive := false }) s) ≤
        liveCount s := by
  intro l
  induction l with
  | nil => intro s; exact le_refl _
  | cons rid t ih =>
    intro s
    rw [List.foldl_cons]
    exact le_trans (ih _) (liveCount_kill_le s rid _ rfl)

theorem foldl_kill_lt :
    ∀ (l : List Nat) (s : MBO) (rid : Nat), rid ∈ l → (getRow s rid).alive = true →
      liveCount (l.foldl (fun s rid => setRow s rid { getRow s rid with alive := false }) s) <
        liveCount s := by
  intro l
  induction l with
  | nil => intro s rid h; cases h
  | cons rid2 t ih =>
    intro s rid hmem ha
    rw [List.foldl_cons]
    by_cases heq : rid2 = rid
    · subst heq
      have hlt : rid2 < s.rows.length := alive_lt_length s rid2 ha
      have hk := liveCount_kill s rid2 hlt ha { getRow s rid2 with alive := false } rfl
      have hle := foldl_kill_le t (setRow s rid2 { getRow s rid2 with alive := false })
      omega
    · have hmem2 : rid ∈ t := by
        rcases List.mem_cons.1 hmem with h | h
        · exact absurd h.symm heq
        · exact h
      have ha2 : (getRow (setRow s rid2 { getRow s rid2 with alive := false }) rid).alive
          = true := by
        rw [getRow_setRow_ne s rid2 rid _ heq]
        exact ha
      have := ih (setRow s rid2 { getRow s rid2 with alive := false }) rid hmem2 ha2
      have hle := liveCount_kill_le s rid2 { getRow s rid2 with alive := false } rfl
      omega

theorem foldl_presolve_alive (ri : Nat) (c : ℚ) (x : Nat) :
    ∀ (l : List Nat) (s : MBO) (j : Nat),
      (getRow (l.foldl (fun s2 rid => if rid = ri then s2 else resolve ri c rid x s2) s) j).alive
        = (getRow s j).alive := by
  intro l
  induction l with
  | nil => intro s j; rfl
  | cons rid t ih =>
    intro s j
    rw [List.foldl_cons]
    by_cases h : rid = ri
    · simp only [if_pos h]
      exact ih s j
    · simp only [if_neg h]
      rw [ih (resolve ri c rid x s) j, resolve_alive]

theorem foldl_presolve_rows_length (ri : Nat) (c : ℚ) (x : Nat) :
    ∀ (l : List Nat) (s : MBO),
      ((l.foldl (fun s2 rid => if rid = ri then s2 else resolve ri c rid x s2) s)).rows.length
        = s.rows.length := by
  intro l
  induction l with
  | nil => intro s; rfl
  | cons rid t ih =>
    intro s
    rw [List.foldl_cons]
    by_cases h : rid = ri
    · simp only [if_pos h]
      exact ih s
    · simp only [if_neg h]
      rw [ih (resolve ri c rid x s), resolve_rows_length]

theorem solve_for_fold_alive (r1 : Nat) (a : ℚ) (x : Nat) :
    ∀ (l : List Nat) (acc : MBO × List Nat) (j : Nat),
      (getRow (l.foldl
        (fun acc rid2 => if rid2 ∈ acc.2 then acc else (resolve r1 a rid2 x acc.1, rid2 :: acc.2))
        acc).1 j).alive = (getRow acc.1 j).alive := by
  intro l
  induction l with
  | nil => intro acc j; rfl
  | cons rid2 t ih =>
    intro acc j
    rw [List.foldl_cons]
    by_cases h : rid2 ∈ acc.2
    · simp only [if_pos h]
      exact ih acc j
    · simp only [if_neg h]
      rw [ih (resolve r1 a rid2 x acc.1, rid2 :: acc.2) j]
      exact resolve_alive r1 a rid2 x acc.1 j

theorem solve_for_fold_rows_length (r1 : Nat) (a : ℚ) (x : Nat) :
    ∀ (l : List Nat) (acc : MBO × List Nat),
      ((l.foldl
        (fun acc rid2 => if rid2 ∈ acc.2 then acc else (resolve r1 a rid2 x acc.1, rid2 :: acc.2))
        acc).1).rows.length = acc.1.rows.length := by
  intro l
  induction l with
  | nil => intro acc; rfl
  | cons rid2 t ih =>
    intro acc
    rw [List.foldl_cons]
    by_cases h : rid2 ∈ acc.2
    · simp only [if_pos h]
      exact ih acc
    · simp only [if_neg h]
      rw [ih (resolve r1 a rid2 x acc.1, rid2 :: acc.2)]
      exact resolve_rows_length r1 a rid2 x acc.1

/-- `solve_for` kills exactly one live row: the equality row it eliminates
with. -/
theorem solve_for_liveCount (r1 x : Nat) (s : MBO) (ha : (getRow s r1).alive = true) :
    liveCount (solve_for r1 x s) + 1 = liveCount s := by
  have hrw : solve_for r1 x s = setRow
      ((rowIdsOf s x).foldl
        (fun acc rid2 => if rid2 ∈ acc.2 then acc
          else (resolve r1 (get_coefficient (getRow s r1) x) rid2 x acc.1, rid2 :: acc.2))
        (s, [r1])).1 r1
      ⟨(getRow ((rowIdsOf s x).foldl
          (fun acc rid2 => if rid2 ∈ acc.2 then acc
            else (resolve r1 (get_coefficient (getRow s r1) x) rid2 x acc.1, rid2 :: acc.2))
          (s, [r1])).1 r1).vars,
        (getRow ((rowIdsOf s x).foldl
          (fun acc rid2 => if rid2 ∈ acc.2 then acc
            else (resolve r1 (get_coefficient (getRow s r1) x) rid2 x acc.1, rid2 :: acc.2))
          (s, [r1])).1 r1).coeff,
        (getRow ((rowIdsOf s x).foldl
          (fun acc rid2 => if rid2 ∈ acc.2 then acc
            else (resolve r1 (get_coefficient (getRow s r1) x) rid2 x acc.1, rid2 :: acc.2))
          (s, [r1])).1 r1).type,
        (getRow ((rowIdsOf s x).foldl
          (fun acc rid2 => if rid2 ∈ acc.2 then acc
            else (resolve r1 (get_coefficient (getRow s r1) x) rid2 x acc.1, rid2 :: acc.2))
          (s, [r1])).1 r1).value, false⟩ := rfl
  rw [hrw]
  have hal : ∀ j : Nat, (getRow ((rowIdsOf s x).foldl
      (fun acc rid2 => if rid2 ∈ acc.2 then acc
        else (resolve r1 (get_coefficient (getRow s r1) x) rid2 x acc.1, rid2 :: acc.2))
      (s, [r1])).1 j).alive = (getRow s j).alive := by
    intro j
    exact solve_for_fold_alive r1 (get_coefficient (getRow s r1) x) x (rowIdsOf s x) (s, [r1]) j
  have hlen := solve_for_fold_rows_length r1 (get_coefficient (getRow s r1) x) x
    (rowIdsOf s x) (s, [r1])
  have hcnt := liveCount_congr _ s hlen hal
  have hal1 := hal r1
  rw [ha] at hal1
  have hklt := alive_lt_length _ r1 hal1
  have hk := liveCount_kill _ r1 hklt hal1
    ⟨(getRow ((rowIdsOf s x).foldl
        (fun acc rid2 => if rid2 ∈ acc.2 then acc
          else (resolve r1 (get_coefficient (getRow s r1) x) rid2 x acc.1, rid2 :: acc.2))
        (s, [r1])).1 r1).vars,
      (getRow ((rowIdsOf s x).foldl
        (fun acc rid2 => if rid2 ∈ acc.2 then acc
          else (resolve r1 (get_coefficient (getRow s r1) x) rid2 x acc.1, rid2 :: acc.2))
        (s, [r1])).1 r1).coeff,
      (getRow ((rowIdsOf s x).foldl
        (fun acc rid2 => if rid2 ∈ acc.2 then acc
          else (resolve r1 (get_coefficient (getRow s r1) x) rid2 x acc.1, rid2 :: acc.2))
        (s, [r1])).1 r1).type,
      (getRow ((rowIdsOf s x).foldl
        (fun acc rid2 => if rid2 ∈ acc.2 then acc
          else (resolve r1 (get_coefficient (getRow s r1) x) rid2 x acc.1, rid2 :: acc.2))
        (s, [r1])).1 r1).value, false⟩ rfl
  rw [← hcnt]
  exact hk

/-! ### Rewriting `project` by the outcome of its selection scan -/

theorem project_eq_eqRow (x : Nat) (s : MBO) (rid : Nat)
    (h : project_loop s x (valueOf s x) (rowIdsOf s x) [] [] [] none none false false 0 0 =
      ScanResult.eqRow rid) :
    project x s = solve_for rid x s := by
  unfold project
  rw [h]

theorem project_eq_finished (x : Nat) (s : MBO) (lub2 glb2 : List Nat) (li2 gi2 : Option Nat)
    (h : project_loop s x (valueOf s x) (rowIdsOf s x) [] [] [] none none false false 0 0 =
      ScanResult.finished lub2 glb2 li2 gi2) :
    project x s =
      match (if lub2.length ≤ glb2.length then li2 else gi2) with
      | none =>
        (glb2 ++ lub2).foldl (fun s rid => setRow s rid { getRow s rid with alive := false }) s
      | some ri =>
        setRow
          ((glb2 ++ lub2).foldl
            (fun s2 rid => if rid = ri then s2
              else resolve ri (get_coefficient (getRow s ri) x) rid x s2) s)
          ri
          { getRow ((glb2 ++ lub2).foldl
              (fun s2 rid => if rid = ri then s2
                else resolve ri (get_coefficient (getRow s ri) x) rid x s2) s) ri
            with alive := false } := by
  unfold project
  rw [h]

theorem project_eq_finished_none (x : Nat) (s : MBO) (lub2 glb2 : List Nat)
    (li2 gi2 : Option Nat)
    (h : project_loop s x (valueOf s x) (rowIdsOf s x) [] [] [] none none false false 0 0 =
      ScanResult.finished lub2 glb2 li2 gi2)
    (h2 : (if lub2.length ≤ glb2.length then li2 else gi2) = none) :
    project x s =
      (glb2 ++ lub2).foldl (fun s rid => setRow s rid { getRow s rid with alive := false }) s := by
  rw [project_eq_finished x s lub2 glb2 li2 gi2 h, h2]

theorem project_eq_finished_some (x : Nat) (s : MBO) (lub2 glb2 : List Nat)
    (li2 gi2 : Option Nat) (ri : Nat)
    (h : project_loop s x (valueOf s x) (rowIdsOf s x) [] [] [] none none false false 0 0 =
      ScanResult.finished lub2 glb2 li2 gi2)
    (h2 : (if lub2.length ≤ glb2.length then li2 else gi2) = some ri) :
    project x s =
      setRow
        ((glb2 ++ lub2).foldl
          (fun s2 rid => if rid = ri then s2
            else resolve ri (get_coefficient (getRow s ri) x) rid x s2) s)
        ri
        ⟨(getRow ((glb2 ++ lub2).foldl
            (fun s2 rid => if rid = ri then s2
              else resolve ri (get_coefficient (getRow s ri) x) rid x s2) s) ri).vars,
          (getRow ((glb2 ++ lub2).foldl
            (fun s2 rid => if rid = ri then s2
              else resolve ri (get_coefficient (getRow s ri) x) rid x s2) s) ri).coeff,
          (getRow ((glb2 ++ lub2).foldl
            (fun s2 rid => if rid = ri then s2
              else resolve ri (get_coefficient (getRow s ri) x) rid x s2) s) ri).type,
          (getRow ((glb2 ++ lub2).foldl
            (fun s2 rid => if rid = ri then s2
              else resolve ri (get_coefficient (getRow s ri) x) rid x s2) s) ri).value,
          false⟩ := by
  rw [project_eq_finished x s lub2 glb2 li2 gi2 h, h2]

theorem PLInv_init (s : MBO) (x : Nat) : PLInv s x [] [] [] none none := by
  refine ⟨?_, ?_, ?_, List.nodup_nil, List.nodup_nil, ?_, fun _ => rfl, ?_, fun _ => rfl⟩
  · intro rid
    simp
  · intro rid
    simp
  · intro rid hr
    simp at hr
  · intro ri h
    cases h
  · intro ri h
    cases h

/-- When some live row with non-zero coefficient on `x` is indexed for `x`,
`project x` strictly decreases the number of live rows. -/
theorem project_kills (x : Nat) (s : MBO) (rid0 : Nat) (hm : rid0 ∈ rowIdsOf s x)
    (ha0 : (getRow s rid0).alive = true) (hc0 : get_coefficient (getRow s rid0) x ≠ 0) :
    liveCount (project x s) < liveCount s := by
  rcases project_loop_inv s x (valueOf s x) (rowIdsOf s x) [] [] [] none none false false 0 0
      (PLInv_init s x) with
    ⟨re, heq, hec, hremem⟩ | ⟨vs2, lub2, glb2, li2, gi2, heq, hiff, hinv2⟩
  · rw [project_eq_eqRow x s re heq]
    have := solve_for_liveCount re x s hec.1
    omega
  · obtain ⟨h1, h2, h3, h4, h5, h6, h7, h8, h9⟩ := hinv2
    have hvs : rid0 ∈ vs2 := (hiff rid0).2 (Or.inr hm)
    have hne : (getRow s rid0).type ≠ IneqType.t_eq := by
      intro he
      exact h3 rid0 hvs ⟨ha0, hc0, he⟩
    have hmem : rid0 ∈ glb2 ++ lub2 := by
      rcases lt_trichotomy (get_coefficient (getRow s rid0) x) 0 with hlt | hz | hgt
      · exact List.mem_append_left _ ((h2 rid0).2 ⟨hvs, ha0, hlt, hne⟩)
      · exact absurd hz hc0
      · exact List.mem_append_right _ ((h1 rid0).2 ⟨hvs, ha0, hgt, hne⟩)
    cases hri : (if lub2.length ≤ glb2.length then li2 else gi2) with
    | none =>
      rw [project_eq_finished_none x s lub2 glb2 li2 gi2 heq hri]
      exact foldl_kill_lt (glb2 ++ lub2) s rid0 hmem ha0
    | some ri =>
      rw [project_eq_finished_some x s lub2 glb2 li2 gi2 ri heq hri]
      have hrimem : ri ∈ glb2 ++ lub2 := by
        by_cases hl : lub2.length ≤ glb2.length
        · rw [if_pos hl] at hri
          exact List.mem_append_right _ (h6 ri hri)
        · rw [if_neg hl] at hri
          exact List.mem_append_left _ (h8 ri hri)
      have hria : (getRow s ri).alive = true := by
        rcases List.mem_append.1 hrimem with hg | hlm
        · exact ((h2 ri).1 hg).2.1
        · exact ((h1 ri).1 hlm).2.1
      have halp : (getRow ((glb2 ++ lub2).foldl
          (fun s2 rid => if rid = ri then s2
            else resolve ri (get_coefficient (getRow s ri) x) rid x s2) s) ri).alive = true := by
        rw [foldl_presolve_alive]
        exact hria
      have hlen2 := foldl_presolve_rows_length ri (get_coefficient (getRow s ri) x) x
        (glb2 ++ lub2) s
      have hcnt : liveCount ((glb2 ++ lub2).foldl
          (fun s2 rid => if rid = ri then s2
            else resolve ri (get_coefficient (getRow s ri) x) rid x s2) s) = liveCount s :=
        liveCount_congr _ s hlen2
          (fun j => foldl_presolve_alive ri (get_coefficient (getRow s ri) x) x (glb2 ++ lub2) s j)
      have hklt := alive_lt_length _ ri halp
      have hk := liveCount_kill _ ri hklt halp
        ⟨(getRow ((glb2 ++ lub2).foldl
            (fun s2 rid => if rid = ri then s2
              else resolve ri (get_coefficient (getRow s ri) x) rid x s2) s) ri).vars,
          (getRow ((glb2 ++ lub2).foldl
            (fun s2 rid => if rid = ri then s2
              else resolve ri (get_coefficient (getRow s ri) x) rid x s2) s) ri).coeff,
          (getRow ((glb2 ++ lub2).foldl
            (fun s2 rid => if rid = ri then s2
              else resolve ri (get_coefficient (getRow s ri) x) rid x s2) s) ri).type,
          (getRow ((glb2 ++ lub2).foldl
            (fun s2 rid => if rid = ri then s2
              else resolve ri (get_coefficient (getRow s ri) x) rid x s2) s) ri).value,
          false⟩ rfl
      omega

/-! ### Claim C5 -/

/-- C5 (amended): `maximize` always terminates, but the termination measure
is the live-row count, not the objective's variable set — every successful
iteration kills exactly one live row, so with fuel exceeding the live-row
count the loop never exhausts its fuel; and `project x` kills at least one
row whenever some live row with non-zero coefficient on `x` is indexed for
`x` (absent such a row, `project` kills nothing). -/
theorem claim_C5 (fuel : Nat) (s s2 : MBO) (x : Nat) (h : liveCount s < fuel)
    (href : ∃ rid ∈ rowIdsOf s2 x,
      (getRow s2 rid).alive = true ∧ get_coefficient (getRow s2 rid) x ≠ 0) :
    maximize fuel s ≠ none ∧
    (∀ x2 c s4 bri, maximize_step s x2 c = some (s4, bri) → liveCount s4 + 1 = liveCount s) ∧
    liveCount (project x s2) < liveCount s2 := by
  obtain ⟨rid0, hm, ha0, hc0⟩ := href
  exact ⟨maximize_loop_total fuel s [] [] h,
    fun x2 c s4 bri hst => maximize_step_liveCount s x2 c s4 bri hst,
    project_kills x s2 rid0 hm ha0 hc0⟩

/-- Witness for C5 at the two-row tableau `wC5`. -/
theorem claim_C5_witness :
    (liveCount wC5 < 3 ∧ (1 ∈ rowIdsOf wC5 0 ∧
      (getRow wC5 1).alive = true ∧ get_coefficient (getRow wC5 1) 0 ≠ 0)) ∧
    (maximize 3 wC5 ≠ none ∧
      (∀ x2 c s4 bri, maximize_step wC5 x2 c = some (s4, bri) →
        liveCount s4 + 1 = liveCount wC5) ∧
      liveCount (project 0 wC5) < liveCount wC5) :=
  ⟨⟨by with_unfolding_all decide, by with_unfolding_all decide, by with_unfolding_all decide,
      by with_unfolding_all decide⟩,
    claim_C5 3 wC5 wC5 0 (by with_unfolding_all decide)
      ⟨1, by with_unfolding_all decide, by with_unfolding_all decide,
        by with_unfolding_all decide⟩⟩

/-- Counterexample to C5 as stated: a `maximize` iteration that eliminates
the objective's variable `x1` against the row `x1 - x0 <= 0` swaps `x1` for
`x0`, so the objective's variable set does not shrink; and `project` on a
variable referenced by no row kills nothing. -/
theorem claim_C5_counterexample :
    ((getRow wC5 objective_id).vars.map LinVar.id = [1]) ∧
    ((maximize_step wC5 1 1).map (fun p => (getRow p.1 objective_id).vars.map LinVar.id)
      = some [0]) ∧
    liveCount (project 2 wC5) = liveCount wC5 ∧ liveCount wC5 = 2 := by
  with_unfolding_all decide

/-! ### Row-content lemmas for the `project` folds -/

theorem set_oob {α : Type} :
    ∀ (l : List α) (i : Nat) (a : α), l.length ≤ i → l.set i a = l := by
  intro l
  induction l with
  | nil => intro i a _; rfl
  | cons b t ih =>
    intro i a h
    cases i with
    | zero => simp at h
    | succ i =>
      simp only [List.set]
      rw [ih i a (by simpa using h)]

theorem getRow_oob (s : MBO) (j : Nat) (h : s.rows.length ≤ j) : getRow s j = default := by
  unfold getRow
  exact getD_of_le s.rows j default h

theorem foldl_kill_getRow_not_mem :
    ∀ (l : List Nat) (s : MBO) (j : Nat), j ∉ l →
      getRow (l.foldl (fun s rid => setRow s rid { getRow s rid with alive := false }) s) j =
        getRow s j := by
  intro l
  induction l with
  | nil => intro s j _; rfl
  | cons rid t ih =>
    intro s j hj
    rw [List.foldl_cons]
    have hjr : j ≠ rid := fun h => hj (h ▸ List.mem_cons_self _ _)
    have hjt : j ∉ t := fun h => hj (List.mem_cons_of_mem _ h)
    rw [ih _ j hjt]
    exact getRow_setRow_ne s rid j _ (fun h => hjr h.symm)

theorem foldl_kill_dead :
    ∀ (l : List Nat) (s : MBO) (rid : Nat), rid ∈ l →
      (getRow (l.foldl (fun s rid => setRow s rid { getRow s rid with alive := false }) s)
        rid).alive = false := by
  intro l
  induction l with
  | nil => intro s rid h; cases h
  | cons rid2 t ih =>
    intro s rid hmem
    rw [List.foldl_cons]
    by_cases ht : rid ∈ t
    · exact ih _ rid ht
    · have hr2 : rid = rid2 := by
        rcases List.mem_cons.1 hmem with h | h
        · exact h
        · exact absurd h ht
      subst hr2
      rw [foldl_kill_getRow_not_mem t _ rid ht]
      by_cases hlen : rid < s.rows.length
      · rw [getRow_setRow_self s rid _ hlen]
      · have hset : setRow s rid { getRow s rid with alive := false } = s := by
          unfold setRow
          rw [set_oob s.rows rid _ (Nat.le_of_not_lt hlen)]
        rw [hset, getRow_oob s rid (Nat.le_of_not_lt hlen)]
        rfl

theorem foldl_presolve_getRow_src (ri : Nat) (c : ℚ) (x : Nat) :
    ∀ (l : List Nat) (s : MBO),
      getRow ((l.foldl (fun s2 rid => if rid = ri then s2 else resolve ri c rid x s2) s)) ri =
        getRow s ri := by
  intro l
  induction l with
  | nil => intro s; rfl
  | cons rid t ih =>
    intro s
    rw [List.foldl_cons]
    by_cases h : rid = ri
    · simp only [if_pos h]
      exact ih s
    · simp only [if_neg h]
      rw [ih (resolve ri c rid x s)]
      exact resolve_getRow_ne ri c rid x s ri (fun h2 => h h2.symm)

theorem foldl_presolve_getRow_not_mem (ri : Nat) (c : ℚ) (x : Nat) :
    ∀ (l : List Nat) (s : MBO) (j : Nat), j ∉ l →
      getRow ((l.foldl (fun s2 rid => if rid = ri then s2 else resolve ri c rid x s2) s)) j =
        getRow s j := by
  intro l
  induction l with
  | nil => intro s j _; rfl
  | cons rid t ih =>
    intro s j hj
    have hjr : j ≠ rid := fun h => hj (h ▸ List.mem_cons_self _ _)
    have hjt : j ∉ t := fun h => hj (List.mem_cons_of_mem _ h)
    rw [List.foldl_cons]
    by_cases h : rid = ri
    · simp only [if_pos h]
      exact ih s j hjt
    · simp only [if_neg h]
      rw [ih (resolve ri c rid x s) j hjt]
      exact resolve_getRow_ne ri c rid x s j hjr

theorem foldl_presolve_resolved (ri : Nat) (c : ℚ) (x : Nat) :
    ∀ (l : List Nat) (s : MBO) (j : Nat), l.Nodup → j ∈ l → j ≠ ri →
      ∃ t : MBO, getRow t j = getRow s j ∧ getRow t ri = getRow s ri ∧
        getRow ((l.foldl (fun s2 rid => if rid = ri then s2 else resolve ri c rid x s2) s)) j =
          getRow (resolve ri c j x t) j := by
  intro l
  induction l with
  | nil => intro s j _ h; cases h
  | cons rid t ih =>
    intro s j hnd hmem hjri
    rw [List.foldl_cons]
    by_cases h : rid = ri
    · simp only [if_pos h]
      have hmt : j ∈ t := by
        rcases List.mem_cons.1 hmem with h2 | h2
        · exact absurd (h2.trans h) hjri
        · exact h2
      exact ih s j (List.Nodup.of_cons hnd) hmt hjri
    · simp only [if_neg h]
      by_cases hj : j = rid
      · subst hj
        have hnt : j ∉ t := (List.nodup_cons.1 hnd).1
        refine ⟨s, rfl, rfl, ?_⟩
        exact foldl_presolve_getRow_not_mem ri c x t _ j hnt
      · have hmt : j ∈ t := by
          rcases List.mem_cons.1 hmem with h2 | h2
          · exact absurd h2 hj
          · exact h2
        obtain ⟨t2, e1, e2, e3⟩ := ih (resolve ri c rid x s) j (List.Nodup.of_cons hnd)
          hmt hjri
        refine ⟨t2, ?_, ?_, e3⟩
        · rw [e1]
          exact resolve_getRow_ne ri c rid x s j hj
        · rw [e2]
          exact resolve_getRow_ne ri c rid x s ri (fun h2 => h h2.symm)

/-- Resolving a live destination row against a source row whose coefficient
on `x` is `a1` cancels `x` exactly in the destination. -/
theorem resolve_coeff_zero (ri : Nat) (a1 : ℚ) (j x : Nat) (t : MBO)
    (hsrc : get_coefficient (getRow t ri) x = a1) (ha1 : a1 ≠ 0)
    (ha : (getRow t j).alive = true)
    (hs1 : SortedVars (getRow t ri).vars) (hs2 : SortedVars (getRow t j).vars) :
    get_coefficient (getRow (resolve ri a1 j x t) j) x = 0 := by
  by_cases h2 : get_coefficient (getRow t j) x = 0
  · unfold resolve
    rw [if_pos ha]
    show get_coefficient (getRow (mul_add
      (decide (j ≠ objective_id ∧ (0 < a1 ↔ 0 < get_coefficient (getRow t j) x)))
      j (-(get_coefficient (getRow t j) x) / a1) ri t) j) x = 0
    have hc0 : -(get_coefficient (getRow t j) x) / a1 = 0 := by
      rw [h2]
      simp
    rw [hc0, mul_add_zero]
    exact h2
  · have hlen : j < t.rows.length := by
      by_contra hno
      rw [getRow_oob t j (Nat.le_of_not_lt hno)] at h2
      exact h2 rfl
    have hc : -(get_coefficient (getRow t j) x) / a1 ≠ 0 :=
      div_ne_zero (neg_ne_zero.mpr h2) ha1
    rw [resolve_getRow_self ri a1 j x t ha hlen hc]
    have hsorted : SortedVars ((mulAddVars (-(get_coefficient (getRow t j) x) / a1)
        ((getRow t j).vars.length + (getRow t ri).vars.length)
        (getRow t j).vars (getRow t ri).vars).1) :=
      mulAddVars_sorted _ _ _ _ le_rfl hs2 hs1
    rw [get_coefficient_eq _ x hsorted]
    show coeffLookup ((mulAddVars (-(get_coefficient (getRow t j) x) / a1)
      ((getRow t j).vars.length + (getRow t ri).vars.length)
      (getRow t j).vars (getRow t ri).vars).1) x = 0
    rw [mulAddVars_lookup _ x _ _ _ le_rfl hs2 hs1]
    rw [← get_coefficient_eq _ x hs2, ← get_coefficient_eq _ x hs1, hsrc]
    field_simp

theorem solve_for_unfold (re x : Nat) (s : MBO) :
    solve_for re x s = setRow
      ((rowIdsOf s x).foldl
        (fun acc rid2 => if rid2 ∈ acc.2 then acc
          else (resolve re (get_coefficient (getRow s re) x) rid2 x acc.1, rid2 :: acc.2))
        (s, [re])).1 re
      ⟨(getRow ((rowIdsOf s x).foldl
          (fun acc rid2 => if rid2 ∈ acc.2 then acc
            else (resolve re (get_coefficient (getRow s re) x) rid2 x acc.1, rid2 :: acc.2))
          (s, [re])).1 re).vars,
        (getRow ((rowIdsOf s x).foldl
          (fun acc rid2 => if rid2 ∈ acc.2 then acc
            else (resolve re (get_coefficient (getRow s re) x) rid2 x acc.1, rid2 :: acc.2))
          (s, [re])).1 re).coeff,
        (getRow ((rowIdsOf s x).foldl
          (fun acc rid2 => if rid2 ∈ acc.2 then acc
            else (resolve re (get_coefficient (getRow s re) x) rid2 x acc.1, rid2 :: acc.2))
          (s, [re])).1 re).type,
        (getRow ((rowIdsOf s x).foldl
          (fun acc rid2 => if rid2 ∈ acc.2 then acc
            else (resolve re (get_coefficient (getRow s re) x) rid2 x acc.1, rid2 :: acc.2))
          (s, [re])).1 re).value, false⟩ := rfl

theorem solve_for_fold_visited_mono (re : Nat) (a : ℚ) (x : Nat) :
    ∀ (l : List Nat) (acc : MBO × List Nat) (k : Nat), k ∈ acc.2 →
      k ∈ (l.foldl (fun acc rid2 => if rid2 ∈ acc.2 then acc
        else (resolve re a rid2 x acc.1, rid2 :: acc.2)) acc).2 := by
  intro l
  induction l with
  | nil => intro acc k hk; exact hk
  | cons rid2 t ih =>
    intro acc k hk
    rw [List.foldl_cons]
    by_cases hm : rid2 ∈ acc.2
    · rw [if_pos hm]
      exact ih acc k hk
    · rw [if_neg hm]
      exact ih (resolve re a rid2 x acc.1, rid2 :: acc.2) k (List.mem_cons_of_mem _ hk)

/-- Invariant of the deduplicating resolve fold of `solve_for`: the source
row is preserved, unvisited rows are untouched, and every visited
non-source row that is live has coefficient zero on `x`. -/
theorem solve_for_fold_inv (re x : Nat) (s : MBO) (a : ℚ) (hrows : RowsOk s)
    (hsrc : get_coefficient (getRow s re) x = a) (ha1 : a ≠ 0) :
    ∀ (l : List Nat) (acc : MBO × List Nat), re ∈ acc.2 →
      getRow acc.1 re = getRow s re →
      (∀ k, k ∉ acc.2 → getRow acc.1 k = getRow s k) →
      (∀ k ∈ acc.2, k ≠ re → (getRow acc.1 k).alive = true →
        get_coefficient (getRow acc.1 k) x = 0) →
      (re ∈ (l.foldl (fun acc rid2 => if rid2 ∈ acc.2 then acc
          else (resolve re a rid2 x acc.1, rid2 :: acc.2)) acc).2 ∧
        getRow (l.foldl (fun acc rid2 => if rid2 ∈ acc.2 then acc
          else (resolve re a rid2 x acc.1, rid2 :: acc.2)) acc).1 re = getRow s re ∧
        (∀ k, k ∉ (l.foldl (fun acc rid2 => if rid2 ∈ acc.2 then acc
          else (resolve re a rid2 x acc.1, rid2 :: acc.2)) acc).2 →
          getRow (l.foldl (fun acc rid2 => if rid2 ∈ acc.2 then acc
            else (resolve re a rid2 x acc.1, rid2 :: acc.2)) acc).1 k = getRow s k) ∧
        (∀ k ∈ (l.foldl (fun acc rid2 => if rid2 ∈ acc.2 then acc
          else (resolve re a rid2 x acc.1, rid2 :: acc.2)) acc).2, k ≠ re →
          (getRow (l.foldl (fun acc rid2 => if rid2 ∈ acc.2 then acc
            else (resolve re a rid2 x acc.1, rid2 :: acc.2)) acc).1 k).alive = true →
          get_coefficient (getRow (l.foldl (fun acc rid2 => if rid2 ∈ acc.2 then acc
            else (resolve re a rid2 x acc.1, rid2 :: acc.2)) acc).1 k) x = 0) ∧
        (∀ k ∈ l, k ∈ (l.foldl (fun acc rid2 => if rid2 ∈ acc.2 then acc
          else (resolve re a rid2 x acc.1, rid2 :: acc.2)) acc).2)) := by
  intro l
  induction l with
  | nil =>
    intro acc hre hrow hun hvis
    exact ⟨hre, hrow, hun, hvis, fun k hk => absurd hk (List.not_mem_nil k)⟩
  | cons rid2 t ih =>
    intro acc hre hrow hun hvis
    rw [List.foldl_cons]
    by_cases hm : rid2 ∈ acc.2
    · rw [if_pos hm]
      obtain ⟨p1, p2, p3, p4, p5⟩ := ih acc hre hrow hun hvis
      refine ⟨p1, p2, p3, p4, ?_⟩
      intro k hk
      rcases List.mem_cons.1 hk with rfl | hk
      · exact solve_for_fold_visited_mono re a x t acc k hm
      · exact p5 k hk
    · rw [if_neg hm]
      have hrne : rid2 ≠ re := fun h => hm (h ▸ hre)
      have hacc1 : getRow (resolve re a rid2 x acc.1) re = getRow s re := by
        rw [resolve_getRow_ne re a rid2 x acc.1 re (fun h => hrne h.symm)]
        exact hrow
      have hacc2 : ∀ k, k ∉ rid2 :: acc.2 → getRow (resolve re a rid2 x acc.1) k
          = getRow s k := by
        intro k hk
        have hk2 : k ≠ rid2 := fun h => hk (h ▸ List.mem_cons_self _ _)
        have hk3 : k ∉ acc.2 := fun h => hk (List.mem_cons_of_mem _ h)
        rw [resolve_getRow_ne re a rid2 x acc.1 k hk2]
        exact hun k hk3
      have hacc3 : ∀ k ∈ rid2 :: acc.2, k ≠ re →
          (getRow (resolve re a rid2 x acc.1) k).alive = true →
          get_coefficient (getRow (resolve re a rid2 x acc.1) k) x = 0 := by
        intro k hk hkre hal
        rcases List.mem_cons.1 hk with rfl | hk2
        · have halo : (getRow acc.1 k).alive = true := by
            rw [← resolve_alive re a k x acc.1 k]
            exact hal
          exact resolve_coeff_zero re a k x acc.1 (by rw [hrow]; exact hsrc) ha1 halo
            (by rw [hrow]; exact (hrows re).1)
            (by rw [hun k hm]; exact (hrows k).1)
        · have hk3 : k ≠ rid2 := fun h => hm (h ▸ hk2)
          rw [resolve_getRow_ne re a rid2 x acc.1 k hk3] at hal ⊢
          exact hvis k hk2 hkre hal
      obtain ⟨p1, p2, p3, p4, p5⟩ := ih (resolve re a rid2 x acc.1, rid2 :: acc.2)
        (List.mem_cons_of_mem _ hre) hacc1 hacc2 hacc3
      refine ⟨p1, p2, p3, p4, ?_⟩
      intro k hk
      rcases List.mem_cons.1 hk with rfl | hk2
      · exact solve_for_fold_visited_mono re a x t
          (resolve re a k x acc.1, k :: acc.2) k (List.mem_cons_self _ _)
      · exact p5 k hk2

/-- After `solve_for`, every live row other than the objective has
coefficient zero on the eliminated variable. -/
theorem solve_for_coeff_zero (re x : Nat) (s : MBO) (hrows : RowsOk s) (hcomp : Complete s)
    (ha1 : get_coefficient (getRow s re) x ≠ 0) :
    ∀ rid, rid ≠ objective_id → (getRow (solve_for re x s) rid).alive = true →
      get_coefficient (getRow (solve_for re x s) rid) x = 0 := by
  intro rid hrid halive
  rw [solve_for_unfold re x s] at halive ⊢
  obtain ⟨p1, p2, p3, p4, p5⟩ := solve_for_fold_inv re x s (get_coefficient (getRow s re) x)
    hrows rfl ha1 (rowIdsOf s x) (s, [re]) (List.mem_singleton.2 rfl) rfl (fun k _ => rfl)
    (by
      intro k hk hkre
      rcases List.mem_singleton.1 hk with rfl
      exact absurd rfl hkre)
  by_cases hr : rid = re
  · exfalso
    rw [hr] at halive
    by_cases hl : re < ((rowIdsOf s x).foldl
        (fun acc rid2 => if rid2 ∈ acc.2 then acc
          else (resolve re (get_coefficient (getRow s re) x) rid2 x acc.1, rid2 :: acc.2))
        (s, [re])).1.rows.length
    · rw [getRow_setRow_self _ _ _ hl] at halive
      cases halive
    · have hset : ∀ r : Row, setRow ((rowIdsOf s x).foldl
          (fun acc rid2 => if rid2 ∈ acc.2 then acc
            else (resolve re (get_coefficient (getRow s re) x) rid2 x acc.1, rid2 :: acc.2))
          (s, [re])).1 re r = ((rowIdsOf s x).foldl
          (fun acc rid2 => if rid2 ∈ acc.2 then acc
            else (resolve re (get_coefficient (getRow s re) x) rid2 x acc.1, rid2 :: acc.2))
          (s, [re])).1 := by
        intro r
        unfold setRow
        rw [set_oob _ re r (Nat.le_of_not_lt hl)]
      rw [hset, getRow_oob _ re (Nat.le_of_not_lt hl)] at halive
      cases halive
  · rw [getRow_setRow_ne _ re rid _ (fun h => hr h.symm)] at halive ⊢
    by_cases hm : rid ∈ ((rowIdsOf s x).foldl
        (fun acc rid2 => if rid2 ∈ acc.2 then acc
          else (resolve re (get_coefficient (getRow s re) x) rid2 x acc.1, rid2 :: acc.2))
        (s, [re])).2
    · exact p4 rid hm hr halive
    · rw [p3 rid hm] at halive ⊢
      by_contra hcz
      have hex : ∃ e ∈ (getRow s rid).vars, e.id = x := by
        by_contra hno
        push_neg at hno
        rw [get_coefficient_eq _ x (hrows rid).1,
          coeffLookup_eq_zero (getRow s rid).vars x hno] at hcz
        exact hcz rfl
      obtain ⟨e, hev, hex2⟩ := hex
      have hidx : rid ∈ rowIdsOf s x := by
        have := hcomp rid hrid e hev
        rw [hex2] at this
        exact this
      exact hm (p5 rid hidx)

theorem rowsOk_of_fin (s : MBO) (h : ∀ rid, rid < s.rows.length → RowOk (getRow s rid)) :
    RowsOk s := by
  intro rid
  by_cases hr : rid < s.rows.length
  · exact h rid hr
  · rw [getRow_oob s rid (Nat.le_of_not_lt hr)]
    exact ⟨List.Pairwise.nil, fun e he => absurd he (List.not_mem_nil e)⟩

theorem complete_of_fin (s : MBO)
    (h : ∀ rid, rid < s.rows.length → rid ≠ objective_id →
      ∀ e ∈ (getRow s rid).vars, rid ∈ rowIdsOf s e.id) :
    Complete s := by
  intro rid hne e he
  by_cases hr : rid < s.rows.length
  · exact h rid hr hne e he
  · rw [getRow_oob s rid (Nat.le_of_not_lt hr)] at he
    exact absurd he (List.not_mem_nil e)

/-- C10: after `project x`, every live row other than the objective has
coefficient zero on `x`; only the objective row (never indexed) may still
reference `x`. -/
theorem claim_C10 (x : Nat) (s : MBO) (hrows : RowsOk s) (hcomp : Complete s) :
    ∀ rid, rid ≠ objective_id → (getRow (project x s) rid).alive = true →
      get_coefficient (getRow (project x s) rid) x = 0 := by
  intro rid hrid halive
  rcases project_loop_inv s x (valueOf s x) (rowIdsOf s x) [] [] [] none none false false 0 0
      (PLInv_init s x) with
    ⟨re, heq, hec, hremem⟩ | ⟨vs2, lub2, glb2, li2, gi2, heq, hiff, hinv2⟩
  · rw [project_eq_eqRow x s re heq] at halive ⊢
    exact solve_for_coeff_zero re x s hrows hcomp hec.2.1 rid hrid halive
  · obtain ⟨h1, h2, h3, h4, h5, h6, h7, h8, h9⟩ := hinv2
    have hdisj : ∀ r : Nat, r ∈ glb2 → r ∈ lub2 → False := by
      intro r hg hl
      have hpos := ((h1 r).1 hl).2.2.1
      have hneg := ((h2 r).1 hg).2.2.1
      exact absurd hpos (not_lt.2 (le_of_lt hneg))
    have hnodup : (glb2 ++ lub2).Nodup := by
      rw [List.nodup_append]
      exact ⟨h5, h4, fun a ha hb => hdisj a ha hb⟩
    have hmemprops : ∀ r ∈ glb2 ++ lub2,
        (getRow s r).alive = true ∧ get_coefficient (getRow s r) x ≠ 0 := by
      intro r hr
      rcases List.mem_append.1 hr with hg | hl
      · have hn := ((h2 r).1 hg).2
        exact ⟨hn.1, ne_of_lt hn.2.1⟩
      · have hp := ((h1 r).1 hl).2
        exact ⟨hp.1, (ne_of_lt hp.2.1).symm⟩
    have hnotmem : ∀ r : Nat, r ∉ glb2 ++ lub2 → r ≠ objective_id →
        (getRow s r).alive = true → get_coefficient (getRow s r) x = 0 := by
      intro r hnm hro halr
      by_contra hcz
      have hex : ∃ e ∈ (getRow s r).vars, e.id = x := by
        by_contra hno
        push_neg at hno
        rw [get_coefficient_eq _ x (hrows r).1,
          coeffLookup_eq_zero (getRow s r).vars x hno] at hcz
        exact hcz rfl
      obtain ⟨e, hev, hex2⟩ := hex
      have hidx : r ∈ rowIdsOf s x := by
        have := hcomp r hro e hev
        rw [hex2] at this
        exact this
      have hvs : r ∈ vs2 := (hiff r).2 (Or.inr hidx)
      have hne : (getRow s r).type ≠ IneqType.t_eq := fun he =>
        h3 r hvs ⟨halr, hcz, he⟩
      rcases lt_trichotomy (get_coefficient (getRow s r) x) 0 with hlt | hz | hgt
      · exact hnm (List.mem_append_left _ ((h2 r).2 ⟨hvs, halr, hlt, hne⟩))
      · exact hcz hz
      · exact hnm (List.mem_append_right _ ((h1 r).2 ⟨hvs, halr, hgt, hne⟩))
    cases hri : (if lub2.length ≤ glb2.length then li2 else gi2) with
    | none =>
      rw [project_eq_finished_none x s lub2 glb2 li2 gi2 heq hri] at halive ⊢
      by_cases hmem : rid ∈ glb2 ++ lub2
      · rw [foldl_kill_dead _ _ _ hmem] at halive
        cases halive
      · rw [foldl_kill_getRow_not_mem _ _ _ hmem] at halive ⊢
        exact hnotmem rid hmem hrid halive
    | some ri =>
      rw [project_eq_finished_some x s lub2 glb2 li2 gi2 ri heq hri] at halive ⊢
      have hrimem : ri ∈ glb2 ++ lub2 := by
        by_cases hl : lub2.length ≤ glb2.length
        · rw [if_pos hl] at hri
          exact List.mem_append_right _ (h6 ri hri)
        · rw [if_neg hl] at hri
          exact List.mem_append_left _ (h8 ri hri)
      by_cases hr : rid = ri
      · exfalso
        rw [hr] at halive
        by_cases hl : ri < ((glb2 ++ lub2).foldl
            (fun s2 rid => if rid = ri then s2
              else resolve ri (get_coefficient (getRow s ri) x) rid x s2) s).rows.length
        · rw [getRow_setRow_self _ _ _ hl] at halive
          cases halive
        · have hset : ∀ r : Row, setRow ((glb2 ++ lub2).foldl
              (fun s2 rid => if rid = ri then s2
                else resolve ri (get_coefficient (getRow s ri) x) rid x s2) s) ri r
              = ((glb2 ++ lub2).foldl
              (fun s2 rid => if rid = ri then s2
                else resolve ri (get_coefficient (getRow s ri) x) rid x s2) s) := by
            intro r
            unfold setRow
            rw [set_oob _ ri r (Nat.le_of_not_lt hl)]
          rw [hset, getRow_oob _ ri (Nat.le_of_not_lt hl)] at halive
          cases halive
      · rw [getRow_setRow_ne _ ri rid _ (fun h => hr h.symm)] at halive ⊢
        by_cases hmem : rid ∈ glb2 ++ lub2
        · obtain ⟨t, e1, e2, e3⟩ := foldl_presolve_resolved ri
            (get_coefficient (getRow s ri) x) x (glb2 ++ lub2) s rid hnodup hmem hr
          rw [e3] at halive ⊢
          have halo : (getRow t rid).alive = true := by
            rw [← resolve_alive ri (get_coefficient (getRow s ri) x) rid x t rid]
            exact halive
          exact resolve_coeff_zero ri (get_coefficient (getRow s ri) x) rid x t
            (by rw [e2]) (hmemprops ri hrimem).2 halo
            (by rw [e2]; exact (hrows ri).1)
            (by rw [e1]; exact (hrows rid).1)
        · rw [foldl_presolve_getRow_not_mem _ _ _ _ _ _ hmem] at halive ⊢
          exact hnotmem rid hmem hrid halive

/-- Witness for C10: projecting `x1` out of `wC10` leaves row 2 alive with
coefficient zero on `x1`. -/
theorem claim_C10_witness :
    (RowsOk wC10 ∧ Complete wC10) ∧
      ((getRow (project 1 wC10) 2).alive = true →
        get_coefficient (getRow (project 1 wC10) 2) 1 = 0) ∧
      ((getRow (project 1 wC10) 2).alive = true ∧
        get_coefficient (getRow (project 1 wC10) 2) 1 = 0) := by
  have hrows : RowsOk wC10 := rowsOk_of_fin wC10 (by with_unfolding_all decide)
  have hcomp : Complete wC10 := complete_of_fin wC10 (by with_unfolding_all decide)
  refine ⟨⟨hrows, hcomp⟩, claim_C10 1 wC10 hrows hcomp 2 (by decide), ?_, ?_⟩
  · with_unfolding_all decide
  · with_unfolding_all decide

theorem solve_for_fold_visited_sub (re : Nat) (a : ℚ) (x : Nat) :
    ∀ (l : List Nat) (acc : MBO × List Nat) (k : Nat),
      k ∈ (l.foldl (fun acc rid2 => if rid2 ∈ acc.2 then acc
        else (resolve re a rid2 x acc.1, rid2 :: acc.2)) acc).2 →
      k ∈ acc.2 ∨ k ∈ l := by
  intro l
  induction l with
  | nil => intro acc k hk; exact Or.inl hk
  | cons rid2 t ih =>
    intro acc k hk
    rw [List.foldl_cons] at hk
    by_cases hm : rid2 ∈ acc.2
    · rw [if_pos hm] at hk
      rcases ih acc k hk with h | h
      · exact Or.inl h
      · exact Or.inr (List.mem_cons_of_mem _ h)
    · rw [if_neg hm] at hk
      rcases ih (resolve re a rid2 x acc.1, rid2 :: acc.2) k hk with h | h
      · rcases List.mem_cons.1 h with rfl | h2
        · exact Or.inr (List.mem_cons_self _ _)
        · exact Or.inl h2
      · exact Or.inr (List.mem_cons_of_mem _ h)

/-- `solve_for` marks its equality row dead. -/
theorem solve_for_dead (re x : Nat) (s : MBO) :
    (getRow (solve_for re x s) re).alive = false := by
  rw [solve_for_unfold re x s]
  by_cases hl : re < ((rowIdsOf s x).foldl
      (fun acc rid2 => if rid2 ∈ acc.2 then acc
        else (resolve re (get_coefficient (getRow s re) x) rid2 x acc.1, rid2 :: acc.2))
      (s, [re])).1.rows.length
  · rw [getRow_setRow_self _ _ _ hl]
  · have hset : ∀ r : Row, setRow ((rowIdsOf s x).foldl
        (fun acc rid2 => if rid2 ∈ acc.2 then acc
          else (resolve re (get_coefficient (getRow s re) x) rid2 x acc.1, rid2 :: acc.2))
        (s, [re])).1 re r = ((rowIdsOf s x).foldl
        (fun acc rid2 => if rid2 ∈ acc.2 then acc
          else (resolve re (get_coefficient (getRow s re) x) rid2 x acc.1, rid2 :: acc.2))
        (s, [re])).1 := by
      intro r
      unfold setRow
      rw [set_oob _ re r (Nat.le_of_not_lt hl)]
    rw [hset, getRow_oob _ re (Nat.le_of_not_lt hl)]
    rfl

theorem solve_for_fold_untouched (re : Nat) (a : ℚ) (x : Nat) :
    ∀ (l : List Nat) (acc : MBO × List Nat) (j : Nat), j ∉ l →
      getRow (l.foldl (fun acc rid2 => if rid2 ∈ acc.2 then acc
        else (resolve re a rid2 x acc.1, rid2 :: acc.2)) acc).1 j = getRow acc.1 j := by
  intro l
  induction l with
  | nil => intro acc j _; rfl
  | cons rid2 t ih =>
    intro acc j hj
    have hjr : j ≠ rid2 := fun h => hj (h ▸ List.mem_cons_self _ _)
    have hjt : j ∉ t := fun h => hj (List.mem_cons_of_mem _ h)
    rw [List.foldl_cons]
    by_cases hm : rid2 ∈ acc.2
    · rw [if_pos hm]
      exact ih acc j hjt
    · rw [if_neg hm]
      rw [ih (resolve re a rid2 x acc.1, rid2 :: acc.2) j hjt]
      exact resolve_getRow_ne re a rid2 x acc.1 j hjr

/-- A row neither equal to the equality row nor indexed for `x` is untouched
by `solve_for`. -/
theorem solve_for_untouched (re x : Nat) (s : MBO) (j : Nat) (hj : j ≠ re)
    (hidx : j ∉ rowIdsOf s x) :
    getRow (solve_for re x s) j = getRow s j := by
  rw [solve_for_unfold re x s]
  rw [getRow_setRow_ne _ re j _ (fun h => hj h.symm)]
  exact solve_for_fold_untouched re (get_coefficient (getRow s re) x) x
    (rowIdsOf s x) (s, [re]) j hidx

theorem noObjIdx_of_fin (s : MBO)
    (h : ∀ v, v < s.var2row_ids.length → objective_id ∉ rowIdsOf s v) : NoObjIdx s := by
  intro v
  by_cases hv : v < s.var2row_ids.length
  · exact h v hv
  · unfold rowIdsOf
    rw [getD_of_le s.var2row_ids v [] (Nat.le_of_not_lt hv)]
    exact List.not_mem_nil _

/-- C7 (amended): when the selection scan of `project x` encounters a live
equality row on `x`, projection diverts to `solve_for`: every live *indexed*
row is resolved against the equality (canceling `x` exactly), the equality
row is marked dead — but the objective row is untouched, since it is never
indexed, so an objective referencing `x` keeps its coefficient. -/
theorem claim_C7 (x : Nat) (s : MBO) (re : Nat) (hrows : RowsOk s) (hcomp : Complete s)
    (hobj : NoObjIdx s)
    (heq : project_loop s x (valueOf s x) (rowIdsOf s x) [] [] [] none none false false 0 0 =
      ScanResult.eqRow re) :
    project x s = solve_for re x s ∧ eqCand s x re ∧
    (getRow (project x s) re).alive = false ∧
    (∀ rid, rid ≠ objective_id → (getRow (project x s) rid).alive = true →
      get_coefficient (getRow (project x s) rid) x = 0) ∧
    getRow (project x s) objective_id = getRow s objective_id := by
  rcases project_loop_inv s x (valueOf s x) (rowIdsOf s x) [] [] [] none none false false 0 0
      (PLInv_init s x) with
    ⟨r0, heq0, hec0, hmem0⟩ | ⟨vs2, lub2, glb2, li2, gi2, heq2, hiff, hinv2⟩
  · rw [heq] at heq0
    have hre : re = r0 := ScanResult.eqRow.inj heq0
    subst hre
    have hpe := project_eq_eqRow x s re heq
    have hobjne : objective_id ≠ re := fun h => hobj x (h ▸ hmem0)
    refine ⟨hpe, hec0, ?_, ?_, ?_⟩
    · rw [hpe]
      exact solve_for_dead re x s
    · intro rid hrid halive
      rw [hpe] at halive ⊢
      exact solve_for_coeff_zero re x s hrows hcomp hec0.2.1 rid hrid halive
    · rw [hpe]
      exact solve_for_untouched re x s objective_id hobjne (hobj x)
  · rw [heq] at heq2
    cases heq2

/-- Witness for C7 at `wC7` (equality row 1 on `x0`). -/
theorem claim_C7_witness :
    (RowsOk wC7 ∧ Complete wC7 ∧ NoObjIdx wC7 ∧
      project_loop wC7 0 (valueOf wC7 0) (rowIdsOf wC7 0) [] [] [] none none false false 0 0 =
        ScanResult.eqRow 1) ∧
    (project 0 wC7 = solve_for 1 0 wC7 ∧ eqCand wC7 0 1 ∧
      (getRow (project 0 wC7) 1).alive = false ∧
      (∀ rid, rid ≠ objective_id → (getRow (project 0 wC7) rid).alive = true →
        get_coefficient (getRow (project 0 wC7) rid) 0 = 0) ∧
      getRow (project 0 wC7) objective_id = getRow wC7 objective_id) := by
  have hrows : RowsOk wC7 := rowsOk_of_fin wC7 (by with_unfolding_all decide)
  have hcomp : Complete wC7 := complete_of_fin wC7 (by with_unfolding_all decide)
  have hobj : NoObjIdx wC7 := noObjIdx_of_fin wC7 (by with_unfolding_all decide)
  have hpl : project_loop wC7 0 (valueOf wC7 0) (rowIdsOf wC7 0) [] [] [] none none
      false false 0 0 = ScanResult.eqRow 1 := by with_unfolding_all decide
  exact ⟨⟨hrows, hcomp, hobj, hpl⟩, claim_C7 0 wC7 1 hrows hcomp hobj hpl⟩

/-- Counterexample to C7 as stated: in `wC7` the objective is live and
references `x0`, an equality row on `x0` is encountered, yet after
`project 0` the objective still carries coefficient 1 on `x0` — so not
every other live row referencing `x` gets `x` canceled. -/
theorem claim_C7_counterexample :
    (getRow wC7 objective_id).alive = true ∧
    get_coefficient (getRow wC7 objective_id) 0 = 1 ∧
    (getRow wC7 1).type = IneqType.t_eq ∧ (getRow wC7 1).alive = true ∧
    get_coefficient (getRow wC7 1) 0 ≠ 0 ∧
    (getRow (project 0 wC7) objective_id).alive = true ∧
    get_coefficient (getRow (project 0 wC7) objective_id) 0 = 1 := by
  with_unfolding_all decide

/-- C4 (amended): with a finished scan, the pivot is the representative of
the smaller side, and *every* candidate row on either side other than the
pivot is resolved against the pivot (its coefficient on `x` canceled, its
liveness preserved) — rows on the pivot's own side are resolved too, not
dropped; the pivot is marked dead.  With no pivot, every candidate row is
marked dead. -/
theorem claim_C4 (x : Nat) (s : MBO) (hrows : RowsOk s)
    (lub2 glb2 : List Nat) (li2 gi2 : Option Nat)
    (heq : project_loop s x (valueOf s x) (rowIdsOf s x) [] [] [] none none false false 0 0 =
      ScanResult.finished lub2 glb2 li2 gi2) :
    (∀ ri, (if lub2.length ≤ glb2.length then li2 else gi2) = some ri →
      (getRow (project x s) ri).alive = false ∧
      (∀ rid ∈ glb2 ++ lub2, rid ≠ ri →
        (getRow (project x s) rid).alive = (getRow s rid).alive ∧
        get_coefficient (getRow (project x s) rid) x = 0)) ∧
    ((if lub2.length ≤ glb2.length then li2 else gi2) = none →
      ∀ rid ∈ glb2 ++ lub2, (getRow (project x s) rid).alive = false) := by
  rcases project_loop_inv s x (valueOf s x) (rowIdsOf s x) [] [] [] none none false false 0 0
      (PLInv_init s x) with
    ⟨r0, heq0, hec0, hmem0⟩ | ⟨vs2, lub2b, glb2b, li2b, gi2b, heq2, hiff, hinv2⟩
  · rw [heq] at heq0
    cases heq0
  · rw [heq] at heq2
    obtain ⟨rfl, rfl, rfl, rfl⟩ :
        lub2b = lub2 ∧ glb2b = glb2 ∧ li2b = li2 ∧ gi2b = gi2 := by
      injection heq2 with e1 e2 e3 e4
      exact ⟨e1.symm, e2.symm, e3.symm, e4.symm⟩
    obtain ⟨h1, h2, h3, h4, h5, h6, h7, h8, h9⟩ := hinv2
    have hdisj : ∀ r : Nat, r ∈ glb2b → r ∈ lub2b → False := by
      intro r hg hl
      have hpos := ((h1 r).1 hl).2.2.1
      have hneg := ((h2 r).1 hg).2.2.1
      exact absurd hpos (not_lt.2 (le_of_lt hneg))
    have hnodup : (glb2b ++ lub2b).Nodup := by
      rw [List.nodup_append]
      exact ⟨h5, h4, fun a ha hb => hdisj a ha hb⟩
    have hmemprops : ∀ r ∈ glb2b ++ lub2b,
        (getRow s r).alive = true ∧ get_coefficient (getRow s r) x ≠ 0 := by
      intro r hr
      rcases List.mem_append.1 hr with hg | hl
      · have hn := ((h2 r).1 hg).2
        exact ⟨hn.1, ne_of_lt hn.2.1⟩
      · have hp := ((h1 r).1 hl).2
        exact ⟨hp.1, (ne_of_lt hp.2.1).symm⟩
    constructor
    · intro ri hri
      have hpe := project_eq_finished_some x s lub2b glb2b li2b gi2b ri heq hri
      have hrimem : ri ∈ glb2b ++ lub2b := by
        by_cases hl : lub2b.length ≤ glb2b.length
        · rw [if_pos hl] at hri
          exact List.mem_append_right _ (h6 ri hri)
        · rw [if_neg hl] at hri
          exact List.mem_append_left _ (h8 ri hri)
      constructor
      · rw [hpe]
        by_cases hl : ri < ((glb2b ++ lub2b).foldl
            (fun s2 rid => if rid = ri then s2
              else resolve ri (get_coefficient (getRow s ri) x) rid x s2) s).rows.length
        · rw [getRow_setRow_self _ _ _ hl]
        · have hset : ∀ r : Row, setRow ((glb2b ++ lub2b).foldl
              (fun s2 rid => if rid = ri then s2
                else resolve ri (get_coefficient (getRow s ri) x) rid x s2) s) ri r
              = ((glb2b ++ lub2b).foldl
              (fun s2 rid => if rid = ri then s2
                else resolve ri (get_coefficient (getRow s ri) x) rid x s2) s) := by
            intro r
            unfold setRow
            rw [set_oob _ ri r (Nat.le_of_not_lt hl)]
          rw [hset, getRow_oob _ ri (Nat.le_of_not_lt hl)]
          rfl
      · intro rid hmem hr
        rw [hpe, getRow_setRow_ne _ ri rid _ (fun h => hr h.symm)]
        obtain ⟨t, e1, e2, e3⟩ := foldl_presolve_resolved ri
          (get_coefficient (getRow s ri) x) x (glb2b ++ lub2b) s rid hnodup hmem hr
        rw [e3]
        constructor
        · rw [resolve_alive ri (get_coefficient (getRow s ri) x) rid x t rid, e1]
        · exact resolve_coeff_zero ri (get_coefficient (getRow s ri) x) rid x t
            (by rw [e2]) (hmemprops ri hrimem).2
            (by rw [e1]; exact (hmemprops rid hmem).1)
            (by rw [e2]; exact (hrows ri).1)
            (by rw [e1]; exact (hrows rid).1)
    · intro hri rid hmem
      rw [project_eq_finished_none x s lub2b glb2b li2b gi2b heq hri]
      exact foldl_kill_dead _ _ _ hmem

/-- Witness for C4 at `wC4`: the scan yields sides `[1, 2]` and
`[3, 4, 5]`, the pivot is row 1 from the smaller side. -/
theorem claim_C4_witness :
    (RowsOk wC4 ∧
      project_loop wC4 0 (valueOf wC4 0) (rowIdsOf wC4 0) [] [] [] none none false false 0 0 =
        ScanResult.finished [1, 2] [3, 4, 5] (some 1) (some 3)) ∧
    ((∀ ri, (if ([1, 2] : List Nat).length ≤ ([3, 4, 5] : List Nat).length
        then some 1 else some 3) = some ri →
      (getRow (project 0 wC4) ri).alive = false ∧
      (∀ rid ∈ ([3, 4, 5] : List Nat) ++ [1, 2], rid ≠ ri →
        (getRow (project 0 wC4) rid).alive = (getRow wC4 rid).alive ∧
        get_coefficient (getRow (project 0 wC4) rid) 0 = 0)) ∧
    ((if ([1, 2] : List Nat).length ≤ ([3, 4, 5] : List Nat).length
        then some 1 else some 3) = none →
      ∀ rid ∈ ([3, 4, 5] : List Nat) ++ [1, 2],
        (getRow (project 0 wC4) rid).alive = false)) := by
  have hrows : RowsOk wC4 := rowsOk_of_fin wC4 (by with_unfolding_all decide)
  have hpl : project_loop wC4 0 (valueOf wC4 0) (rowIdsOf wC4 0) [] [] [] none none
      false false 0 0 = ScanResult.finished [1, 2] [3, 4, 5] (some 1) (some 3) := by
    with_unfolding_all decide
  exact ⟨⟨hrows, hpl⟩, claim_C4 0 wC4 hrows [1, 2] [3, 4, 5] (some 1) (some 3) hpl⟩

/-- Counterexample to C4 as stated: in `wC4` the pivot (row 1) comes from
the smaller upper-bound side, yet its own-side companion row 2 is *not*
dropped — it survives `project 0` alive, resolved from `x0 + x1 <= 0` to
`x1 <= 0`. -/
theorem claim_C4_counterexample :
    (0 < get_coefficient (getRow wC4 2) 0) ∧ (get_coefficient (getRow wC4 3) 0 < 0) ∧
    (∀ rid ∈ rowIdsOf wC4 0, (getRow wC4 rid).type ≠ IneqType.t_eq) ∧
    (getRow wC4 2).vars.map LinVar.id = [0, 1] ∧
    (getRow (project 0 wC4) 1).alive = false ∧
    (getRow (project 0 wC4) 2).alive = true ∧
    (getRow (project 0 wC4) 2).vars.map LinVar.id = [1] := by
  with_unfolding_all decide

/-! ### Claim C9 -/

/-- C9: on `sC9`, `maximize` eliminates `x1` against the strict row
`x1 - x0 < 0` and later drives `x0` to exactly the old bound value, so in
`update_values` the perturbation `eps = min(1, |old - new| / 2)` is zero:
the final model `[1, 1]` gives the strict bound row the value `0` — it is
*not* strictly satisfied, contradicting the claimed guarantee and the
code's own `SASSERT(!eps.is_zero())` and row-invariant assertions. -/
theorem claim_C9 :
    (maximize 10 sC9).map (fun p =>
      (decide (p.1 = InfEps.finite (-1) (-1)),
        decide (p.2.var2value = [1, 1]),
        decide ((getRow p.2 1).value = 0),
        decide ((getRow p.2 1).type = IneqType.t_lt),
        decide (RowSat (getRow p.2 1)))) =
      some (true, true, true, true, false) := by
  with_unfolding_all decide

/-! ### Invariant preservation through `mul_add`, `resolve` and folds -/

theorem rowSum_congr (vals1 vals2 : List ℚ) :
    ∀ l : List LinVar, (∀ e ∈ l, vals1.getD e.id 0 = vals2.getD e.id 0) →
      rowSum vals1 l = rowSum vals2 l := by
  intro l
  induction l with
  | nil => intro _; rfl
  | cons v t ih =>
    intro h
    show v.coeff * vals1.getD v.id 0 + rowSum vals1 t
      = v.coeff * vals2.getD v.id 0 + rowSum vals2 t
    rw [h v (List.mem_cons_self _ _), ih (fun e he => h e (List.mem_cons_of_mem _ he))]

theorem mul_add_rowsOk (ss : Bool) (id1 : Nat) (c : ℚ) (id2 : Nat) (s : MBO)
    (hrows : RowsOk s) : RowsOk (mul_add ss id1 c id2 s) := by
  intro j
  by_cases hc : c = 0
  · rw [hc, mul_add_zero]
    exact hrows j
  · by_cases hj : j = id1
    · subst hj
      by_cases hlen : j < s.rows.length
      · rw [mul_add_getRow_self ss j c id2 s hc hlen]
        exact ⟨mulAddVars_sorted c _ _ _ le_rfl (hrows j).1 (hrows id2).1,
          mulAddVars_nonzero c hc _ _ _ le_rfl (hrows j).2 (hrows id2).2⟩
      · have hrow : getRow (mul_add ss j c id2 s) j = getRow s j := by
          unfold mul_add
          rw [if_neg hc]
          have hset : setRow s j (combineRow ss (getRow s j) c (getRow s id2)) = s := by
            unfold setRow
            rw [set_oob s.rows j _ (Nat.le_of_not_lt hlen)]
          by_cases ho : j = objective_id
          · rw [if_pos ho, hset]
          · rw [if_neg ho, getRow_pushRowIds, hset]
        rw [hrow]
        exact hrows j
    · rw [mul_add_getRow_ne ss id1 c id2 s j hj]
      exact hrows j

theorem mul_add_valsOk (ss : Bool) (id1 : Nat) (c : ℚ) (id2 : Nat) (s : MBO)
    (hvals : ValsOk s) : ValsOk (mul_add ss id1 c id2 s) := by
  intro j
  by_cases hc : c = 0
  · rw [hc, mul_add_zero]
    exact hvals j
  · have hvv : (mul_add ss id1 c id2 s).var2value = s.var2value :=
      mul_add_var2value ss id1 c id2 s
    by_cases hj : j = id1
    · subst hj
      by_cases hlen : j < s.rows.length
      · rw [mul_add_getRow_self ss j c id2 s hc hlen]
        show (getRow s j).value + c * (getRow s id2).value = _
        unfold get_row_value
        rw [hvv]
        show _ = ((getRow s j).coeff + c * (getRow s id2).coeff) +
          rowSum s.var2value (mulAddVars c ((getRow s j).vars.length +
            (getRow s id2).vars.length) (getRow s j).vars (getRow s id2).vars).1
        rw [mulAddVars_rowSum c s.var2value _ _ _ le_rfl]
        have h1 := hvals j
        have h2 := hvals id2
        unfold get_row_value at h1 h2
        rw [h1, h2]
        ring
      · have hrow : getRow (mul_add ss j c id2 s) j = getRow s j := by
          unfold mul_add
          rw [if_neg hc]
          have hset : setRow s j (combineRow ss (getRow s j) c (getRow s id2)) = s := by
            unfold setRow
            rw [set_oob s.rows j _ (Nat.le_of_not_lt hlen)]
          by_cases ho : j = objective_id
          · rw [if_pos ho, hset]
          · rw [if_neg ho, getRow_pushRowIds, hset]
        rw [hrow]
        unfold get_row_value
        rw [hvv]
        exact hvals j
    · rw [mul_add_getRow_ne ss id1 c id2 s j hj]
      unfold get_row_value
      rw [hvv]
      exact hvals j

theorem resolve_rowsOk (bri : Nat) (bc : ℚ) (rid x : Nat) (s : MBO)
    (hrows : RowsOk s) : RowsOk (resolve bri bc rid x s) := by
  unfold resolve
  by_cases ha : (getRow s rid).alive
  · rw [if_pos ha]
    exact mul_add_rowsOk _ _ _ _ _ hrows
  · rw [if_neg ha]
    exact hrows

theorem resolve_valsOk (bri : Nat) (bc : ℚ) (rid x : Nat) (s : MBO)
    (hvals : ValsOk s) : ValsOk (resolve bri bc rid x s) := by
  unfold resolve
  by_cases ha : (getRow s rid).alive
  · rw [if_pos ha]
    exact mul_add_valsOk _ _ _ _ _ hvals
  · rw [if_neg ha]
    exact hvals

theorem foldl_resolve_rowsOk (bri : Nat) (bc : ℚ) (x : Nat) :
    ∀ (l : List Nat) (s : MBO), RowsOk s →
      RowsOk (l.foldl (fun s rid => resolve bri bc rid x s) s) := by
  intro l
  induction l with
  | nil => intro s h; exact h
  | cons rid t ih =>
    intro s h
    rw [List.foldl_cons]
    exact ih _ (resolve_rowsOk bri bc rid x s h)

theorem foldl_resolve_valsOk (bri : Nat) (bc : ℚ) (x : Nat) :
    ∀ (l : List Nat) (s : MBO), ValsOk s →
      ValsOk (l.foldl (fun s rid => resolve bri bc rid x s) s) := by
  intro l
  induction l with
  | nil => intro s h; exact h
  | cons rid t ih =>
    intro s h
    rw [List.foldl_cons]
    exact ih _ (resolve_valsOk bri bc rid x s h)

theorem kill_rowsOk (s : MBO) (i : Nat) (hrows : RowsOk s) :
    RowsOk (setRow s i ⟨(getRow s i).vars, (getRow s i).coeff, (getRow s i).type,
      (getRow s i).value, false⟩) := by
  intro j
  by_cases hlen : i < s.rows.length
  · by_cases hj : j = i
    · subst hj
      rw [getRow_setRow_self s j _ hlen]
      exact hrows j
    · rw [getRow_setRow_ne s i j _ (fun h => hj h.symm)]
      exact hrows j
  · have hset : setRow s i ⟨(getRow s i).vars, (getRow s i).coeff, (getRow s i).type,
        (getRow s i).value, false⟩ = s := by
      unfold setRow
      rw [set_oob s.rows i _ (Nat.le_of_not_lt hlen)]
    rw [hset]
    exact hrows j

theorem kill_valsOk (s : MBO) (i : Nat) (hvals : ValsOk s) :
    ValsOk (setRow s i ⟨(getRow s i).vars, (getRow s i).coeff, (getRow s i).type,
      (getRow s i).value, false⟩) := by
  intro j
  have hvv : (setRow s i ⟨(getRow s i).vars, (getRow s i).coeff, (getRow s i).type,
      (getRow s i).value, false⟩).var2value = s.var2value := setRow_var2value s i _
  by_cases hlen : i < s.rows.length
  · by_cases hj : j = i
    · subst hj
      rw [getRow_setRow_self s j _ hlen]
      unfold get_row_value
      rw [hvv]
      exact hvals j
    · rw [getRow_setRow_ne s i j _ (fun h => hj h.symm)]
      unfold get_row_value
      rw [hvv]
      exact hvals j
  · have hset : setRow s i ⟨(getRow s i).vars, (getRow s i).coeff, (getRow s i).type,
        (getRow s i).value, false⟩ = s := by
      unfold setRow
      rw [set_oob s.rows i _ (Nat.le_of_not_lt hlen)]
    rw [hset]
    exact hvals j

theorem mul_add_complete (ss : Bool) (id1 : Nat) (c : ℚ) (id2 : Nat) (s : MBO)
    (hcomp : Complete s) (hvv : VarsValid s) : Complete (mul_add ss id1 c id2 s) := by
  by_cases hc : c = 0
  · rw [hc, mul_add_zero]
    exact hcomp
  · intro rid hrid e he
    by_cases hj : rid = id1
    · subst hj
      by_cases hlen : rid < s.rows.length
      · rw [mul_add_getRow_self ss rid c id2 s hc hlen] at he
        have he2 : e ∈ (mulAddVars c ((getRow s rid).vars.length +
            (getRow s id2).vars.length) (getRow s rid).vars (getRow s id2).vars).1 := he
        rcases mulAddVars_cover c _ _ _ le_rfl e he2 with ⟨u, hu, hue⟩ | hsnd
        · have := hcomp rid hrid u hu
          rw [hue] at this
          exact mul_add_index_mem ss rid c id2 s _ rid this
        · have hre : mul_add ss rid c id2 s = pushRowIds
              (setRow s rid (combineRow ss (getRow s rid) c (getRow s id2)))
              (mulAddVars c ((getRow s rid).vars.length + (getRow s id2).vars.length)
                (getRow s rid).vars (getRow s id2).vars).2 rid := by
            unfold mul_add
            rw [if_neg hc, if_neg hrid]
          rw [hre]
          obtain ⟨u2, hu2, hu2e⟩ := mulAddVars_snd_sub c _ _ _ le_rfl e.id hsnd
          have hidlen : e.id < (setRow s rid (combineRow ss (getRow s rid) c
              (getRow s id2))).var2row_ids.length := by
            rw [setRow_var2row_ids]
            rw [← hu2e]
            exact hvv id2 u2 hu2
          exact rowIdsOf_pushRowIds_self _ _ rid e.id hsnd hidlen
      · have hrow : getRow (mul_add ss rid c id2 s) rid = getRow s rid := by
          unfold mul_add
          rw [if_neg hc]
          have hset : setRow s rid (combineRow ss (getRow s rid) c (getRow s id2)) = s := by
            unfold setRow
            rw [set_oob s.rows rid _ (Nat.le_of_not_lt hlen)]
          by_cases ho : rid = objective_id
          · rw [if_pos ho, hset]
          · rw [if_neg ho, getRow_pushRowIds, hset]
        rw [hrow] at he
        exact mul_add_index_mem ss rid c id2 s _ rid (hcomp rid hrid e he)
    · rw [mul_add_getRow_ne ss id1 c id2 s rid hj] at he
      exact mul_add_index_mem ss id1 c id2 s _ rid (hcomp rid hrid e he)

theorem mul_add_noObjIdx (ss : Bool) (id1 : Nat) (c : ℚ) (id2 : Nat) (s : MBO)
    (hobj : NoObjIdx s) (hid1 : id1 ≠ objective_id) :
    NoObjIdx (mul_add ss id1 c id2 s) := by
  intro v hmem
  rcases mul_add_index_sub ss id1 c id2 s v objective_id hmem with h | h
  · exact hobj v h
  · exact hid1 h.symm

theorem mul_add_varsValid (ss : Bool) (id1 : Nat) (c : ℚ) (id2 : Nat) (s : MBO)
    (hvv : VarsValid s) : VarsValid (mul_add ss id1 c id2 s) := by
  by_cases hc : c = 0
  · rw [hc, mul_add_zero]
    exact hvv
  · intro rid e he
    have hlenv : (mul_add ss id1 c id2 s).var2row_ids.length = s.var2row_ids.length :=
      mul_add_var2row_ids_length ss id1 c id2 s
    rw [hlenv]
    by_cases hj : rid = id1
    · subst hj
      by_cases hlen : rid < s.rows.length
      · rw [mul_add_getRow_self ss rid c id2 s hc hlen] at he
        have he2 : e ∈ (mulAddVars c ((getRow s rid).vars.length +
            (getRow s id2).vars.length) (getRow s rid).vars (getRow s id2).vars).1 := he
        rcases mulAddVars_mem_ids c _ _ _ le_rfl e he2 with ⟨u, hu, hue⟩ | ⟨u, hu, hue⟩
        · rw [← hue]
          exact hvv rid u hu
        · rw [← hue]
          exact hvv id2 u hu
      · have hrow : getRow (mul_add ss rid c id2 s) rid = getRow s rid := by
          unfold mul_add
          rw [if_neg hc]
          have hset : setRow s rid (combineRow ss (getRow s rid) c (getRow s id2)) = s := by
            unfold setRow
            rw [set_oob s.rows rid _ (Nat.le_of_not_lt hlen)]
          by_cases ho : rid = objective_id
          · rw [if_pos ho, hset]
          · rw [if_neg ho, getRow_pushRowIds, hset]
        rw [hrow] at he
        exact hvv rid e he
    · rw [mul_add_getRow_ne ss id1 c id2 s rid hj] at he
      exact hvv rid e he

theorem resolve_complete (bri : Nat) (bc : ℚ) (rid x : Nat) (s : MBO)
    (hcomp : Complete s) (hvv : VarsValid s) (hrid : rid ≠ objective_id) :
    Complete (resolve bri bc rid x s) := by
  unfold resolve
  by_cases ha : (getRow s rid).alive
  · rw [if_pos ha]
    exact mul_add_complete _ _ _ _ _ hcomp hvv
  · rw [if_neg ha]
    exact hcomp

theorem resolve_noObjIdx (bri : Nat) (bc : ℚ) (rid x : Nat) (s : MBO)
    (hobj : NoObjIdx s) (hrid : rid ≠ objective_id) :
    NoObjIdx (resolve bri bc rid x s) := by
  unfold resolve
  by_cases ha : (getRow s rid).alive
  · rw [if_pos ha]
    exact mul_add_noObjIdx _ _ _ _ _ hobj hrid
  · rw [if_neg ha]
    exact hobj

theorem resolve_varsValid (bri : Nat) (bc : ℚ) (rid x : Nat) (s : MBO)
    (hvv : VarsValid s) : VarsValid (resolve bri bc rid x s) := by
  unfold resolve
  by_cases ha : (getRow s rid).alive
  · rw [if_pos ha]
    exact mul_add_varsValid _ _ _ _ _ hvv
  · rw [if_neg ha]
    exact hvv

/-! ### Shape lemmas for `update_values` -/

theorem setRow_value_shape (s : MBO) (i : Nat) (q : ℚ) (j : Nat) :
    (getRow (setRow s i { getRow s i with value := q }) j).vars = (getRow s j).vars ∧
    (getRow (setRow s i { getRow s i with value := q }) j).coeff = (getRow s j).coeff ∧
    (getRow (setRow s i { getRow s i with value := q }) j).type = (getRow s j).type ∧
    (getRow (setRow s i { getRow s i with value := q }) j).alive = (getRow s j).alive := by
  by_cases h : j = i
  · subst h
    by_cases hl : j < s.rows.length
    · rw [getRow_setRow_self s j _ hl]
      exact ⟨rfl, rfl, rfl, rfl⟩
    · have hset : setRow s j { getRow s j with value := q } = s := by
        unfold setRow
        rw [set_oob s.rows j _ (Nat.le_of_not_lt hl)]
      rw [hset]
      exact ⟨rfl, rfl, rfl, rfl⟩
  · rw [getRow_setRow_ne s i j _ (fun hh => h hh.symm)]
    exact ⟨rfl, rfl, rfl, rfl⟩

theorem uv_step_shape (s : MBO) (x rid : Nat) (j : Nat) :
    (getRow (uv_step s x rid) j).vars = (getRow s j).vars ∧
    (getRow (uv_step s x rid) j).coeff = (getRow s j).coeff ∧
    (getRow (uv_step s x rid) j).type = (getRow s j).type ∧
    (getRow (uv_step s x rid) j).alive = (getRow s j).alive :=
  setRow_value_shape _ rid _ j

theorem uv_recompute_shape (s : MBO) (rid : Nat) (j : Nat) :
    (getRow (uv_recompute_row s rid) j).vars = (getRow s j).vars ∧
    (getRow (uv_recompute_row s rid) j).coeff = (getRow s j).coeff ∧
    (getRow (uv_recompute_row s rid) j).type = (getRow s j).type ∧
    (getRow (uv_recompute_row s rid) j).alive = (getRow s j).alive :=
  setRow_value_shape s rid _ j

theorem uv_step_getRow_ne (s : MBO) (x rid j : Nat) (h : j ≠ rid) :
    getRow (uv_step s x rid) j = getRow s j :=
  getRow_setRow_ne _ rid j _ (fun hh => h hh.symm)

theorem uv_recompute_getRow_ne (s : MBO) (rid j : Nat) (h : j ≠ rid) :
    getRow (uv_recompute_row s rid) j = getRow s j :=
  getRow_setRow_ne _ rid j _ (fun hh => h hh.symm)

theorem uv_step_model_ne (s : MBO) (x rid v : Nat) (h : v ≠ x) :
    valueOf (uv_step s x rid) v = valueOf s v :=
  getD_set_ne s.var2value x v _ 0 (fun hh => h hh.symm)

theorem uv_step_var2row_ids (s : MBO) (x rid : Nat) :
    (uv_step s x rid).var2row_ids = s.var2row_ids := rfl

theorem uv_recompute_var2value (s : MBO) (rid : Nat) :
    (uv_recompute_row s rid).var2value = s.var2value := rfl

theorem uv_recompute_var2row_ids (s : MBO) (rid : Nat) :
    (uv_recompute_row s rid).var2row_ids = s.var2row_ids := rfl

theorem uv_step_rows_length (s : MBO) (x rid : Nat) :
    (uv_step s x rid).rows.length = s.rows.length := by
  unfold uv_step
  exact setRow_rows_length _ rid _

theorem uv_recompute_rows_length (s : MBO) (rid : Nat) :
    (uv_recompute_row s rid).rows.length = s.rows.length :=
  setRow_rows_length _ rid _

/-! ### The two loops of `update_values` -/

theorem uv_loop1_shape :
    ∀ (pairs : List (Nat × Nat)) (s : MBO) (j : Nat),
      (getRow (pairs.foldl (fun s p => uv_step s p.1 p.2) s) j).vars = (getRow s j).vars ∧
      (getRow (pairs.foldl (fun s p => uv_step s p.1 p.2) s) j).coeff = (getRow s j).coeff ∧
      (getRow (pairs.foldl (fun s p => uv_step s p.1 p.2) s) j).type = (getRow s j).type ∧
      (getRow (pairs.foldl (fun s p => uv_step s p.1 p.2) s) j).alive
        = (getRow s j).alive := by
  intro pairs
  induction pairs with
  | nil => intro s j; exact ⟨rfl, rfl, rfl, rfl⟩
  | cons p t ih =>
    intro s j
    rw [List.foldl_cons]
    obtain ⟨a1, a2, a3, a4⟩ := ih (uv_step s p.1 p.2) j
    obtain ⟨b1, b2, b3, b4⟩ := uv_step_shape s p.1 p.2 j
    exact ⟨a1.trans b1, a2.trans b2, a3.trans b3, a4.trans b4⟩

theorem uv_loop1_model :
    ∀ (pairs : List (Nat × Nat)) (s : MBO) (v : Nat), (∀ p ∈ pairs, v ≠ p.1) →
      valueOf (pairs.foldl (fun s p => uv_step s p.1 p.2) s) v = valueOf s v := by
  intro pairs
  induction pairs with
  | nil => intro s v _; rfl
  | cons p t ih =>
    intro s v hv
    rw [List.foldl_cons]
    rw [ih (uv_step s p.1 p.2) v (fun q hq => hv q (List.mem_cons_of_mem _ hq))]
    exact uv_step_model_ne s p.1 p.2 v (hv p (List.mem_cons_self _ _))

theorem uv_loop1_untouched :
    ∀ (pairs : List (Nat × Nat)) (s : MBO) (j : Nat), (∀ p ∈ pairs, j ≠ p.2) →
      getRow (pairs.foldl (fun s p => uv_step s p.1 p.2) s) j = getRow s j := by
  intro pairs
  induction pairs with
  | nil => intro s j _; rfl
  | cons p t ih =>
    intro s j hj
    rw [List.foldl_cons]
    rw [ih (uv_step s p.1 p.2) j (fun q hq => hj q (List.mem_cons_of_mem _ hq))]
    exact uv_step_getRow_ne s p.1 p.2 j (hj p (List.mem_cons_self _ _))

theorem uv_loop1_var2row_ids :
    ∀ (pairs : List (Nat × Nat)) (s : MBO),
      (pairs.foldl (fun s p => uv_step s p.1 p.2) s).var2row_ids = s.var2row_ids := by
  intro pairs
  induction pairs with
  | nil => intro s; rfl
  | cons p t ih =>
    intro s
    rw [List.foldl_cons, ih (uv_step s p.1 p.2), uv_step_var2row_ids]

theorem uv_loop1_rows_length :
    ∀ (pairs : List (Nat × Nat)) (s : MBO),
      (pairs.foldl (fun s p => uv_step s p.1 p.2) s).rows.length = s.rows.length := by
  intro pairs
  induction pairs with
  | nil => intro s; rfl
  | cons p t ih =>
    intro s
    rw [List.foldl_cons, ih (uv_step s p.1 p.2), uv_step_rows_length]

theorem uv_inner_var2value :
    ∀ (l : List Nat) (t : MBO),
      (l.foldl uv_recompute_row t).var2value = t.var2value := by
  intro l
  induction l with
  | nil => intro t; rfl
  | cons rid r ih =>
    intro t
    rw [List.foldl_cons, ih (uv_recompute_row t rid), uv_recompute_var2value]

theorem uv_inner_var2row_ids :
    ∀ (l : List Nat) (t : MBO),
      (l.foldl uv_recompute_row t).var2row_ids = t.var2row_ids := by
  intro l
  induction l with
  | nil => intro t; rfl
  | cons rid r ih =>
    intro t
    rw [List.foldl_cons, ih (uv_recompute_row t rid), uv_recompute_var2row_ids]

theorem uv_inner_shape :
    ∀ (l : List Nat) (t : MBO) (j : Nat),
      (getRow (l.foldl uv_recompute_row t) j).vars = (getRow t j).vars ∧
      (getRow (l.foldl uv_recompute_row t) j).coeff = (getRow t j).coeff ∧
      (getRow (l.foldl uv_recompute_row t) j).type = (getRow t j).type ∧
      (getRow (l.foldl uv_recompute_row t) j).alive = (getRow t j).alive := by
  intro l
  induction l with
  | nil => intro t j; exact ⟨rfl, rfl, rfl, rfl⟩
  | cons rid r ih =>
    intro t j
    rw [List.foldl_cons]
    obtain ⟨a1, a2, a3, a4⟩ := ih (uv_recompute_row t rid) j
    obtain ⟨b1, b2, b3, b4⟩ := uv_recompute_shape t rid j
    exact ⟨a1.trans b1, a2.trans b2, a3.trans b3, a4.trans b4⟩

theorem uv_inner_untouched :
    ∀ (l : List Nat) (t : MBO) (j : Nat), j ∉ l →
      getRow (l.foldl uv_recompute_row t) j = getRow t j := by
  intro l
  induction l with
  | nil => intro t j _; rfl
  | cons rid r ih =>
    intro t j hj
    rw [List.foldl_cons]
    rw [ih (uv_recompute_row t rid) j (fun hh => hj (List.mem_cons_of_mem _ hh))]
    exact uv_recompute_getRow_ne t rid j (fun hh => hj (hh ▸ List.mem_cons_self _ _))

theorem uv_recompute_good (t : MBO) (rid j : Nat)
    (h : (getRow t j).value = get_row_value t (getRow t j)) :
    (getRow (uv_recompute_row t rid) j).value
      = get_row_value (uv_recompute_row t rid) (getRow (uv_recompute_row t rid) j) := by
  obtain ⟨b1, _⟩ := uv_recompute_shape t rid j
  unfold get_row_value
  rw [uv_recompute_var2value, b1]
  by_cases hj : j = rid
  · subst hj
    by_cases hl : j < t.rows.length
    · unfold uv_recompute_row
      rw [getRow_setRow_self t j _ hl]
      exact rfl
    · have hset : uv_recompute_row t j = t := by
        unfold uv_recompute_row setRow
        rw [set_oob t.rows j _ (Nat.le_of_not_lt hl)]
      rw [hset]
      exact h
  · rw [uv_recompute_getRow_ne t rid j hj]
    exact h

theorem uv_recompute_good_self (t : MBO) (rid : Nat) :
    (getRow (uv_recompute_row t rid) rid).value
      = get_row_value (uv_recompute_row t rid) (getRow (uv_recompute_row t rid) rid) := by
  obtain ⟨b1, _⟩ := uv_recompute_shape t rid rid
  unfold get_row_value
  rw [uv_recompute_var2value, b1]
  by_cases hl : rid < t.rows.length
  · unfold uv_recompute_row
    rw [getRow_setRow_self t rid _ hl]
    exact rfl
  · have hset : uv_recompute_row t rid = t := by
      unfold uv_recompute_row setRow
      rw [set_oob t.rows rid _ (Nat.le_of_not_lt hl)]
    rw [hset]
    rw [getRow_oob t rid (Nat.le_of_not_lt hl)]
    show (0 : ℚ) = 0 + rowSum t.var2value []
    show (0 : ℚ) = 0 + 0
    rw [add_zero]

theorem uv_inner_good_mono :
    ∀ (l : List Nat) (t : MBO) (j : Nat),
      (getRow t j).value = get_row_value t (getRow t j) →
      (getRow (l.foldl uv_recompute_row t) j).value
        = get_row_value (l.foldl uv_recompute_row t) (getRow (l.foldl uv_recompute_row t) j) := by
  intro l
  induction l with
  | nil => intro t j h; exact h
  | cons rid r ih =>
    intro t j h
    rw [List.foldl_cons]
    exact ih (uv_recompute_row t rid) j (uv_recompute_good t rid j h)

theorem uv_inner_good_mem :
    ∀ (l : List Nat) (t : MBO) (j : Nat), j ∈ l →
      (getRow (l.foldl uv_recompute_row t) j).value
        = get_row_value (l.foldl uv_recompute_row t) (getRow (l.foldl uv_recompute_row t) j) := by
  intro l
  induction l with
  | nil => intro t j h; cases h
  | cons rid r ih =>
    intro t j hj
    rw [List.foldl_cons]
    by_cases hjr : j = rid
    · subst hjr
      exact uv_inner_good_mono r (uv_recompute_row t j) j (uv_recompute_good_self t j)
    · have hjt : j ∈ r := by
        rcases List.mem_cons.1 hj with h | h
        · exact absurd h hjr
        · exact h
      exact ih (uv_recompute_row t rid) j hjt

theorem uv_outer_var2value :
    ∀ (pairs : List (Nat × Nat)) (t : MBO),
      (pairs.foldl (fun s p => (rowIdsOf s p.1).foldl uv_recompute_row s) t).var2value
        = t.var2value := by
  intro pairs
  induction pairs with
  | nil => intro t; rfl
  | cons p r ih =>
    intro t
    rw [List.foldl_cons, ih, uv_inner_var2value]

theorem uv_outer_var2row_ids :
    ∀ (pairs : List (Nat × Nat)) (t : MBO),
      (pairs.foldl (fun s p => (rowIdsOf s p.1).foldl uv_recompute_row s) t).var2row_ids
        = t.var2row_ids := by
  intro pairs
  induction pairs with
  | nil => intro t; rfl
  | cons p r ih =>
    intro t
    rw [List.foldl_cons, ih, uv_inner_var2row_ids]

theorem uv_outer_shape :
    ∀ (pairs : List (Nat × Nat)) (t : MBO) (j : Nat),
      (getRow (pairs.foldl (fun s p => (rowIdsOf s p.1).foldl uv_recompute_row s) t) j).vars
        = (getRow t j).vars ∧
      (getRow (pairs.foldl (fun s p => (rowIdsOf s p.1).foldl uv_recompute_row s) t) j).coeff
        = (getRow t j).coeff ∧
      (getRow (pairs.foldl (fun s p => (rowIdsOf s p.1).foldl uv_recompute_row s) t) j).type
        = (getRow t j).type ∧
      (getRow (pairs.foldl (fun s p => (rowIdsOf s p.1).foldl uv_recompute_row s) t) j).alive
        = (getRow t j).alive := by
  intro pairs
  induction pairs with
  | nil => intro t j; exact ⟨rfl, rfl, rfl, rfl⟩
  | cons p r ih =>
    intro t j
    rw [List.foldl_cons]
    obtain ⟨a1, a2, a3, a4⟩ := ih ((rowIdsOf t p.1).foldl uv_recompute_row t) j
    obtain ⟨b1, b2, b3, b4⟩ := uv_inner_shape (rowIdsOf t p.1) t j
    exact ⟨a1.trans b1, a2.trans b2, a3.trans b3, a4.trans b4⟩

theorem uv_outer_good_mono :
    ∀ (pairs : List (Nat × Nat)) (t : MBO) (j : Nat),
      (getRow t j).value = get_row_value t (getRow t j) →
      (getRow (pairs.foldl (fun s p => (rowIdsOf s p.1).foldl uv_recompute_row s) t) j).value
        = get_row_value (pairs.foldl (fun s p => (rowIdsOf s p.1).foldl uv_recompute_row s) t)
          (getRow (pairs.foldl (fun s p => (rowIdsOf s p.1).foldl uv_recompute_row s) t) j) := by
  intro pairs
  induction pairs with
  | nil => intro t j h; exact h
  | cons p r ih =>
    intro t j h
    rw [List.foldl_cons]
    exact ih ((rowIdsOf t p.1).foldl uv_recompute_row t) j
      (uv_inner_good_mono (rowIdsOf t p.1) t j h)

theorem uv_outer_good_mem :
    ∀ (pairs : List (Nat × Nat)) (t : MBO) (j : Nat),
      (∃ p ∈ pairs, j ∈ rowIdsOf t p.1) →
      (getRow (pairs.foldl (fun s p => (rowIdsOf s p.1).foldl uv_recompute_row s) t) j).value
        = get_row_value (pairs.foldl (fun s p => (rowIdsOf s p.1).foldl uv_recompute_row s) t)
          (getRow (pairs.foldl (fun s p => (rowIdsOf s p.1).foldl uv_recompute_row s) t) j) := by
  intro pairs
  induction pairs with
  | nil =>
    intro t j h
    obtain ⟨p, hp, _⟩ := h
    cases hp
  | cons p r ih =>
    intro t j h
    rw [List.foldl_cons]
    obtain ⟨q, hq, hqj⟩ := h
    rcases List.mem_cons.1 hq with rfl | hq2
    · exact uv_outer_good_mono r ((rowIdsOf t q.1).foldl uv_recompute_row t) j
        (uv_inner_good_mem (rowIdsOf t q.1) t j hqj)
    · refine ih ((rowIdsOf t p.1).foldl uv_recompute_row t) j ⟨q, hq2, ?_⟩
      have : rowIdsOf ((rowIdsOf t p.1).foldl uv_recompute_row t) q.1 = rowIdsOf t q.1 := by
        unfold rowIdsOf
        rw [uv_inner_var2row_ids]
      rw [this]
      exact hqj

theorem uv_outer_untouched :
    ∀ (pairs : List (Nat × Nat)) (t : MBO) (j : Nat),
      (∀ p ∈ pairs, j ∉ rowIdsOf t p.1) →
      getRow (pairs.foldl (fun s p => (rowIdsOf s p.1).foldl uv_recompute_row s) t) j
        = getRow t j := by
  intro pairs
  induction pairs with
  | nil => intro t j _; rfl
  | cons p r ih =>
    intro t j hj
    rw [List.foldl_cons]
    have hidx : ∀ q ∈ r, j ∉ rowIdsOf ((rowIdsOf t p.1).foldl uv_recompute_row t) q.1 := by
      intro q hq
      have : rowIdsOf ((rowIdsOf t p.1).foldl uv_recompute_row t) q.1 = rowIdsOf t q.1 := by
        unfold rowIdsOf
        rw [uv_inner_var2row_ids]
      rw [this]
      exact hj q (List.mem_cons_of_mem _ hq)
    rw [ih ((rowIdsOf t p.1).foldl uv_recompute_row t) j hidx]
    exact uv_inner_untouched (rowIdsOf t p.1) t j (hj p (List.mem_cons_self _ _))

theorem update_values_eq (bv bt : List Nat) (s : MBO) :
    update_values bv bt s =
      ((bv.zip bt).reverse).foldl (fun s p => (rowIdsOf s p.1).foldl uv_recompute_row s)
        (((bv.zip bt).reverse).foldl (fun s p => uv_step s p.1 p.2) s) := rfl

theorem update_values_rowsOk (bv bt : List Nat) (s : MBO) (hrows : RowsOk s) :
    RowsOk (update_values bv bt s) := by
  rw [update_values_eq]
  intro j
  obtain ⟨a1, _⟩ := uv_outer_shape ((bv.zip bt).reverse)
    (((bv.zip bt).reverse).foldl (fun s p => uv_step s p.1 p.2) s) j
  obtain ⟨b1, _⟩ := uv_loop1_shape ((bv.zip bt).reverse) s j
  have := hrows j
  unfold RowOk at this ⊢
  rw [a1.trans b1]
  exact this

/-- After `update_values`, every row's cached value matches the final model:
rows referencing a trail variable (in particular every trail row) are
recomputed by the second loop, and all other rows reference only unchanged
variables. -/
theorem update_values_valsOk (bv bt : List Nat) (s : MBO)
    (hvals : ValsOk s) (hrows : RowsOk s) (hcomp : Complete s)
    (hobj : ∀ x ∈ bv, coeffLookup (getRow s objective_id).vars x = 0)
    (htr : ∀ p ∈ bv.zip bt, p.2 ∈ rowIdsOf s p.1) :
    ValsOk (update_values bv bt s) := by
  rw [update_values_eq]
  intro j
  have hridx : ∀ v : Nat, rowIdsOf (((bv.zip bt).reverse).foldl
      (fun s p => uv_step s p.1 p.2) s) v = rowIdsOf s v := by
    intro v
    unfold rowIdsOf
    rw [uv_loop1_var2row_ids]
  by_cases hcov : ∃ p ∈ (bv.zip bt).reverse,
      j ∈ rowIdsOf (((bv.zip bt).reverse).foldl (fun s p => uv_step s p.1 p.2) s) p.1
  · exact uv_outer_good_mem _ _ j hcov
  · push_neg at hcov
    have huv2 := uv_outer_untouched ((bv.zip bt).reverse)
      (((bv.zip bt).reverse).foldl (fun s p => uv_step s p.1 p.2) s) j hcov
    have hnot1 : ∀ p ∈ (bv.zip bt).reverse, j ≠ p.2 := by
      intro p hp hje
      have hps : p ∈ bv.zip bt := List.mem_reverse.1 hp
      apply hcov p hp
      rw [hridx p.1, hje]
      exact htr p hps
    have huv1 := uv_loop1_untouched ((bv.zip bt).reverse) s j hnot1
    rw [huv2, huv1]
    unfold get_row_value
    rw [uv_outer_var2value]
    have hvarsok : ∀ e ∈ (getRow s j).vars,
        ((((bv.zip bt).reverse).foldl (fun s p => uv_step s p.1 p.2) s)).var2value.getD e.id 0
          = s.var2value.getD e.id 0 := by
      intro e he
      have : valueOf (((bv.zip bt).reverse).foldl (fun s p => uv_step s p.1 p.2) s) e.id
          = valueOf s e.id := by
        apply uv_loop1_model
        intro p hp hee
        have hps : p ∈ bv.zip bt := List.mem_reverse.1 hp
        by_cases hjo : j = objective_id
        · have hin : p.1 ∈ bv := (List.of_mem_zip hps).1
          have h0 := hobj p.1 hin
          rw [← hjo] at h0
          have hcl := coeffLookup_mem p.1 (getRow s j).vars (hrows j).1 e he hee
          rw [hcl] at h0
          exact (hrows j).2 e he h0
        · have hidx := hcomp j hjo e he
          rw [hee] at hidx
          apply hcov p hp
          rw [hridx p.1]
          exact hidx
      exact this
    rw [rowSum_congr _ _ _ hvarsok]
    exact hvals j

/-! ### Content lemmas for the resolve folds of `maximize_step` -/

theorem foldl_rsv_not_mem (bri : Nat) (bc : ℚ) (x : Nat) :
    ∀ (l : List Nat) (s : MBO) (j : Nat), j ∉ l →
      getRow (l.foldl (fun s rid => resolve bri bc rid x s) s) j = getRow s j := by
  intro l
  induction l with
  | nil => intro s j _; rfl
  | cons rid t ih =>
    intro s j hj
    have hjr : j ≠ rid := fun h => hj (h ▸ List.mem_cons_self _ _)
    have hjt : j ∉ t := fun h => hj (List.mem_cons_of_mem _ h)
    rw [List.foldl_cons, ih (resolve bri bc rid x s) j hjt]
    exact resolve_getRow_ne bri bc rid x s j hjr

theorem foldl_rsv_resolved (bri : Nat) (bc : ℚ) (x : Nat) :
    ∀ (l : List Nat) (s : MBO) (j : Nat), l.Nodup → j ∈ l →
      ∃ t : MBO, getRow t j = getRow s j ∧
        (bri ∉ l → getRow t bri = getRow s bri) ∧
        getRow (l.foldl (fun s rid => resolve bri bc rid x s) s) j =
          getRow (resolve bri bc j x t) j := by
  intro l
  induction l with
  | nil => intro s j _ h; cases h
  | cons rid t ih =>
    intro s j hnd hmem
    rw [List.foldl_cons]
    by_cases hj : j = rid
    · subst hj
      have hnt : j ∉ t := (List.nodup_cons.1 hnd).1
      refine ⟨s, rfl, fun _ => rfl, ?_⟩
      exact foldl_rsv_not_mem bri bc x t _ j hnt
    · have hmt : j ∈ t := by
        rcases List.mem_cons.1 hmem with h2 | h2
        · exact absurd h2 hj
        · exact h2
      obtain ⟨t2, e1, e2, e3⟩ := ih (resolve bri bc rid x s) j (List.Nodup.of_cons hnd) hmt
      refine ⟨t2, ?_, ?_, e3⟩
      · rw [e1]
        exact resolve_getRow_ne bri bc rid x s j hj
      · intro hbr
        have hbt : bri ∉ t := fun h => hbr (List.mem_cons_of_mem _ h)
        have hbrid : bri ≠ rid := fun h => hbr (h ▸ List.mem_cons_self _ _)
        rw [e2 hbt]
        exact resolve_getRow_ne bri bc rid x s bri hbrid

theorem foldl_rsv_index_mem (bri : Nat) (bc : ℚ) (x : Nat) :
    ∀ (l : List Nat) (s : MBO) (v rid : Nat), rid ∈ rowIdsOf s v →
      rid ∈ rowIdsOf (l.foldl (fun s rid => resolve bri bc rid x s) s) v := by
  intro l
  induction l with
  | nil => intro s v rid h; exact h
  | cons r2 t ih =>
    intro s v rid h
    rw [List.foldl_cons]
    exact ih (resolve bri bc r2 x s) v rid (resolve_index_mem bri bc r2 x s v rid h)

theorem foldl_resolve_complete (bri : Nat) (bc : ℚ) (x : Nat) :
    ∀ (l : List Nat) (s : MBO), (∀ rid ∈ l, rid ≠ objective_id) →
      Complete s → VarsValid s →
      Complete (l.foldl (fun s rid => resolve bri bc rid x s) s) ∧
      VarsValid (l.foldl (fun s rid => resolve bri bc rid x s) s) := by
  intro l
  induction l with
  | nil => intro s _ hc hv; exact ⟨hc, hv⟩
  | cons r2 t ih =>
    intro s hno hc hv
    rw [List.foldl_cons]
    exact ih (resolve bri bc r2 x s) (fun rid hr => hno rid (List.mem_cons_of_mem _ hr))
      (resolve_complete bri bc r2 x s hc hv (hno r2 (List.mem_cons_self _ _)))
      (resolve_varsValid bri bc r2 x s hv)

theorem foldl_resolve_noObjIdx (bri : Nat) (bc : ℚ) (x : Nat) :
    ∀ (l : List Nat) (s : MBO), (∀ rid ∈ l, rid ≠ objective_id) → NoObjIdx s →
      NoObjIdx (l.foldl (fun s rid => resolve bri bc rid x s) s) := by
  intro l
  induction l with
  | nil => intro s _ h; exact h
  | cons r2 t ih =>
    intro s hno h
    rw [List.foldl_cons]
    exact ih (resolve bri bc r2 x s) (fun rid hr => hno rid (List.mem_cons_of_mem _ hr))
      (resolve_noObjIdx bri bc r2 x s h (hno r2 (List.mem_cons_self _ _)))

theorem kill_complete (s : MBO) (i : Nat) (hcomp : Complete s) :
    Complete (setRow s i ⟨(getRow s i).vars, (getRow s i).coeff, (getRow s i).type,
      (getRow s i).value, false⟩) := by
  intro rid hrid e he
  have hidx : rowIdsOf (setRow s i ⟨(getRow s i).vars, (getRow s i).coeff, (getRow s i).type,
      (getRow s i).value, false⟩) e.id = rowIdsOf s e.id := by
    unfold rowIdsOf
    rw [setRow_var2row_ids]
  rw [hidx]
  by_cases hlen : i < s.rows.length
  · by_cases hj : rid = i
    · subst hj
      rw [getRow_setRow_self s rid _ hlen] at he
      exact hcomp rid hrid e he
    · rw [getRow_setRow_ne s i rid _ (fun h => hj h.symm)] at he
      exact hcomp rid hrid e he
  · have hset : setRow s i ⟨(getRow s i).vars, (getRow s i).coeff, (getRow s i).type,
        (getRow s i).value, false⟩ = s := by
      unfold setRow
      rw [set_oob s.rows i _ (Nat.le_of_not_lt hlen)]
    rw [hset] at he
    exact hcomp rid hrid e he

theorem kill_noObjIdx (s : MBO) (i : Nat) (hobj : NoObjIdx s) :
    NoObjIdx (setRow s i ⟨(getRow s i).vars, (getRow s i).coeff, (getRow s i).type,
      (getRow s i).value, false⟩) := by
  intro v
  have hidx : rowIdsOf (setRow s i ⟨(getRow s i).vars, (getRow s i).coeff, (getRow s i).type,
      (getRow s i).value, false⟩) v = rowIdsOf s v := by
    unfold rowIdsOf
    rw [setRow_var2row_ids]
  rw [hidx]
  exact hobj v

theorem kill_varsValid (s : MBO) (i : Nat) (hvv : VarsValid s) :
    VarsValid (setRow s i ⟨(getRow s i).vars, (getRow s i).coeff, (getRow s i).type,
      (getRow s i).value, false⟩) := by
  intro rid e he
  have hlv : (setRow s i ⟨(getRow s i).vars, (getRow s i).coeff, (getRow s i).type,
      (getRow s i).value, false⟩).var2row_ids.length = s.var2row_ids.length := by
    rw [setRow_var2row_ids]
  rw [hlv]
  by_cases hlen : i < s.rows.length
  · by_cases hj : rid = i
    · subst hj
      rw [getRow_setRow_self s rid _ hlen] at he
      exact hvv rid e he
    · rw [getRow_setRow_ne s i rid _ (fun h => hj h.symm)] at he
      exact hvv rid e he
  · have hset : setRow s i ⟨(getRow s i).vars, (getRow s i).coeff, (getRow s i).type,
        (getRow s i).value, false⟩ = s := by
      unfold setRow
      rw [set_oob s.rows i _ (Nat.le_of_not_lt hlen)]
    rw [hset] at he
    exact hvv rid e he

theorem mul_add_obj_var2row_ids (ss : Bool) (c : ℚ) (id2 : Nat) (s : MBO) :
    (mul_add ss objective_id c id2 s).var2row_ids = s.var2row_ids := by
  unfold mul_add
  by_cases hc : c = 0
  · rw [if_pos hc]
  · rw [if_neg hc, if_pos rfl, setRow_var2row_ids]

theorem resolve_clean (bri : Nat) (bc : ℚ) (j x y : Nat) (t : MBO)
    (h1 : coeffLookup (getRow t j).vars y = 0) (h2 : coeffLookup (getRow t bri).vars y = 0)
    (hs1 : SortedVars (getRow t j).vars) (hs2 : SortedVars (getRow t bri).vars) :
    coeffLookup (getRow (resolve bri bc j x t) j).vars y = 0 := by
  unfold resolve
  by_cases ha : (getRow t j).alive = true
  · rw [if_pos ha]
    show coeffLookup (getRow (mul_add
      (decide (j ≠ objective_id ∧ (0 < bc ↔ 0 < get_coefficient (getRow t j) x)))
      j (-(get_coefficient (getRow t j) x) / bc) bri t) j).vars y = 0
    by_cases hc : -(get_coefficient (getRow t j) x) / bc = 0
    · rw [hc, mul_add_zero]
      exact h1
    · have hlen : j < t.rows.length := alive_lt_length t j ha
      rw [mul_add_getRow_self _ j _ bri t hc hlen]
      have he : (combineRow
          (decide (j ≠ objective_id ∧ (0 < bc ↔ 0 < get_coefficient (getRow t j) x)))
          (getRow t j) (-(get_coefficient (getRow t j) x) / bc) (getRow t bri)).vars
          = (mulAddVars (-(get_coefficient (getRow t j) x) / bc)
            ((getRow t j).vars.length + (getRow t bri).vars.length)
            (getRow t j).vars (getRow t bri).vars).1 := rfl
      rw [he, mulAddVars_lookup _ y _ _ _ le_rfl hs1 hs2, h1, h2]
      ring
  · rw [if_neg ha]
    exact h1

theorem maximize_step_eq (s : MBO) (x : Nat) (coeff : ℚ) (b : Nat × ℚ × ℚ)
    (above below : List Nat)
    (hfb : find_bound x (decide (0 < coeff)) s = (some b, above, below)) :
    maximize_step s x coeff = some
      (setRow
        (mul_add false objective_id (-coeff / b.2.2) b.1
          (below.foldl (fun s rid => resolve b.1 b.2.2 rid x s)
            (above.foldl (fun s rid => resolve b.1 b.2.2 rid x s) s)))
        b.1
        ⟨(getRow (mul_add false objective_id (-coeff / b.2.2) b.1
            (below.foldl (fun s rid => resolve b.1 b.2.2 rid x s)
              (above.foldl (fun s rid => resolve b.1 b.2.2 rid x s) s))) b.1).vars,
          (getRow (mul_add false objective_id (-coeff / b.2.2) b.1
            (below.foldl (fun s rid => resolve b.1 b.2.2 rid x s)
              (above.foldl (fun s rid => resolve b.1 b.2.2 rid x s) s))) b.1).coeff,
          (getRow (mul_add false objective_id (-coeff / b.2.2) b.1
            (below.foldl (fun s rid => resolve b.1 b.2.2 rid x s)
              (above.foldl (fun s rid => resolve b.1 b.2.2 rid x s) s))) b.1).type,
          (getRow (mul_add false objective_id (-coeff / b.2.2) b.1
            (below.foldl (fun s rid => resolve b.1 b.2.2 rid x s)
              (above.foldl (fun s rid => resolve b.1 b.2.2 rid x s) s))) b.1).value,
          false⟩,
        b.1) := by
  unfold maximize_step
  rw [hfb]

theorem resolve_sorted (bri : Nat) (bc : ℚ) (j x : Nat) (t : MBO)
    (hs1 : SortedVars (getRow t j).vars) (hs2 : SortedVars (getRow t bri).vars) :
    SortedVars (getRow (resolve bri bc j x t) j).vars := by
  unfold resolve
  by_cases ha : (getRow t j).alive = true
  · rw [if_pos ha]
    show SortedVars (getRow (mul_add
      (decide (j ≠ objective_id ∧ (0 < bc ↔ 0 < get_coefficient (getRow t j) x)))
      j (-(get_coefficient (getRow t j) x) / bc) bri t) j).vars
    by_cases hc : -(get_coefficient (getRow t j) x) / bc = 0
    · rw [hc, mul_add_zero]
      exact hs1
    · have hlen : j < t.rows.length := alive_lt_length t j ha
      rw [mul_add_getRow_self _ j _ bri t hc hlen]
      exact mulAddVars_sorted _ _ _ _ le_rfl hs1 hs2
  · rw [if_neg ha]
    exact hs1

/-- One successful `maximize` iteration preserves the structural invariants,
keeps every previously eliminated variable eliminated, eliminates the new
variable from every live row and the objective, and records an indexed
bound row. -/
theorem maximize_step_inv (s : MBO) (x : Nat) (coeff : ℚ) (s4 : MBO) (bri : Nat)
    (bv : List Nat)
    (hvals : ValsOk s) (hrows : RowsOk s) (hcomp : Complete s) (hobj : NoObjIdx s)
    (hvv : VarsValid s)
    (hclean : ∀ y ∈ bv, CleanVar s y)
    (hx : coeffLookup (getRow s objective_id).vars x = coeff)
    (h : maximize_step s x coeff = some (s4, bri)) :
    ValsOk s4 ∧ RowsOk s4 ∧ Complete s4 ∧ NoObjIdx s4 ∧ VarsValid s4 ∧
    (∀ y ∈ bv, CleanVar s4 y) ∧ CleanVar s4 x ∧
    (∀ v rid, rid ∈ rowIdsOf s v → rid ∈ rowIdsOf s4 v) ∧ bri ∈ rowIdsOf s4 x := by
  rcases hfb : find_bound x (decide (0 < coeff)) s with ⟨bound, above, below⟩
  cases bound with
  | none =>
    unfold maximize_step at h
    rw [hfb] at h
    cases h
  | some b =>
    rw [maximize_step_eq s x coeff b above below hfb] at h
    have h2 := Option.some.inj h
    injection h2 with hA hB
    subst hA
    subst hB
    have hspec := find_bound_spec s x (decide (0 < coeff))
    rw [hfb] at hspec
    obtain ⟨c1, c2, c3, c4, c5, c6, c7⟩ := hspec
    obtain ⟨hbvs, hbcand, _, hbcoef, _⟩ := c1 b.1 b.2.1 b.2.2 rfl
    obtain ⟨hbal, hbnz, _⟩ := hbcand
    have hbobj : b.1 ≠ objective_id := fun hh => hobj x (hh ▸ hbvs)
    have hADne : ∀ rid ∈ above ++ below, rid ≠ objective_id := by
      intro rid hr
      rcases List.mem_append.1 hr with hh | hh
      · exact fun he => hobj x (he ▸ (c3 rid hh).1)
      · exact fun he => hobj x (he ▸ (c4 rid hh).1)
    have hbnotin : b.1 ∉ above ++ below := by
      have h6 := c6 b.1 b.2.1 b.2.2 rfl
      intro hmem
      rcases List.mem_append.1 hmem with hh | hh
      · exact h6.1 hh
      · exact h6.2 hh
    set S2 := below.foldl (fun s rid => resolve b.1 b.2.2 rid x s)
      (above.foldl (fun s rid => resolve b.1 b.2.2 rid x s) s) with hS2
    set S3 := mul_add false objective_id (-coeff / b.2.2) b.1 S2 with hS3
    have hS2' : S2 = (above ++ below).foldl (fun s rid => resolve b.1 b.2.2 rid x s) s := by
      rw [hS2, List.foldl_append]
    have hS2ne : ∀ j, j ∉ above ++ below → getRow S2 j = getRow s j := by
      intro j hj
      rw [hS2']
      exact foldl_rsv_not_mem b.1 b.2.2 x (above ++ below) s j hj
    have hS2src : getRow S2 b.1 = getRow s b.1 := hS2ne b.1 hbnotin
    have hS2obj : getRow S2 objective_id = getRow s objective_id :=
      hS2ne objective_id (fun hm => hADne objective_id hm rfl)
    have hS2alive : ∀ j, (getRow S2 j).alive = (getRow s j).alive := by
      intro j
      rw [hS2']
      exact foldl_resolve_alive b.1 b.2.2 x (above ++ below) s j
    have hS2len : S2.rows.length = s.rows.length := by
      rw [hS2']
      exact foldl_resolve_rows_length b.1 b.2.2 x (above ++ below) s
    have hS2vals : ValsOk S2 := by
      rw [hS2']
      exact foldl_resolve_valsOk b.1 b.2.2 x (above ++ below) s hvals
    have hS2rows : RowsOk S2 := by
      rw [hS2']
      exact foldl_resolve_rowsOk b.1 b.2.2 x (above ++ below) s hrows
    have hS2cv : Complete S2 ∧ VarsValid S2 := by
      rw [hS2']
      exact foldl_resolve_complete b.1 b.2.2 x (above ++ below) s hADne hcomp hvv
    have hS2obji : NoObjIdx S2 := by
      rw [hS2']
      exact foldl_resolve_noObjIdx b.1 b.2.2 x (above ++ below) s hADne hobj
    have hS2idx : ∀ v rid, rid ∈ rowIdsOf s v → rid ∈ rowIdsOf S2 v := by
      intro v rid hr
      rw [hS2']
      exact foldl_rsv_index_mem b.1 b.2.2 x (above ++ below) s v rid hr
    have hS3vals : ValsOk S3 := mul_add_valsOk _ _ _ _ _ hS2vals
    have hS3rows : RowsOk S3 := mul_add_rowsOk _ _ _ _ _ hS2rows
    have hS3comp : Complete S3 := mul_add_complete _ _ _ _ _ hS2cv.1 hS2cv.2
    have hS3vv : VarsValid S3 := mul_add_varsValid _ _ _ _ _ hS2cv.2
    have hS3obji : NoObjIdx S3 := by
      intro v
      show objective_id ∉ S3.var2row_ids.getD v []
      rw [hS3, mul_add_obj_var2row_ids]
      exact hS2obji v
    have hS3ne : ∀ j, j ≠ objective_id → getRow S3 j = getRow S2 j := by
      intro j hj
      exact mul_add_getRow_ne _ _ _ _ _ j hj
    have hS3alive : ∀ j, (getRow S3 j).alive = (getRow S2 j).alive := by
      intro j
      exact mul_add_alive _ _ _ _ _ j
    have hS3len : S3.rows.length = S2.rows.length := mul_add_rows_length _ _ _ _ _
    have hS3idx : ∀ v rid, rid ∈ rowIdsOf S2 v → rid ∈ rowIdsOf S3 v := by
      intro v rid hr
      exact mul_add_index_mem _ _ _ _ _ v rid hr
    have hblen : b.1 < S3.rows.length := by
      rw [hS3len, hS2len]
      exact alive_lt_length s b.1 hbal
    have hkill_ne : ∀ j, j ≠ b.1 → getRow (setRow S3 b.1
        ⟨(getRow S3 b.1).vars, (getRow S3 b.1).coeff, (getRow S3 b.1).type,
          (getRow S3 b.1).value, false⟩) j = getRow S3 j := by
      intro j hj
      exact getRow_setRow_ne S3 b.1 j _ (fun hh => hj hh.symm)
    have hkillb : (getRow (setRow S3 b.1
        ⟨(getRow S3 b.1).vars, (getRow S3 b.1).coeff, (getRow S3 b.1).type,
          (getRow S3 b.1).value, false⟩) b.1).alive = false := by
      rw [getRow_setRow_self S3 b.1 _ hblen]
    have hkillvars : (getRow (setRow S3 b.1
        ⟨(getRow S3 b.1).vars, (getRow S3 b.1).coeff, (getRow S3 b.1).type,
          (getRow S3 b.1).value, false⟩) b.1).vars = (getRow S3 b.1).vars := by
      rw [getRow_setRow_self S3 b.1 _ hblen]
    have hkillidx : ∀ v rid, rid ∈ rowIdsOf S3 v → rid ∈ rowIdsOf (setRow S3 b.1
        ⟨(getRow S3 b.1).vars, (getRow S3 b.1).coeff, (getRow S3 b.1).type,
          (getRow S3 b.1).value, false⟩) v := by
      intro v rid hr
      show rid ∈ (setRow S3 b.1 _).var2row_ids.getD v []
      rw [setRow_var2row_ids]
      exact hr
    have halivechain : ∀ j, j ≠ b.1 → (getRow (setRow S3 b.1
        ⟨(getRow S3 b.1).vars, (getRow S3 b.1).coeff, (getRow S3 b.1).type,
          (getRow S3 b.1).value, false⟩) j).alive = (getRow s j).alive := by
      intro j hj
      rw [hkill_ne j hj, hS3alive j, hS2alive j]
    refine ⟨kill_valsOk S3 b.1 hS3vals, kill_rowsOk S3 b.1 hS3rows,
      kill_complete S3 b.1 hS3comp, kill_noObjIdx S3 b.1 hS3obji,
      kill_varsValid S3 b.1 hS3vv, ?_, ?_, ?_, ?_⟩
    · intro y hy rid hcase
      by_cases hro : rid = objective_id
      · have hrb : rid ≠ b.1 := fun hh => hbobj (hh.symm.trans hro)
        rw [hkill_ne rid hrb, hro, hS3]
        by_cases hc0 : -coeff / b.2.2 = 0
        · rw [hc0, mul_add_zero, hS2obj]
          exact hclean y hy objective_id (Or.inr rfl)
        · by_cases holen : objective_id < S2.rows.length
          · rw [mul_add_getRow_self false objective_id _ b.1 S2 hc0 holen]
            have hvarseq : (combineRow false (getRow S2 objective_id) (-coeff / b.2.2)
                (getRow S2 b.1)).vars = (mulAddVars (-coeff / b.2.2)
                ((getRow S2 objective_id).vars.length + (getRow S2 b.1).vars.length)
                (getRow S2 objective_id).vars (getRow S2 b.1).vars).1 := rfl
            rw [hvarseq, mulAddVars_lookup _ y _ _ _ le_rfl
              (by rw [hS2obj]; exact (hrows objective_id).1)
              (by rw [hS2src]; exact (hrows b.1).1)]
            rw [hS2obj, hS2src]
            rw [hclean y hy objective_id (Or.inr rfl),
              hclean y hy b.1 (Or.inl hbal)]
            ring
          · have hrow : getRow (mul_add false objective_id (-coeff / b.2.2) b.1 S2)
                objective_id = getRow S2 objective_id := by
              unfold mul_add
              rw [if_neg hc0, if_pos rfl]
              unfold setRow
              rw [set_oob S2.rows objective_id _ (Nat.le_of_not_lt holen)]
            rw [hrow, hS2obj]
            exact hclean y hy objective_id (Or.inr rfl)
      · have halv : (getRow (setRow S3 b.1
            ⟨(getRow S3 b.1).vars, (getRow S3 b.1).coeff, (getRow S3 b.1).type,
              (getRow S3 b.1).value, false⟩) rid).alive = true := by
          rcases hcase with hc | hc
          · exact hc
          · exact absurd hc hro
        have hrb : rid ≠ b.1 := by
          intro hh
          rw [hh] at halv
          rw [hkillb] at halv
          cases halv
        have hals : (getRow s rid).alive = true := by
          rw [← halivechain rid hrb]
          exact halv
        rw [hkill_ne rid hrb, hS3ne rid hro]
        by_cases hmem : rid ∈ above ++ below
        · rw [hS2']
          obtain ⟨t, e1, e2, e3⟩ := foldl_rsv_resolved b.1 b.2.2 x (above ++ below) s
            rid c7 hmem
          rw [e3]
          exact resolve_clean b.1 b.2.2 rid x y t
            (by rw [e1]; exact hclean y hy rid (Or.inl hals))
            (by rw [e2 hbnotin]; exact hclean y hy b.1 (Or.inl hbal))
            (by rw [e1]; exact (hrows rid).1)
            (by rw [e2 hbnotin]; exact (hrows b.1).1)
        · rw [hS2ne rid hmem]
          exact hclean y hy rid (Or.inl hals)
    · intro rid hcase
      by_cases hro : rid = objective_id
      · have hrb : rid ≠ b.1 := fun hh => hbobj (hh.symm.trans hro)
        rw [hkill_ne rid hrb, hro, hS3]
        by_cases hc0 : -coeff / b.2.2 = 0
        · have hcz : coeff = 0 := by
            rcases div_eq_zero_iff.mp hc0 with hh | hh
            · exact neg_eq_zero.mp hh
            · exact absurd (hbcoef ▸ hh) hbnz
          rw [hc0, mul_add_zero, hS2obj, hx, hcz]
        · have hcnz : coeff ≠ 0 := by
            intro hh
            apply hc0
            rw [hh]
            simp
          have holen : objective_id < S2.rows.length := by
            rw [hS2len]
            by_contra hno
            have hd : getRow s objective_id = default :=
              getRow_oob s objective_id (Nat.le_of_not_lt hno)
            rw [hd] at hx
            exact hcnz (by rw [← hx]; rfl)
          rw [mul_add_getRow_self false objective_id _ b.1 S2 hc0 holen]
          have hvarseq : (combineRow false (getRow S2 objective_id) (-coeff / b.2.2)
              (getRow S2 b.1)).vars = (mulAddVars (-coeff / b.2.2)
              ((getRow S2 objective_id).vars.length + (getRow S2 b.1).vars.length)
              (getRow S2 objective_id).vars (getRow S2 b.1).vars).1 := rfl
          rw [hvarseq, mulAddVars_lookup _ x _ _ _ le_rfl
            (by rw [hS2obj]; exact (hrows objective_id).1)
            (by rw [hS2src]; exact (hrows b.1).1)]
          rw [hS2obj, hS2src, hx]
          rw [← get_coefficient_eq _ x (hrows b.1).1, ← hbcoef]
          have hbne : b.2.2 ≠ 0 := by
            rw [hbcoef]
            exact hbnz
          field_simp
      · have halv : (getRow (setRow S3 b.1
            ⟨(getRow S3 b.1).vars, (getRow S3 b.1).coeff, (getRow S3 b.1).type,
              (getRow S3 b.1).value, false⟩) rid).alive = true := by
          rcases hcase with hc | hc
          · exact hc
          · exact absurd hc hro
        have hrb : rid ≠ b.1 := by
          intro hh
          rw [hh] at halv
          rw [hkillb] at halv
          cases halv
        have hals : (getRow s rid).alive = true := by
          rw [← halivechain rid hrb]
          exact halv
        rw [hkill_ne rid hrb, hS3ne rid hro]
        by_cases hmem : rid ∈ above ++ below
        · rw [hS2']
          obtain ⟨t, e1, e2, e3⟩ := foldl_rsv_resolved b.1 b.2.2 x (above ++ below) s
            rid c7 hmem
          rw [e3]
          have hgc0 : get_coefficient (getRow (resolve b.1 b.2.2 rid x t) rid) x = 0 := by
            refine resolve_coeff_zero b.1 b.2.2 rid x t ?_ ?_ ?_ ?_ ?_
            · rw [e2 hbnotin, ← hbcoef]
            · rw [hbcoef]
              exact hbnz
            · rw [e1]
              exact hals
            · rw [e2 hbnotin]
              exact (hrows b.1).1
            · rw [e1]
              exact (hrows rid).1
          rw [← get_coefficient_eq _ x (resolve_sorted b.1 b.2.2 rid x t
            (by rw [e1]; exact (hrows rid).1) (by rw [e2 hbnotin]; exact (hrows b.1).1))]
          exact hgc0
        · rw [hS2ne rid hmem]
          by_cases hgc : get_coefficient (getRow s rid) x = 0
          · rw [← get_coefficient_eq _ x (hrows rid).1]
            exact hgc
          · by_cases hidx : rid ∈ rowIdsOf s x
            · exfalso
              rcases c5 rid hidx hals hgc with ⟨lv, bc2, hsome⟩ | hc | hc
              · have : b = (rid, lv, bc2) := Option.some.inj hsome
                exact hrb (by rw [this])
              · exact hmem (List.mem_append_left _ hc)
              · exact hmem (List.mem_append_right _ hc)
            · by_contra hlz
              have hex : ∃ e ∈ (getRow s rid).vars, e.id = x := by
                by_contra hno
                push_neg at hno
                rw [coeffLookup_eq_zero (getRow s rid).vars x hno] at hlz
                exact hlz rfl
              obtain ⟨e, hev, hex2⟩ := hex
              have := hcomp rid hro e hev
              rw [hex2] at this
              exact hidx this
    · intro v rid hr
      exact hkillidx v rid (hS3idx v rid (hS2idx v rid hr))
    · exact hkillidx x b.1 (hS3idx x b.1 (hS2idx x b.1 hbvs))

theorem valsOk_of_fin (s : MBO)
    (h : ∀ rid, rid < s.rows.length →
      (getRow s rid).value = get_row_value s (getRow s rid)) : ValsOk s := by
  intro rid
  by_cases hr : rid < s.rows.length
  · exact h rid hr
  · rw [getRow_oob s rid (Nat.le_of_not_lt hr)]
    unfold get_row_value
    show (0 : ℚ) = 0 + rowSum s.var2value []
    show (0 : ℚ) = 0 + 0
    rw [add_zero]

theorem varsValid_of_fin (s : MBO)
    (h : ∀ rid, rid < s.rows.length → ∀ e ∈ (getRow s rid).vars,
      e.id < s.var2row_ids.length) : VarsValid s := by
  intro rid e he
  by_cases hr : rid < s.rows.length
  · exact h rid hr e he
  · rw [getRow_oob s rid (Nat.le_of_not_lt hr)] at he
    exact absurd he (List.not_mem_nil e)

/-- The exit protocol of one `maximize` loop iteration: the loop returns
`+infinity` exactly when `find_bound` finds no bound row for the variable
being eliminated. -/
theorem maximize_step_none_iff (s : MBO) (x : Nat) (c : ℚ) :
    maximize_step s x c = none ↔ (find_bound x (decide (0 < c)) s).1 = none := by
  unfold maximize_step
  rcases hfb : find_bound x (decide (0 < c)) s with ⟨bound, above, below⟩
  cases bound with
  | none => simp
  | some b => simp

theorem maximize_loop_infinity :
    ∀ (fuel : Nat) (s : MBO) (bv bt : List Nat) (s2 : MBO),
      ValsOk s → RowsOk s → Complete s → NoObjIdx s → VarsValid s →
      (∀ y ∈ bv, CleanVar s y) →
      (∀ p ∈ bv.zip bt, p.2 ∈ rowIdsOf s p.1) →
      bv.length = bt.length →
      maximize_loop fuel s bv bt = some (InfEps.infinity, s2) →
      RowsOk s2 ∧ ValsOk s2 := by
  intro fuel
  induction fuel with
  | zero => intro s bv bt s2 _ _ _ _ _ _ _ _ h; cases h
  | succ fuel ih =>
    intro s bv bt s2 hvals hrows hcomp hobj hvv hclean htr hlen h
    rw [maximize_loop] at h
    cases hlast : (getRow s objective_id).vars.getLast? with
    | none =>
      rw [hlast] at h
      have h2 : (if (getRow (update_values bv bt s) objective_id).type = IneqType.t_lt
          then some (InfEps.finite (getRow (update_values bv bt s) objective_id).value (-1),
            update_values bv bt s)
          else some (InfEps.finite (getRow (update_values bv bt s) objective_id).value 0,
            update_values bv bt s)) = some (InfEps.infinity, s2) := h
      by_cases ht : (getRow (update_values bv bt s) objective_id).type = IneqType.t_lt
      · rw [if_pos ht] at h2
        exact absurd h2 (by simp)
      · rw [if_neg ht] at h2
        exact absurd h2 (by simp)
    | some v =>
      rw [hlast] at h
      have h2 : (match maximize_step s v.id v.coeff with
          | some (s4, bri) => maximize_loop fuel s4 (bv ++ [v.id]) (bt ++ [bri])
          | none => some (InfEps.infinity, update_values bv bt s))
          = some (InfEps.infinity, s2) := h
      cases hstep : maximize_step s v.id v.coeff with
      | some p =>
        rw [hstep] at h2
        have h3 : maximize_loop fuel p.1 (bv ++ [v.id]) (bt ++ [p.2])
            = some (InfEps.infinity, s2) := h2
        have hvx : coeffLookup (getRow s objective_id).vars v.id = v.coeff := by
          have hmem : v ∈ (getRow s objective_id).vars := List.mem_of_mem_getLast? hlast
          exact coeffLookup_mem v.id _ (hrows objective_id).1 v hmem rfl
        obtain ⟨i1, i2, i3, i4, i5, i6, i7, i8, i9⟩ :=
          maximize_step_inv s v.id v.coeff p.1 p.2 bv hvals hrows hcomp hobj hvv hclean
            hvx hstep
        refine ih p.1 (bv ++ [v.id]) (bt ++ [p.2]) s2 i1 i2 i3 i4 i5 ?_ ?_ ?_ h3
        · intro y hy
          rcases List.mem_append.1 hy with hh | hh
          · exact i6 y hh
          · rw [List.mem_singleton.1 hh]
            exact i7
        · intro p0 hp0
          rw [List.zip_append hlen] at hp0
          rcases List.mem_append.1 hp0 with hh | hh
          · exact i8 p0.1 p0.2 (htr p0 hh)
          · have : p0 = (v.id, p.2) := by
              have := List.mem_singleton.1 (by simpa using hh)
              exact this
            rw [this]
            exact i9
        · simp [hlen]
      | none =>
        rw [hstep] at h2
        have h3 : some (InfEps.infinity, update_values bv bt s)
            = some (InfEps.infinity, s2) := h2
        have hs2 : update_values bv bt s = s2 := by
          have h4 := Option.some.inj h3
          exact congrArg Prod.snd h4
        rw [← hs2]
        refine ⟨update_values_rowsOk bv bt s hrows, ?_⟩
        exact update_values_valsOk bv bt s hvals hrows hcomp
          (fun y hy => hclean y hy objective_id (Or.inr rfl)) htr

/-- C3: when `maximize` reports the objective unbounded (`+infinity`), it
has restored a consistent state via `update_values` over the partial bound
trail: in the returned state the row invariant (cached value = constant +
dot product with the model; variable lists strictly sorted with no zero
coefficients) holds for every row.  A loop iteration reports `+infinity`
exactly when `find_bound` finds no bound row. -/
theorem claim_C3 (fuel : Nat) (s s2 : MBO)
    (hvals : ValsOk s) (hrows : RowsOk s) (hcomp : Complete s) (hobj : NoObjIdx s)
    (hvv : VarsValid s)
    (h : maximize fuel s = some (InfEps.infinity, s2)) :
    (RowsOk s2 ∧ ValsOk s2) ∧
    (∀ x c, maximize_step s x c = none ↔ (find_bound x (decide (0 < c)) s).1 = none) :=
  ⟨maximize_loop_infinity fuel s [] [] s2 hvals hrows hcomp hobj hvv
      (fun y hy => absurd hy (List.not_mem_nil y))
      (fun p hp => absurd hp (List.not_mem_nil p)) rfl h,
    fun x c => maximize_step_none_iff s x c⟩

/-- Witness for C3 at `wC3`: an objective `x0` with no constraint rows is
unbounded, and the returned state satisfies the row invariant. -/
theorem claim_C3_witness :
    (ValsOk wC3 ∧ RowsOk wC3 ∧ Complete wC3 ∧ NoObjIdx wC3 ∧ VarsValid wC3 ∧
      maximize 2 wC3 = some (InfEps.infinity, wC3)) ∧
    ((RowsOk wC3 ∧ ValsOk wC3) ∧
      (∀ x c, maximize_step wC3 x c = none ↔
        (find_bound x (decide (0 < c)) wC3).1 = none)) := by
  have hvals : ValsOk wC3 := valsOk_of_fin wC3 (by with_unfolding_all decide)
  have hrows : RowsOk wC3 := rowsOk_of_fin wC3 (by with_unfolding_all decide)
  have hcomp : Complete wC3 := complete_of_fin wC3 (by with_unfolding_all decide)
  have hobj : NoObjIdx wC3 := noObjIdx_of_fin wC3 (by with_unfolding_all decide)
  have hvv : VarsValid wC3 := varsValid_of_fin wC3 (by with_unfolding_all decide)
  have hmax : maximize 2 wC3 = some (InfEps.infinity, wC3) := by
    with_unfolding_all decide
  exact ⟨⟨hvals, hrows, hcomp, hobj, hvv, hmax⟩,
    claim_C3 2 wC3 wC3 hvals hrows hcomp hobj hvv hmax⟩

/-! ### Claim C2: basic operations -/

theorem getD_append_left {α : Type} :
    ∀ (l l2 : List α) (i : Nat) (d : α), i < l.length → (l ++ l2).getD i d = l.getD i d := by
  intro l
  induction l with
  | nil => intro l2 i d h; simp at h
  | cons a t ih =>
    intro l2 i d h
    cases i with
    | zero => rfl
    | succ i =>
      show (t ++ l2).getD i d = t.getD i d
      exact ih l2 i d (by simpa using h)

theorem getD_append_right_self {α : Type} :
    ∀ (l : List α) (a d : α), (l ++ [a]).getD l.length d = a := by
  intro l
  induction l with
  | nil => intro a d; rfl
  | cons b t ih =>
    intro a d
    show (t ++ [a]).getD t.length d = a
    exact ih a d

theorem sortVars_of_sorted : ∀ l : List LinVar, SortedVars l → sortVars l = l := by
  intro l
  induction l with
  | nil => intro _; rfl
  | cons v t ih =>
    intro h
    show insertVar v (sortVars t) = v :: t
    rw [ih (sortedVars_tail _ _ h)]
    cases t with
    | nil => rfl
    | cons w t2 =>
      show (if v.id ≤ w.id then v :: w :: t2 else w :: insertVar v t2) = v :: w :: t2
      rw [if_pos (le_of_lt (sortedVars_head _ _ h w (List.mem_cons_self _ _)))]

theorem foldl_val_eq_rowSum (s : MBO) :
    ∀ (coeffs : List LinVar) (c : ℚ),
      coeffs.foldl (fun acc v => acc + valueOf s v.id * v.coeff) c
        = c + rowSum s.var2value coeffs := by
  intro coeffs
  induction coeffs with
  | nil => intro c; show c = c + 0; rw [add_zero]
  | cons v t ih =>
    intro c
    rw [List.foldl_cons, ih (c + valueOf s v.id * v.coeff)]
    show c + valueOf s v.id * v.coeff + rowSum s.var2value t
      = c + (v.coeff * s.var2value.getD v.id 0 + rowSum s.var2value t)
    unfold valueOf
    ring

/-- `add_var` preserves the row invariant and the satisfaction invariant:
rows and values are untouched, and the appended model entry is not
referenced by any row. -/
theorem add_var_inv (q : ℚ) (s : MBO)
    (hids : ∀ rid, ∀ e ∈ (getRow s rid).vars, e.id < s.var2value.length)
    (hvals : ValsOk s) (hrows : RowsOk s) (hsat : LiveSat s) :
    ValsOk (add_var q s).1 ∧ RowsOk (add_var q s).1 ∧ LiveSat (add_var q s).1 := by
  have hrow : ∀ j, getRow (add_var q s).1 j = getRow s j := fun j => rfl
  refine ⟨?_, ?_, ?_⟩
  · intro rid
    rw [hrow rid]
    unfold get_row_value
    have : rowSum (add_var q s).1.var2value (getRow s rid).vars
        = rowSum s.var2value (getRow s rid).vars := by
      apply rowSum_congr
      intro e he
      show (s.var2value ++ [q]).getD e.id 0 = s.var2value.getD e.id 0
      exact getD_append_left s.var2value [q] e.id 0 (hids rid e he)
    rw [this]
    exact hvals rid
  · intro rid
    rw [hrow rid]
    exact hrows rid
  · intro rid hro hal
    rw [hrow rid] at hal ⊢
    exact hsat rid hro hal

theorem foldl_pushRowId_getRow (rid : Nat) :
    ∀ (coeffs : List LinVar) (s : MBO) (j : Nat),
      getRow (coeffs.foldl (fun s v => pushRowId s v.id rid) s) j = getRow s j := by
  intro coeffs
  induction coeffs with
  | nil => intro s j; rfl
  | cons v t ih =>
    intro s j
    rw [List.foldl_cons, ih (pushRowId s v.id rid) j]
    show (pushRowId s v.id rid).rows.getD j default = getRow s j
    rw [pushRowId_rows]
    rfl

theorem foldl_pushRowId_var2value (rid : Nat) :
    ∀ (coeffs : List LinVar) (s : MBO),
      (coeffs.foldl (fun s v => pushRowId s v.id rid) s).var2value = s.var2value := by
  intro coeffs
  induction coeffs with
  | nil => intro s; rfl
  | cons v t ih =>
    intro s
    rw [List.foldl_cons, ih (pushRowId s v.id rid)]
    exact pushRowId_var2value s v.id rid

theorem add_constraint_var2value (coeffs : List LinVar) (c : ℚ) (rel : IneqType) (s : MBO) :
    (add_constraint coeffs c rel s).var2value = s.var2value := by
  unfold add_constraint set_row
  rw [foldl_pushRowId_var2value]
  rfl

theorem add_constraint_getRow_new (coeffs : List LinVar) (c : ℚ) (rel : IneqType) (s : MBO)
    (hs : SortedVars coeffs) :
    getRow (add_constraint coeffs c rel s) s.rows.length =
      ⟨coeffs, c, rel, c + rowSum s.var2value coeffs, true⟩ := by
  unfold add_constraint
  rw [foldl_pushRowId_getRow]
  unfold set_row
  have hfresh : getRow { s with rows := s.rows ++ [default] } s.rows.length = default := by
    show (s.rows ++ [default]).getD s.rows.length default = default
    exact getD_append_right_self s.rows default default
  rw [hfresh]
  have hlen : s.rows.length < ({ s with rows := s.rows ++ [default] } : MBO).rows.length := by
    simp
  rw [getRow_setRow_self _ _ _ hlen]
  show (⟨sortVars ((default : Row).vars ++ coeffs), c, rel, _, true⟩ : Row) = _
  have hv : sortVars ((default : Row).vars ++ coeffs) = coeffs := by
    show sortVars ([] ++ coeffs) = coeffs
    rw [List.nil_append]
    exact sortVars_of_sorted coeffs hs
  rw [hv]
  have hval : coeffs.foldl
      (fun acc v => acc + valueOf { s with rows := s.rows ++ [default] } v.id * v.coeff)
        c = c + rowSum s.var2value coeffs := by
    exact foldl_val_eq_rowSum { s with rows := s.rows ++ [default] } coeffs c
  rw [hval]

theorem add_constraint_getRow_old (coeffs : List LinVar) (c : ℚ) (rel : IneqType) (s : MBO)
    (j : Nat) (hj : j ≠ s.rows.length) :
    getRow (add_constraint coeffs c rel s) j = getRow s j := by
  unfold add_constraint
  rw [foldl_pushRowId_getRow]
  unfold set_row
  rw [getRow_setRow_ne _ _ _ _ (fun hh => hj hh.symm)]
  show (s.rows ++ [default]).getD j default = s.rows.getD j default
  by_cases hlt : j < s.rows.length
  · exact getD_append_left s.rows [default] j default hlt
  · have hge : s.rows.length + 1 ≤ j := by omega
    rw [getD_of_le _ _ _ (by simpa using hge), getD_of_le _ _ _ (by omega)]

/-- `add_constraint` preserves the row and satisfaction invariants when the
supplied coefficients are strictly sorted and non-zero and the constraint is
satisfied by the current model. -/
theorem add_constraint_inv (coeffs : List LinVar) (c : ℚ) (rel : IneqType) (s : MBO)
    (hs : SortedVars coeffs) (hnz : NonzeroVars coeffs)
    (hvals : ValsOk s) (hrows : RowsOk s) (hsat : LiveSat s)
    (hsatnew : RowSat ⟨coeffs, c, rel, c + rowSum s.var2value coeffs, true⟩) :
    ValsOk (add_constraint coeffs c rel s) ∧ RowsOk (add_constraint coeffs c rel s) ∧
      LiveSat (add_constraint coeffs c rel s) := by
  have hvv := add_constraint_var2value coeffs c rel s
  refine ⟨?_, ?_, ?_⟩
  · intro rid
    by_cases hj : rid = s.rows.length
    · rw [hj, add_constraint_getRow_new coeffs c rel s hs]
      unfold get_row_value
      rw [hvv]
    · rw [add_constraint_getRow_old coeffs c rel s rid hj]
      unfold get_row_value
      rw [hvv]
      exact hvals rid
  · intro rid
    by_cases hj : rid = s.rows.length
    · rw [hj, add_constraint_getRow_new coeffs c rel s hs]
      exact ⟨hs, hnz⟩
    · rw [add_constraint_getRow_old coeffs c rel s rid hj]
      exact hrows rid
  · intro rid hro hal
    by_cases hj : rid = s.rows.length
    · rw [hj, add_constraint_getRow_new coeffs c rel s hs]
      exact hsatnew
    · rw [add_constraint_getRow_old coeffs c rel s rid hj] at hal ⊢
      exact hsat rid hro hal

theorem set_objective_getRow_obj (coeffs : List LinVar) (c : ℚ) (s : MBO)
    (hs : SortedVars coeffs) (hfresh : (getRow s objective_id).vars = [])
    (hlen : objective_id < s.rows.length) :
    getRow (set_objective coeffs c s) objective_id =
      ⟨coeffs, c, IneqType.t_le, c + rowSum s.var2value coeffs, true⟩ := by
  unfold set_objective set_row
  rw [getRow_setRow_self _ _ _ hlen]
  show (⟨sortVars ((getRow s objective_id).vars ++ coeffs), c, IneqType.t_le, _, true⟩
    : Row) = _
  rw [hfresh, List.nil_append, sortVars_of_sorted coeffs hs,
    foldl_val_eq_rowSum s coeffs c]

/-- `set_objective` preserves the row and satisfaction invariants when the
supplied coefficients are strictly sorted and non-zero and the objective row
is still unpopulated (the contract asserted by the source `set_row`). -/
theorem set_objective_inv (coeffs : List LinVar) (c : ℚ) (s : MBO)
    (hs : SortedVars coeffs) (hnz : NonzeroVars coeffs)
    (hfresh : (getRow s objective_id).vars = []) (hlen : objective_id < s.rows.length)
    (hvals : ValsOk s) (hrows : RowsOk s) (hsat : LiveSat s) :
    ValsOk (set_objective coeffs c s) ∧ RowsOk (set_objective coeffs c s) ∧
      LiveSat (set_objective coeffs c s) := by
  have hvv : (set_objective coeffs c s).var2value = s.var2value := rfl
  have hne : ∀ j, j ≠ objective_id → getRow (set_objective coeffs c s) j = getRow s j := by
    intro j hj
    unfold set_objective set_row
    exact getRow_setRow_ne _ _ _ _ (fun hh => hj hh.symm)
  refine ⟨?_, ?_, ?_⟩
  · intro rid
    by_cases hj : rid = objective_id
    · rw [hj, set_objective_getRow_obj coeffs c s hs hfresh hlen]
      unfold get_row_value
      rw [hvv]
    · rw [hne rid hj]
      unfold get_row_value
      rw [hvv]
      exact hvals rid
  · intro rid
    by_cases hj : rid = objective_id
    · rw [hj, set_objective_getRow_obj coeffs c s hs hfresh hlen]
      exact ⟨hs, hnz⟩
    · rw [hne rid hj]
      exact hrows rid
  · intro rid hro hal
    rw [hne rid hro] at hal ⊢
    exact hsat rid hro hal

/-! ### Satisfaction algebra of a resolution step -/

theorem resolve_val_eq (v1 v2 a1 a2 : ℚ) (ha1 : a1 ≠ 0) (ha2 : a2 ≠ 0) :
    v2 + (-a2 / a1) * v1 = a2 * (v2 / a2 - v1 / a1) := by
  field_simp
  ring

theorem resolve_val_le_pos (v1 v2 a1 a2 : ℚ) (ha1 : a1 ≠ 0) (ha2 : 0 < a2)
    (h : v2 / a2 ≤ v1 / a1) : v2 + (-a2 / a1) * v1 ≤ 0 := by
  rw [resolve_val_eq v1 v2 a1 a2 ha1 (ne_of_gt ha2)]
  exact mul_nonpos_of_nonneg_of_nonpos (le_of_lt ha2) (by linarith)

theorem resolve_val_lt_pos (v1 v2 a1 a2 : ℚ) (ha1 : a1 ≠ 0) (ha2 : 0 < a2)
    (h : v2 / a2 < v1 / a1) : v2 + (-a2 / a1) * v1 < 0 := by
  rw [resolve_val_eq v1 v2 a1 a2 ha1 (ne_of_gt ha2)]
  exact mul_neg_of_pos_of_neg ha2 (by linarith)

theorem resolve_val_le_neg (v1 v2 a1 a2 : ℚ) (ha1 : a1 ≠ 0) (ha2 : a2 < 0)
    (h : v1 / a1 ≤ v2 / a2) : v2 + (-a2 / a1) * v1 ≤ 0 := by
  rw [resolve_val_eq v1 v2 a1 a2 ha1 (ne_of_lt ha2)]
  exact mul_nonpos_of_nonpos_of_nonneg (le_of_lt ha2) (by linarith)

theorem resolve_val_lt_neg (v1 v2 a1 a2 : ℚ) (ha1 : a1 ≠ 0) (ha2 : a2 < 0)
    (h : v1 / a1 < v2 / a2) : v2 + (-a2 / a1) * v1 < 0 := by
  rw [resolve_val_eq v1 v2 a1 a2 ha1 (ne_of_lt ha2)]
  exact mul_neg_of_neg_of_pos ha2 (by linarith)

theorem resolve_val_opp_le (v1 v2 a1 a2 : ℚ) (hc : 0 ≤ -a2 / a1)
    (h1 : v1 ≤ 0) (h2 : v2 ≤ 0) : v2 + (-a2 / a1) * v1 ≤ 0 :=
  add_nonpos h2 (mul_nonpos_of_nonneg_of_nonpos hc h1)

theorem resolve_val_opp_lt_left (v1 v2 a1 a2 : ℚ) (hc : 0 < -a2 / a1)
    (h1 : v1 < 0) (h2 : v2 ≤ 0) : v2 + (-a2 / a1) * v1 < 0 := by
  have := mul_neg_of_pos_of_neg hc h1
  linarith

theorem resolve_val_opp_lt_right (v1 v2 a1 a2 : ℚ) (hc : 0 ≤ -a2 / a1)
    (h1 : v1 ≤ 0) (h2 : v2 < 0) : v2 + (-a2 / a1) * v1 < 0 := by
  have := mul_nonpos_of_nonneg_of_nonpos hc h1
  linarith

theorem resolve_val_src_zero (v1 v2 a1 a2 : ℚ) (h1 : v1 = 0) :
    v2 + (-a2 / a1) * v1 = v2 := by
  rw [h1]
  ring

theorem combineType_src_ne_lt (ss : Bool) (t1 t2 : IneqType) (h : t2 ≠ IneqType.t_lt) :
    combineType ss t1 t2 = t1 := by
  unfold combineType
  rw [if_neg (fun hh => h hh.2), if_neg (fun hh => h hh.2.2)]

/-- Satisfaction of the destination row is preserved by one resolution step,
given the pivot-tightness facts: on a shared side the pivot's implied bound
is at least as tight (strictly so under a strict destination unless the
pivot is itself strict), an equality destination forces a zero-value pivot,
and an opposite-side combination is always safe. -/
theorem resolve_RowSat (bri rid x : Nat) (a1 : ℚ) (t : MBO)
    (ha1e : a1 = get_coefficient (getRow t bri) x) (ha1 : a1 ≠ 0)
    (hsat1 : RowSat (getRow t bri)) (hsat2 : RowSat (getRow t rid))
    (hobjne : rid ≠ objective_id)
    (heq2 : (getRow t rid).type = IneqType.t_eq → get_coefficient (getRow t rid) x ≠ 0 →
      (getRow t bri).value = 0)
    (hsame : ((0 < a1) ↔ (0 < get_coefficient (getRow t rid) x)) →
      get_coefficient (getRow t rid) x ≠ 0 →
      ((0 < get_coefficient (getRow t rid) x →
        (getRow t rid).value / get_coefficient (getRow t rid) x ≤
          (getRow t bri).value / a1) ∧
       (get_coefficient (getRow t rid) x < 0 →
        (getRow t bri).value / a1 ≤
          (getRow t rid).value / get_coefficient (getRow t rid) x) ∧
       ((getRow t rid).type = IneqType.t_lt →
         ((getRow t bri).type = IneqType.t_lt ∨
          (0 < get_coefficient (getRow t rid) x ∧
            (getRow t rid).value / get_coefficient (getRow t rid) x <
              (getRow t bri).value / a1) ∨
          (get_coefficient (getRow t rid) x < 0 ∧
            (getRow t bri).value / a1 <
              (getRow t rid).value / get_coefficient (getRow t rid) x))))) :
    RowSat (getRow (resolve bri a1 rid x t) rid) := by
  by_cases ha : (getRow t rid).alive = true
  · unfold resolve
    rw [if_pos ha]
    show RowSat (getRow (mul_add
      (decide (rid ≠ objective_id ∧ (0 < a1 ↔ 0 < get_coefficient (getRow t rid) x)))
      rid (-(get_coefficient (getRow t rid) x) / a1) bri t) rid)
    by_cases h20 : get_coefficient (getRow t rid) x = 0
    · have hc0 : -(get_coefficient (getRow t rid) x) / a1 = 0 := by
        rw [h20]
        simp
      rw [hc0, mul_add_zero]
      exact hsat2
    · have hlen : rid < t.rows.length := alive_lt_length t rid ha
      have hcne : -(get_coefficient (getRow t rid) x) / a1 ≠ 0 :=
        div_ne_zero (neg_ne_zero.mpr h20) ha1
      rw [mul_add_getRow_self _ rid _ bri t hcne hlen]
      have hv : (combineRow
          (decide (rid ≠ objective_id ∧ (0 < a1 ↔ 0 < get_coefficient (getRow t rid) x)))
          (getRow t rid) (-(get_coefficient (getRow t rid) x) / a1) (getRow t bri)).value
          = (getRow t rid).value +
            (-(get_coefficient (getRow t rid) x) / a1) * (getRow t bri).value := rfl
      have ht : (combineRow
          (decide (rid ≠ objective_id ∧ (0 < a1 ↔ 0 < get_coefficient (getRow t rid) x)))
          (getRow t rid) (-(get_coefficient (getRow t rid) x) / a1) (getRow t bri)).type
          = combineType
            (decide (rid ≠ objective_id ∧ (0 < a1 ↔ 0 < get_coefficient (getRow t rid) x)))
            (getRow t rid).type (getRow t bri).type := rfl
      by_cases hpeq : (getRow t bri).type = IneqType.t_eq
      · have hv1 : (getRow t bri).value = 0 := hsat1.1 hpeq
        have hty : combineType
            (decide (rid ≠ objective_id ∧ (0 < a1 ↔ 0 < get_coefficient (getRow t rid) x)))
            (getRow t rid).type (getRow t bri).type = (getRow t rid).type :=
          combineType_src_ne_lt _ _ _ (by rw [hpeq]; exact fun hh => IneqType.noConfusion hh)
        refine ⟨?_, ?_, ?_⟩
        · intro he
          rw [ht, hty] at he
          rw [hv, hv1, mul_zero, add_zero]
          exact hsat2.1 he
        · intro he
          rw [ht, hty] at he
          rw [hv, hv1, mul_zero, add_zero]
          exact hsat2.2.1 he
        · intro he
          rw [ht, hty] at he
          rw [hv, hv1, mul_zero, add_zero]
          exact hsat2.2.2 he
      · by_cases hdeq : (getRow t rid).type = IneqType.t_eq
        · have hv1 : (getRow t bri).value = 0 := heq2 hdeq h20
          have hplt : (getRow t bri).type ≠ IneqType.t_lt := by
            intro hh
            have := hsat1.2.1 hh
            rw [hv1] at this
            exact lt_irrefl 0 this
          have hty : combineType
              (decide (rid ≠ objective_id ∧ (0 < a1 ↔ 0 < get_coefficient (getRow t rid) x)))
              (getRow t rid).type (getRow t bri).type = (getRow t rid).type :=
            combineType_src_ne_lt _ _ _ hplt
          refine ⟨?_, ?_, ?_⟩
          · intro _
            rw [hv, hv1, mul_zero, add_zero]
            exact hsat2.1 hdeq
          · intro he
            rw [ht, hty] at he
            exact absurd (he ▸ hdeq :) (by rw [he] at hdeq; exact fun _ => IneqType.noConfusion hdeq)
          · intro he
            rw [ht, hty] at he
            rw [he] at hdeq
            exact absurd hdeq (fun hh => IneqType.noConfusion hh)
        · by_cases hss : (0 < a1) ↔ (0 < get_coefficient (getRow t rid) x)
          · obtain ⟨f1, f2, f3⟩ := hsame hss h20
            have hssb : decide (rid ≠ objective_id ∧
                (0 < a1 ↔ 0 < get_coefficient (getRow t rid) x)) = true :=
              decide_eq_true ⟨hobjne, hss⟩
            rw [hssb] at hv ht ⊢
            have hvle : (getRow t rid).value +
                (-(get_coefficient (getRow t rid) x) / a1) * (getRow t bri).value ≤ 0 := by
              rcases lt_trichotomy (get_coefficient (getRow t rid) x) 0 with hn | hz | hp
              · exact resolve_val_le_neg (getRow t bri).value (getRow t rid).value a1
                  (get_coefficient (getRow t rid) x) ha1 hn (f2 hn)
              · exact absurd hz h20
              · exact resolve_val_le_pos (getRow t bri).value (getRow t rid).value a1
                  (get_coefficient (getRow t rid) x) ha1 hp (f1 hp)
            refine ⟨?_, ?_, ?_⟩
            · intro he
              rw [ht] at he
              exfalso
              unfold combineType at he
              rw [if_neg (by simp), ] at he
              by_cases hb : (getRow t rid).type = IneqType.t_lt ∧
                  (getRow t bri).type = IneqType.t_lt
              · rw [if_pos (by simp [hb.1, hb.2])] at he
                exact IneqType.noConfusion he
              · rw [if_neg (by
                  intro hh
                  exact hb ⟨hh.2.1, hh.2.2⟩)] at he
                exact hdeq he
            · intro he
              rw [ht] at he
              rw [hv]
              unfold combineType at he
              rw [if_neg (by simp)] at he
              by_cases hb : (getRow t rid).type = IneqType.t_lt ∧
                  (getRow t bri).type = IneqType.t_lt
              · rw [if_pos (by simp [hb.1, hb.2])] at he
                exact absurd he (fun hh => IneqType.noConfusion hh)
              · rw [if_neg (by
                  intro hh
                  exact hb ⟨hh.2.1, hh.2.2⟩)] at he
                have hdlt : (getRow t rid).type = IneqType.t_lt := he
                rcases f3 hdlt with hplt | ⟨hp, hstrict⟩ | ⟨hn, hstrict⟩
                · exact absurd ⟨hdlt, hplt⟩ hb
                · exact resolve_val_lt_pos (getRow t bri).value (getRow t rid).value a1
                    (get_coefficient (getRow t rid) x) ha1 hp hstrict
                · exact resolve_val_lt_neg (getRow t bri).value (getRow t rid).value a1
                    (get_coefficient (getRow t rid) x) ha1 hn hstrict
            · intro _
              rw [hv]
              exact hvle
          · have hssb : decide (rid ≠ objective_id ∧
                (0 < a1 ↔ 0 < get_coefficient (getRow t rid) x)) = false :=
              decide_eq_false (fun hh => hss hh.2)
            rw [hssb] at hv ht ⊢
            have hcpos : 0 < -(get_coefficient (getRow t rid) x) / a1 := by
              rcases lt_trichotomy a1 0 with hn1 | hz1 | hp1
              · rcases lt_trichotomy (get_coefficient (getRow t rid) x) 0 with hn2 | hz2 | hp2
                · exact absurd (iff_of_false (asymm hn1) (asymm hn2)) hss
                · exact absurd hz2 h20
                · exact div_pos_of_neg_of_neg (by linarith) hn1
              · exact absurd hz1 ha1
              · rcases lt_trichotomy (get_coefficient (getRow t rid) x) 0 with hn2 | hz2 | hp2
                · exact div_pos (by linarith) hp1
                · exact absurd hz2 h20
                · exact absurd (iff_of_true hp1 hp2) hss
            have hv2le : (getRow t rid).value ≤ 0 := by
              cases he : (getRow t rid).type with
              | t_eq => exact absurd he hdeq
              | t_lt => exact le_of_lt (hsat2.2.1 he)
              | t_le => exact hsat2.2.2 he
            have hv1le : (getRow t bri).value ≤ 0 := by
              cases he : (getRow t bri).type with
              | t_eq => exact absurd he hpeq
              | t_lt => exact le_of_lt (hsat1.2.1 he)
              | t_le => exact hsat1.2.2 he
            refine ⟨?_, ?_, ?_⟩
            · intro he
              rw [ht] at he
              exfalso
              unfold combineType at he
              by_cases hb : (getRow t bri).type = IneqType.t_lt
              · rw [if_pos (by simp [hb])] at he
                exact IneqType.noConfusion he
              · rw [if_neg (by simp [hb]), if_neg (by simp)] at he
                exact hdeq he
            · intro he
              rw [ht] at he
              rw [hv]
              unfold combineType at he
              by_cases hb : (getRow t bri).type = IneqType.t_lt
              · exact resolve_val_opp_lt_left (getRow t bri).value (getRow t rid).value a1
                  (get_coefficient (getRow t rid) x) hcpos (hsat1.2.1 hb) hv2le
              · rw [if_neg (by simp [hb]), if_neg (by simp)] at he
                exact resolve_val_opp_lt_right (getRow t bri).value (getRow t rid).value a1
                  (get_coefficient (getRow t rid) x) (le_of_lt hcpos) hv1le (hsat2.2.1 he)
            · intro _
              rw [hv]
              exact resolve_val_opp_le (getRow t bri).value (getRow t rid).value a1
                (get_coefficient (getRow t rid) x) (le_of_lt hcpos) hv1le hv2le
  · rw [resolve_of_dead bri a1 rid x t (by simpa using ha)]
    exact hsat2

/-- One successful `maximize` iteration preserves the satisfaction invariant:
every candidate row is resolved against the tightest bound row (whose implied
bound dominates by `find_bound`'s minimality and tie-break), the bound row
itself is killed, and all other live rows are untouched. -/
theorem maximize_step_liveSat (s : MBO) (x : Nat) (coeff : ℚ) (s4 : MBO) (bri : Nat)
    (hobj : NoObjIdx s) (hsat : LiveSat s)
    (h : maximize_step s x coeff = some (s4, bri)) :
    LiveSat s4 := by
  rcases hfb : find_bound x (decide (0 < coeff)) s with ⟨bound, above, below⟩
  cases bound with
  | none =>
    unfold maximize_step at h
    rw [hfb] at h
    cases h
  | some b =>
    rw [maximize_step_eq s x coeff b above below hfb] at h
    have h2 := Option.some.inj h
    injection h2 with hA hB
    subst hA
    subst hB
    have hspec := find_bound_spec s x (decide (0 < coeff))
    rw [hfb] at hspec
    obtain ⟨c1, c2, c3, c4, c5, c6, c7⟩ := hspec
    obtain ⟨hbvs, hbcand, hblv, hbcoef, hmin, htie⟩ := c1 b.1 b.2.1 b.2.2 rfl
    obtain ⟨hbal, hbnz, hbsign⟩ := hbcand
    have hbobj : b.1 ≠ objective_id := fun hh => hobj x (hh ▸ hbvs)
    have hbnotin : b.1 ∉ above ++ below := by
      have h6 := c6 b.1 b.2.1 b.2.2 rfl
      intro hmem
      rcases List.mem_append.1 hmem with hh | hh
      · exact h6.1 hh
      · exact h6.2 hh
    have hsatb : RowSat (getRow s b.1) := hsat b.1 hbobj hbal
    set S2 := below.foldl (fun s rid => resolve b.1 b.2.2 rid x s)
      (above.foldl (fun s rid => resolve b.1 b.2.2 rid x s) s) with hS2
    set S3 := mul_add false objective_id (-coeff / b.2.2) b.1 S2 with hS3
    have hS2' : S2 = (above ++ below).foldl (fun s rid => resolve b.1 b.2.2 rid x s) s := by
      rw [hS2, List.foldl_append]
    have hS2ne : ∀ j, j ∉ above ++ below → getRow S2 j = getRow s j := by
      intro j hj
      rw [hS2']
      exact foldl_rsv_not_mem b.1 b.2.2 x (above ++ below) s j hj
    have hS2alive : ∀ j, (getRow S2 j).alive = (getRow s j).alive := by
      intro j
      rw [hS2']
      exact foldl_resolve_alive b.1 b.2.2 x (above ++ below) s j
    have hS2len : S2.rows.length = s.rows.length := by
      rw [hS2']
      exact foldl_resolve_rows_length b.1 b.2.2 x (above ++ below) s
    have hS3ne : ∀ j, j ≠ objective_id → getRow S3 j = getRow S2 j := by
      intro j hj
      exact mul_add_getRow_ne _ _ _ _ _ j hj
    have hS3len : S3.rows.length = S2.rows.length := mul_add_rows_length _ _ _ _ _
    have hblen : b.1 < S3.rows.length := by
      rw [hS3len, hS2len]
      exact alive_lt_length s b.1 hbal
    have hkill_ne : ∀ j, j ≠ b.1 → getRow (setRow S3 b.1
        ⟨(getRow S3 b.1).vars, (getRow S3 b.1).coeff, (getRow S3 b.1).type,
          (getRow S3 b.1).value, false⟩) j = getRow S3 j := by
      intro j hj
      exact getRow_setRow_ne S3 b.1 j _ (fun hh => hj hh.symm)
    have hkillb : (getRow (setRow S3 b.1
        ⟨(getRow S3 b.1).vars, (getRow S3 b.1).coeff, (getRow S3 b.1).type,
          (getRow S3 b.1).value, false⟩) b.1).alive = false := by
      rw [getRow_setRow_self S3 b.1 _ hblen]
    intro rid hro halv
    have hrb : rid ≠ b.1 := by
      intro hh
      rw [hh] at halv
      rw [hkillb] at halv
      cases halv
    rw [hkill_ne rid hrb, hS3ne rid hro] at halv ⊢
    rw [hS2alive rid] at halv
    have hals : (getRow s rid).alive = true := halv
    by_cases hmem : rid ∈ above ++ below
    · have hvs2 : rid ∈ rowIdsOf s x := by
        rcases List.mem_append.1 hmem with hh | hh
        · exact (c3 rid hh).1
        · exact (c4 rid hh).1
      rw [hS2']
      obtain ⟨t, e1, e2, e3⟩ := foldl_rsv_resolved b.1 b.2.2 x (above ++ below) s
        rid c7 hmem
      rw [e3]
      refine resolve_RowSat b.1 rid x b.2.2 t ?_ ?_ ?_ ?_ hro ?_ ?_
      · rw [e2 hbnotin, ← hbcoef]
      · rw [hbcoef]
        exact hbnz
      · rw [e2 hbnotin]
        exact hsatb
      · rw [e1]
        exact hsat rid hro hals
      · rw [e1, e2 hbnotin]
        intro hdeq hd0
        have hdcand : isCand s x (decide (0 < coeff)) rid := ⟨hals, hd0, Or.inr hdeq⟩
        have hv2 : (getRow s rid).value = 0 := (hsat rid hro hals).1 hdeq
        have hbvrid : bval s x rid = valueOf s x := by
          show valueOf s x - (getRow s rid).value / get_coefficient (getRow s rid) x
            = valueOf s x
          rw [hv2, zero_div, sub_zero]
        obtain ⟨hm1, hm2⟩ := hmin rid hvs2 hdcand
        have hv1le : (getRow s b.1).value ≤ 0 := by
          cases he : (getRow s b.1).type with
          | t_eq => exact le_of_eq (hsatb.1 he)
          | t_lt => exact le_of_lt (hsatb.2.1 he)
          | t_le => exact hsatb.2.2 he
        by_cases hpeq : (getRow s b.1).type = IneqType.t_eq
        · exact hsatb.1 hpeq
        · have hpsign : decide (0 < get_coefficient (getRow s b.1) x)
              = decide (0 < coeff) := by
            rcases hbsign with hh | hh
            · exact hh
            · exact absurd hh hpeq
          have hlv' : b.2.1 = valueOf s x
              - (getRow s b.1).value / get_coefficient (getRow s b.1) x := by
            rw [hblv]
            rfl
          rcases lt_trichotomy (get_coefficient (getRow s b.1) x) 0 with hn1 | hz1 | hp1
          · have hipf : decide (0 < coeff) = false := by
              rw [← hpsign]
              exact decide_eq_false (asymm hn1)
            have h5 := hm2 hipf
            rw [hbvrid, hlv'] at h5
            have h6 : (getRow s b.1).value / get_coefficient (getRow s b.1) x ≤ 0 := by
              linarith
            have h7 : 0 ≤ (getRow s b.1).value := by
              have h8 : (0:ℚ) ≤ (-((getRow s b.1).value / get_coefficient (getRow s b.1) x))
                  * (-(get_coefficient (getRow s b.1) x)) :=
                mul_nonneg (by linarith) (by linarith)
              rw [neg_mul_neg, div_mul_cancel₀ _ hbnz] at h8
              exact h8
            linarith
          · exact absurd hz1 hbnz
          · have hipt : decide (0 < coeff) = true := by
              rw [← hpsign]
              exact decide_eq_true hp1
            have h5 := hm1 hipt
            rw [hbvrid, hlv'] at h5
            have h6 : 0 ≤ (getRow s b.1).value / get_coefficient (getRow s b.1) x := by
              linarith
            have h7 : 0 ≤ (getRow s b.1).value := by
              have h8 := mul_nonneg h6 (le_of_lt hp1)
              rw [div_mul_cancel₀ _ hbnz] at h8
              exact h8
            linarith
      · rw [e1, e2 hbnotin]
        intro hss hd0
        by_cases hpeq : (getRow s b.1).type = IneqType.t_eq
        · have hv1 : (getRow s b.1).value = 0 := hsatb.1 hpeq
          have hv2le : (getRow s rid).value ≤ 0 := by
            cases he : (getRow s rid).type with
            | t_eq => exact le_of_eq ((hsat rid hro hals).1 he)
            | t_lt => exact le_of_lt ((hsat rid hro hals).2.1 he)
            | t_le => exact (hsat rid hro hals).2.2 he
          refine ⟨?_, ?_, ?_⟩
          · intro hp
            rw [hv1, zero_div]
            have h1 : 0 ≤ (-(getRow s rid).value) / get_coefficient (getRow s rid) x :=
              div_nonneg (by linarith) (le_of_lt hp)
            rw [neg_div] at h1
            linarith
          · intro hn
            rw [hv1, zero_div]
            have h1 : 0 ≤ (-(getRow s rid).value) / (-(get_coefficient (getRow s rid) x)) :=
              div_nonneg (by linarith) (by linarith)
            rw [neg_div_neg_eq] at h1
            linarith
          · intro hdlt
            have hv2lt : (getRow s rid).value < 0 := (hsat rid hro hals).2.1 hdlt
            rcases lt_trichotomy (get_coefficient (getRow s rid) x) 0 with hn | hz | hp
            · refine Or.inr (Or.inr ⟨hn, ?_⟩)
              rw [hv1, zero_div]
              have h1 : 0 < (-(getRow s rid).value)
                  / (-(get_coefficient (getRow s rid) x)) :=
                div_pos (by linarith) (by linarith)
              rw [neg_div_neg_eq] at h1
              linarith
            · exact absurd hz hd0
            · refine Or.inr (Or.inl ⟨hp, ?_⟩)
              rw [hv1, zero_div]
              have h1 : 0 < (-(getRow s rid).value) / get_coefficient (getRow s rid) x :=
                div_pos (by linarith) hp
              rw [neg_div] at h1
              linarith
        · have hpsign : decide (0 < get_coefficient (getRow s b.1) x)
              = decide (0 < coeff) := by
            rcases hbsign with hh | hh
            · exact hh
            · exact absurd hh hpeq
          have hsigneq : decide (0 < get_coefficient (getRow s rid) x)
              = decide (0 < coeff) := by
            rw [← hpsign]
            apply decide_eq_decide.mpr
            rw [← hbcoef]
            exact hss.symm
          have hdcand : isCand s x (decide (0 < coeff)) rid := ⟨hals, hd0, Or.inl hsigneq⟩
          obtain ⟨hm1, hm2⟩ := hmin rid hvs2 hdcand
          have hlv' : b.2.1 = valueOf s x - (getRow s b.1).value / b.2.2 := by
            rw [hblv, hbcoef]
            rfl
          have hbv2 : bval s x rid = valueOf s x
              - (getRow s rid).value / get_coefficient (getRow s rid) x := rfl
          refine ⟨?_, ?_, ?_⟩
          · intro hp
            have hipt : decide (0 < coeff) = true := by
              rw [← hsigneq]
              exact decide_eq_true hp
            have h5 := hm1 hipt
            rw [hbv2, hlv'] at h5
            linarith
          · intro hn
            have hipf : decide (0 < coeff) = false := by
              rw [← hsigneq]
              exact decide_eq_false (asymm hn)
            have h5 := hm2 hipf
            rw [hbv2, hlv'] at h5
            linarith
          · intro hdlt
            by_cases hplt : (getRow s b.1).type = IneqType.t_lt
            · exact Or.inl hplt
            · have hne : bval s x rid ≠ b.2.1 :=
                fun hh => (htie hplt rid hvs2 hdcand hh) hdlt
              rcases lt_trichotomy (get_coefficient (getRow s rid) x) 0 with hn | hz | hp
              · have hipf : decide (0 < coeff) = false := by
                  rw [← hsigneq]
                  exact decide_eq_false (asymm hn)
                have h5 := hm2 hipf
                have h6 : bval s x rid < b.2.1 := lt_of_le_of_ne h5 hne
                rw [hbv2, hlv'] at h6
                exact Or.inr (Or.inr ⟨hn, by linarith⟩)
              · exact absurd hz hd0
              · have hipt : decide (0 < coeff) = true := by
                  rw [← hsigneq]
                  exact decide_eq_true hp
                have h5 := hm1 hipt
                have h6 : b.2.1 < bval s x rid := lt_of_le_of_ne h5 (fun hh => hne hh.symm)
                rw [hbv2, hlv'] at h6
                exact Or.inr (Or.inl ⟨hp, by linarith⟩)
    · rw [hS2ne rid hmem]
      exact hsat rid hro hals

/-- `update_values` preserves the satisfaction invariant for every live
non-objective row provided all live rows are clean with respect to every
trail variable (guaranteed by the resolution pass of `maximize_step`): the
first loop only rewrites trail rows and trail-variable model entries, and the
second loop recomputes cached values that cannot have changed. -/
theorem update_values_liveSat (bv bt : List Nat) (s : MBO)
    (hvals : ValsOk s) (hrows : RowsOk s)
    (hclean : ∀ y ∈ bv, CleanVar s y)
    (htr : ∀ p ∈ bv.zip bt, p.2 ∈ rowIdsOf s p.1)
    (hsat : LiveSat s) : LiveSat (update_values bv bt s) := by
  rw [update_values_eq]
  intro rid hro halv
  obtain ⟨o1, o2, o3, o4⟩ := uv_outer_shape ((bv.zip bt).reverse)
    (((bv.zip bt).reverse).foldl (fun s p => uv_step s p.1 p.2) s) rid
  obtain ⟨l1, l2, l3, l4⟩ := uv_loop1_shape ((bv.zip bt).reverse) s rid
  have hals : (getRow s rid).alive = true := by
    rw [← l4, ← o4]
    exact halv
  have hsat0 := hsat rid hro hals
  have htype := o3.trans l3
  have hridx : ∀ v : Nat, rowIdsOf (((bv.zip bt).reverse).foldl
      (fun s p => uv_step s p.1 p.2) s) v = rowIdsOf s v := by
    intro v
    unfold rowIdsOf
    rw [uv_loop1_var2row_ids]
  by_cases hcov : ∃ p ∈ (bv.zip bt).reverse,
      rid ∈ rowIdsOf (((bv.zip bt).reverse).foldl (fun s p => uv_step s p.1 p.2) s) p.1
  · have hval1 := uv_outer_good_mem ((bv.zip bt).reverse)
      (((bv.zip bt).reverse).foldl (fun s p => uv_step s p.1 p.2) s) rid hcov
    have hveq : (getRow (((bv.zip bt).reverse).foldl
        (fun s p => (rowIdsOf s p.1).foldl uv_recompute_row s)
        (((bv.zip bt).reverse).foldl (fun s p => uv_step s p.1 p.2) s)) rid).value
        = (getRow s rid).value := by
      rw [hval1]
      unfold get_row_value
      rw [o1.trans l1, o2.trans l2, uv_outer_var2value]
      have hsum : rowSum (((bv.zip bt).reverse).foldl
          (fun s p => uv_step s p.1 p.2) s).var2value (getRow s rid).vars
          = rowSum s.var2value (getRow s rid).vars := by
        apply rowSum_congr
        intro e he
        show valueOf (((bv.zip bt).reverse).foldl (fun s p => uv_step s p.1 p.2) s) e.id
          = valueOf s e.id
        apply uv_loop1_model
        intro p hp hee
        have hin : p.1 ∈ bv := (List.of_mem_zip (List.mem_reverse.1 hp)).1
        have h0 := hclean p.1 hin rid (Or.inl hals)
        have hcl := coeffLookup_mem p.1 (getRow s rid).vars (hrows rid).1 e he hee
        rw [hcl] at h0
        exact (hrows rid).2 e he h0
      rw [hsum]
      exact (hvals rid).symm
    unfold RowSat at hsat0 ⊢
    rw [htype, hveq]
    exact hsat0
  · push_neg at hcov
    have huv2 := uv_outer_untouched ((bv.zip bt).reverse)
      (((bv.zip bt).reverse).foldl (fun s p => uv_step s p.1 p.2) s) rid hcov
    have hnot1 : ∀ p ∈ (bv.zip bt).reverse, rid ≠ p.2 := by
      intro p hp hje
      have hps : p ∈ bv.zip bt := List.mem_reverse.1 hp
      apply hcov p hp
      rw [hridx p.1, hje]
      exact htr p hps
    have huv1 := uv_loop1_untouched ((bv.zip bt).reverse) s rid hnot1
    rw [huv2, huv1]
    exact hsat0

/-- The main loop of `maximize` preserves the row invariant and the
satisfaction invariant whatever result it returns: every iteration goes
through `maximize_step` (which preserves both), and both exits go through
`update_values` (which preserves both under the accumulated trail facts). -/
theorem maximize_loop_sat :
    ∀ (fuel : Nat) (s : MBO) (bv bt : List Nat) (res : InfEps) (s2 : MBO),
      ValsOk s → RowsOk s → Complete s → NoObjIdx s → VarsValid s →
      (∀ y ∈ bv, CleanVar s y) →
      (∀ p ∈ bv.zip bt, p.2 ∈ rowIdsOf s p.1) →
      bv.length = bt.length →
      LiveSat s →
      maximize_loop fuel s bv bt = some (res, s2) →
      RowsOk s2 ∧ ValsOk s2 ∧ LiveSat s2 := by
  intro fuel
  induction fuel with
  | zero => intro s bv bt res s2 _ _ _ _ _ _ _ _ _ h; cases h
  | succ fuel ih =>
    intro s bv bt res s2 hvals hrows hcomp hobj hvv hclean htr hlen hsat h
    have hexit : update_values bv bt s = s2 →
        RowsOk s2 ∧ ValsOk s2 ∧ LiveSat s2 := by
      intro hs2
      rw [← hs2]
      exact ⟨update_values_rowsOk bv bt s hrows,
        update_values_valsOk bv bt s hvals hrows hcomp
          (fun y hy => hclean y hy objective_id (Or.inr rfl)) htr,
        update_values_liveSat bv bt s hvals hrows hclean htr hsat⟩
    rw [maximize_loop] at h
    cases hlast : (getRow s objective_id).vars.getLast? with
    | none =>
      rw [hlast] at h
      have h2 : (if (getRow (update_values bv bt s) objective_id).type = IneqType.t_lt
          then some (InfEps.finite (getRow (update_values bv bt s) objective_id).value (-1),
            update_values bv bt s)
          else some (InfEps.finite (getRow (update_values bv bt s) objective_id).value 0,
            update_values bv bt s)) = some (res, s2) := h
      by_cases ht : (getRow (update_values bv bt s) objective_id).type = IneqType.t_lt
      · rw [if_pos ht] at h2
        exact hexit (congrArg Prod.snd (Option.some.inj h2))
      · rw [if_neg ht] at h2
        exact hexit (congrArg Prod.snd (Option.some.inj h2))
    | some v =>
      rw [hlast] at h
      have h2 : (match maximize_step s v.id v.coeff with
          | some (s4, bri) => maximize_loop fuel s4 (bv ++ [v.id]) (bt ++ [bri])
          | none => some (InfEps.infinity, update_values bv bt s))
          = some (res, s2) := h
      cases hstep : maximize_step s v.id v.coeff with
      | some p =>
        rw [hstep] at h2
        have h3 : maximize_loop fuel p.1 (bv ++ [v.id]) (bt ++ [p.2])
            = some (res, s2) := h2
        have hvx : coeffLookup (getRow s objective_id).vars v.id = v.coeff := by
          have hmem : v ∈ (getRow s objective_id).vars := List.mem_of_mem_getLast? hlast
          exact coeffLookup_mem v.id _ (hrows objective_id).1 v hmem rfl
        obtain ⟨i1, i2, i3, i4, i5, i6, i7, i8, i9⟩ :=
          maximize_step_inv s v.id v.coeff p.1 p.2 bv hvals hrows hcomp hobj hvv hclean
            hvx hstep
        have hsat4 : LiveSat p.1 :=
          maximize_step_liveSat s v.id v.coeff p.1 p.2 hobj hsat hstep
        refine ih p.1 (bv ++ [v.id]) (bt ++ [p.2]) res s2 i1 i2 i3 i4 i5 ?_ ?_ ?_ hsat4 h3
        · intro y hy
          rcases List.mem_append.1 hy with hh | hh
          · exact i6 y hh
          · rw [List.mem_singleton.1 hh]
            exact i7
        · intro p0 hp0
          rw [List.zip_append hlen] at hp0
          rcases List.mem_append.1 hp0 with hh | hh
          · exact i8 p0.1 p0.2 (htr p0 hh)
          · have : p0 = (v.id, p.2) := by
              have := List.mem_singleton.1 (by simpa using hh)
              exact this
            rw [this]
            exact i9
        · simp [hlen]
      | none =>
        rw [hstep] at h2
        exact hexit (congrArg Prod.snd (Option.some.inj h2))

/-- Resolving against a source row with cached value zero and a non-strict
relation (an equality row in particular) changes neither the destination's
value nor its relation, so its satisfaction is preserved. -/
theorem resolve_RowSat_src (bri rid x : Nat) (a1 : ℚ) (t : MBO)
    (hv1 : (getRow t bri).value = 0)
    (hnlt : (getRow t bri).type ≠ IneqType.t_lt)
    (hsat2 : RowSat (getRow t rid)) :
    RowSat (getRow (resolve bri a1 rid x t) rid) := by
  by_cases ha : (getRow t rid).alive = true
  · unfold resolve
    rw [if_pos ha]
    show RowSat (getRow (mul_add
      (decide (rid ≠ objective_id ∧ (0 < a1 ↔ 0 < get_coefficient (getRow t rid) x)))
      rid (-(get_coefficient (getRow t rid) x) / a1) bri t) rid)
    by_cases hc : -(get_coefficient (getRow t rid) x) / a1 = 0
    · rw [hc, mul_add_zero]
      exact hsat2
    · have hlen : rid < t.rows.length := alive_lt_length t rid ha
      rw [mul_add_getRow_self _ rid _ bri t hc hlen]
      have hv : (combineRow
          (decide (rid ≠ objective_id ∧ (0 < a1 ↔ 0 < get_coefficient (getRow t rid) x)))
          (getRow t rid) (-(get_coefficient (getRow t rid) x) / a1) (getRow t bri)).value
          = (getRow t rid).value +
            (-(get_coefficient (getRow t rid) x) / a1) * (getRow t bri).value := rfl
      have ht : (combineRow
          (decide (rid ≠ objective_id ∧ (0 < a1 ↔ 0 < get_coefficient (getRow t rid) x)))
          (getRow t rid) (-(get_coefficient (getRow t rid) x) / a1) (getRow t bri)).type
          = combineType
            (decide (rid ≠ objective_id ∧ (0 < a1 ↔ 0 < get_coefficient (getRow t rid) x)))
            (getRow t rid).type (getRow t bri).type := rfl
      have hty : combineType
          (decide (rid ≠ objective_id ∧ (0 < a1 ↔ 0 < get_coefficient (getRow t rid) x)))
          (getRow t rid).type (getRow t bri).type = (getRow t rid).type :=
        combineType_src_ne_lt _ _ _ hnlt
      refine ⟨?_, ?_, ?_⟩
      · intro he
        rw [ht, hty] at he
        rw [hv, hv1, mul_zero, add_zero]
        exact hsat2.1 he
      · intro he
        rw [ht, hty] at he
        rw [hv, hv1, mul_zero, add_zero]
        exact hsat2.2.1 he
      · intro he
        rw [ht, hty] at he
        rw [hv, hv1, mul_zero, add_zero]
        exact hsat2.2.2 he
  · rw [resolve_of_dead bri a1 rid x t (by simpa using ha)]
    exact hsat2

/-- The deduplicating resolve fold of `solve_for` preserves the source row
and the satisfaction of every live non-source non-objective row. -/
theorem solve_for_fold_liveSat (re x : Nat) (s : MBO) (a : ℚ)
    (hv10 : (getRow s re).value = 0)
    (hnlt : (getRow s re).type ≠ IneqType.t_lt) :
    ∀ (l : List Nat) (acc : MBO × List Nat),
      (∀ rid2 ∈ l, rid2 ≠ objective_id) →
      re ∈ acc.2 →
      getRow acc.1 re = getRow s re →
      (∀ k, k ≠ re → k ≠ objective_id → (getRow acc.1 k).alive = true →
        RowSat (getRow acc.1 k)) →
      getRow (l.foldl (fun acc rid2 => if rid2 ∈ acc.2 then acc
        else (resolve re a rid2 x acc.1, rid2 :: acc.2)) acc).1 re = getRow s re ∧
      (∀ k, k ≠ re → k ≠ objective_id →
        (getRow (l.foldl (fun acc rid2 => if rid2 ∈ acc.2 then acc
          else (resolve re a rid2 x acc.1, rid2 :: acc.2)) acc).1 k).alive = true →
        RowSat (getRow (l.foldl (fun acc rid2 => if rid2 ∈ acc.2 then acc
          else (resolve re a rid2 x acc.1, rid2 :: acc.2)) acc).1 k)) := by
  intro l
  induction l with
  | nil => intro acc _ _ hre hinv; exact ⟨hre, hinv⟩
  | cons rid2 t ih =>
    intro acc hobjl hrev hre hinv
    rw [List.foldl_cons]
    by_cases hm : rid2 ∈ acc.2
    · rw [if_pos hm]
      exact ih acc (fun r hr => hobjl r (List.mem_cons_of_mem _ hr)) hrev hre hinv
    · rw [if_neg hm]
      have hr2re : rid2 ≠ re := fun hh => hm (hh ▸ hrev)
      have hre2 : getRow (resolve re a rid2 x acc.1) re = getRow acc.1 re :=
        resolve_getRow_ne re a rid2 x acc.1 re (fun hh => hr2re hh.symm)
      refine ih (resolve re a rid2 x acc.1, rid2 :: acc.2)
        (fun r hr => hobjl r (List.mem_cons_of_mem _ hr))
        (List.mem_cons_of_mem _ hrev) (hre2.trans hre) ?_
      intro k hkre hkobj halv
      by_cases hk : k = rid2
      · subst hk
        have halv0 : (getRow acc.1 k).alive = true := by
          rw [← resolve_alive re a k x acc.1 k]
          exact halv
        refine resolve_RowSat_src re k x a acc.1 ?_ ?_ (hinv k hkre hkobj halv0)
        · rw [hre]
          exact hv10
        · rw [hre]
          exact hnlt
      · have hne : getRow (resolve re a rid2 x acc.1) k = getRow acc.1 k :=
          resolve_getRow_ne re a rid2 x acc.1 k hk
        rw [hne] at halv ⊢
        exact hinv k hkre hkobj halv

/-- `solve_for` on a live equality row preserves the satisfaction invariant:
every resolved row keeps its value and relation (the equality's cached value
is zero), and the equality row itself is killed. -/
theorem solve_for_liveSat (re x : Nat) (s : MBO)
    (hobj : NoObjIdx s) (hrem : re ∈ rowIdsOf s x) (hre : eqCand s x re)
    (hsat : LiveSat s) :
    LiveSat (solve_for re x s) := by
  obtain ⟨hal, hnz, heq⟩ := hre
  have hreobj : re ≠ objective_id := fun hh => hobj x (hh ▸ hrem)
  have hv10 : (getRow s re).value = 0 := (hsat re hreobj hal).1 heq
  have hnlt : (getRow s re).type ≠ IneqType.t_lt := by
    rw [heq]
    exact fun hh => IneqType.noConfusion hh
  rw [solve_for_unfold]
  obtain ⟨hfr, hfinv⟩ := solve_for_fold_liveSat re x s (get_coefficient (getRow s re) x)
    hv10 hnlt (rowIdsOf s x) (s, [re])
    (fun rid2 hr2 hh => hobj x (hh ▸ hr2))
    (List.mem_cons_self re [])
    rfl
    (fun k _ hkobj halv => hsat k hkobj halv)
  intro rid hro halv
  by_cases hr : rid = re
  · exfalso
    subst hr
    have hflen := solve_for_fold_rows_length rid (get_coefficient (getRow s rid) x) x
      (rowIdsOf s x) (s, [rid])
    rw [getRow_setRow_self _ _ _ (by rw [hflen]; exact alive_lt_length s rid hal)] at halv
    have h2 : (false : Bool) = true := halv
    cases h2
  · rw [getRow_setRow_ne _ _ _ _ (fun hh => hr hh.symm)] at halv ⊢
    exact hfinv rid hr hro halv

/-- When the `project` scan finishes, each representative realizes the
tightest implied bound over its side with the strict-preferred tie-break
(`PMinL` for the upper-bound side, `PMinG` for the lower-bound side). -/
theorem project_loop_min (s : MBO) (x : Nat) (xv : ℚ) :
    ∀ (todo vs lub glb : List Nat) (li gi : Option Nat) (ls gs : Bool) (lv gv : ℚ)
      (lub2 glb2 : List Nat) (li2 gi2 : Option Nat),
      PMinL s x xv lub li ls lv →
      PMinG s x xv glb gi gs gv →
      (li = none → lub = []) →
      (gi = none → glb = []) →
      project_loop s x xv todo vs lub glb li gi ls gs lv gv
        = ScanResult.finished lub2 glb2 li2 gi2 →
      (∃ ls2 lv2, PMinL s x xv lub2 li2 ls2 lv2) ∧
      (∃ gs2 gv2, PMinG s x xv glb2 gi2 gs2 gv2) := by
  intro todo
  induction todo with
  | nil =>
    intro vs lub glb li gi ls gs lv gv lub2 glb2 li2 gi2 hl hg _ _ h
    rw [pl_nil] at h
    injection h with e1 e2 e3 e4
    subst e1
    subst e2
    subst e3
    subst e4
    exact ⟨⟨ls, lv, hl⟩, ⟨gs, gv, hg⟩⟩
  | cons rid rest ih =>
    intro vs lub glb li gi ls gs lv gv lub2 glb2 li2 gi2 hl hg hln hgn h
    by_cases hv : rid ∈ vs
    · rw [pl_visited s x xv rid rest vs lub glb li gi ls gs lv gv hv] at h
      exact ih vs lub glb li gi ls gs lv gv lub2 glb2 li2 gi2 hl hg hln hgn h
    · by_cases ha : (getRow s rid).alive = true
      · by_cases h0 : get_coefficient (getRow s rid) x = 0
        · rw [pl_zero s x xv rid rest vs lub glb li gi ls gs lv gv hv ha h0] at h
          exact ih (rid :: vs) lub glb li gi ls gs lv gv lub2 glb2 li2 gi2 hl hg hln hgn h
        · by_cases he : (getRow s rid).type = IneqType.t_eq
          · rw [pl_eq s x xv rid rest vs lub glb li gi ls gs lv gv hv ha h0 he] at h
            exact ScanResult.noConfusion h
          · by_cases hp : 0 < get_coefficient (getRow s rid) x
            · by_cases h6 : lub = [] ∨
                  xv - (getRow s rid).value / get_coefficient (getRow s rid) x < lv ∨
                  (xv - (getRow s rid).value / get_coefficient (getRow s rid) x = lv ∧
                    (getRow s rid).type = IneqType.t_lt ∧ ls = false)
              · rw [pl_pos_new s x xv rid rest vs lub glb li gi ls gs lv gv
                  hv ha h0 he hp h6] at h
                refine ih (rid :: vs) (lub ++ [rid]) glb (some rid) gi
                  (decide ((getRow s rid).type = IneqType.t_lt)) gs
                  (xv - (getRow s rid).value / get_coefficient (getRow s rid) x) gv
                  lub2 glb2 li2 gi2 ?_ hg (fun hh => Option.noConfusion hh) hgn h
                intro ri hri
                have hrieq : ri = rid := (Option.some.inj hri).symm
                subst hrieq
                refine ⟨rfl, rfl, ?_, ?_⟩
                · intro r hr
                  rcases List.mem_append.1 hr with hr2 | hr2
                  · have hlubne : lub ≠ [] := by
                      intro hh
                      rw [hh] at hr2
                      cases hr2
                    have hli : ∃ ri0, li = some ri0 := by
                      cases hli0 : li with
                      | none => exact absurd (hln hli0) hlubne
                      | some ri0 => exact ⟨ri0, rfl⟩
                    obtain ⟨ri0, hri0⟩ := hli
                    obtain ⟨m1, m2, m3, m4⟩ := hl ri0 hri0
                    have hold := m3 r hr2
                    rcases h6 with h6a | h6b | h6c
                    · exact absurd h6a hlubne
                    · have hle : xv
                          - (getRow s ri).value / get_coefficient (getRow s ri) x
                          ≤ lv := le_of_lt h6b
                      linarith
                    · rw [h6c.1]
                      exact hold
                  · rw [List.mem_singleton.1 hr2]
                    exact le_rfl
                · intro hls r hr hpr
                  rcases List.mem_append.1 hr with hr2 | hr2
                  · rcases h6 with h6a | h6b | h6c
                    · rw [h6a] at hr2
                      cases hr2
                    · exfalso
                      have hlubne : lub ≠ [] := by
                        intro hh
                        rw [hh] at hr2
                        cases hr2
                      have hli : ∃ ri0, li = some ri0 := by
                        cases hli0 : li with
                        | none => exact absurd (hln hli0) hlubne
                        | some ri0 => exact ⟨ri0, rfl⟩
                      obtain ⟨ri0, hri0⟩ := hli
                      obtain ⟨m1, m2, m3, m4⟩ := hl ri0 hri0
                      have hold := m3 r hr2
                      rw [hpr] at hold
                      linarith
                    · exfalso
                      have hdt : decide ((getRow s ri).type = IneqType.t_lt) = true :=
                        decide_eq_true h6c.2.1
                      rw [hls] at hdt
                      cases hdt
                  · rw [List.mem_singleton.1 hr2]
                    exact of_decide_eq_false hls
              · rw [pl_pos_keep s x xv rid rest vs lub glb li gi ls gs lv gv
                  hv ha h0 he hp h6] at h
                have hlubne : lub ≠ [] := fun hh => h6 (Or.inl hh)
                have h6b : lv ≤ xv
                    - (getRow s rid).value / get_coefficient (getRow s rid) x :=
                  not_lt.1 (fun hh => h6 (Or.inr (Or.inl hh)))
                refine ih (rid :: vs) (lub ++ [rid]) glb li gi ls gs lv gv
                  lub2 glb2 li2 gi2 ?_ hg (fun hh => absurd (hln hh) hlubne) hgn h
                intro ri hri
                obtain ⟨m1, m2, m3, m4⟩ := hl ri hri
                refine ⟨m1, m2, ?_, ?_⟩
                · intro r hr
                  rcases List.mem_append.1 hr with hr2 | hr2
                  · exact m3 r hr2
                  · rw [List.mem_singleton.1 hr2]
                    exact h6b
                · intro hls r hr hpr
                  rcases List.mem_append.1 hr with hr2 | hr2
                  · exact m4 hls r hr2 hpr
                  · rw [List.mem_singleton.1 hr2] at hpr ⊢
                    intro hlt
                    exact h6 (Or.inr (Or.inr ⟨hpr, hlt, hls⟩))
            · by_cases h6 : glb = [] ∨
                  gv < xv - (getRow s rid).value / get_coefficient (getRow s rid) x ∨
                  (xv - (getRow s rid).value / get_coefficient (getRow s rid) x = gv ∧
                    (getRow s rid).type = IneqType.t_lt ∧ gs = false)
              · rw [pl_neg_new s x xv rid rest vs lub glb li gi ls gs lv gv
                  hv ha h0 he hp h6] at h
                refine ih (rid :: vs) lub (glb ++ [rid]) li (some rid)
                  ls (decide ((getRow s rid).type = IneqType.t_lt))
                  lv (xv - (getRow s rid).value / get_coefficient (getRow s rid) x)
                  lub2 glb2 li2 gi2 hl ?_ hln (fun hh => Option.noConfusion hh) h
                intro ri hri
                have hrieq : ri = rid := (Option.some.inj hri).symm
                subst hrieq
                refine ⟨rfl, rfl, ?_, ?_⟩
                · intro r hr
                  rcases List.mem_append.1 hr with hr2 | hr2
                  · have hglbne : glb ≠ [] := by
                      intro hh
                      rw [hh] at hr2
                      cases hr2
                    have hgi : ∃ ri0, gi = some ri0 := by
                      cases hgi0 : gi with
                      | none => exact absurd (hgn hgi0) hglbne
                      | some ri0 => exact ⟨ri0, rfl⟩
                    obtain ⟨ri0, hri0⟩ := hgi
                    obtain ⟨m1, m2, m3, m4⟩ := hg ri0 hri0
                    have hold := m3 r hr2
                    rcases h6 with h6a | h6b | h6c
                    · exact absurd h6a hglbne
                    · have hle : gv ≤ xv
                          - (getRow s ri).value / get_coefficient (getRow s ri) x :=
                        le_of_lt h6b
                      linarith
                    · rw [h6c.1]
                      exact hold
                  · rw [List.mem_singleton.1 hr2]
                    exact le_rfl
                · intro hls r hr hpr
                  rcases List.mem_append.1 hr with hr2 | hr2
                  · rcases h6 with h6a | h6b | h6c
                    · rw [h6a] at hr2
                      cases hr2
                    · exfalso
                      have hglbne : glb ≠ [] := by
                        intro hh
                        rw [hh] at hr2
                        cases hr2
                      have hgi : ∃ ri0, gi = some ri0 := by
                        cases hgi0 : gi with
                        | none => exact absurd (hgn hgi0) hglbne
                        | some ri0 => exact ⟨ri0, rfl⟩
                      obtain ⟨ri0, hri0⟩ := hgi
                      obtain ⟨m1, m2, m3, m4⟩ := hg ri0 hri0
                      have hold := m3 r hr2
                      rw [hpr] at hold
                      linarith
                    · exfalso
                      have hdt : decide ((getRow s ri).type = IneqType.t_lt) = true :=
                        decide_eq_true h6c.2.1
                      rw [hls] at hdt
                      cases hdt
                  · rw [List.mem_singleton.1 hr2]
                    exact of_decide_eq_false hls
              · rw [pl_neg_keep s x xv rid rest vs lub glb li gi ls gs lv gv
                  hv ha h0 he hp h6] at h
                have hglbne : glb ≠ [] := fun hh => h6 (Or.inl hh)
                have h6b : xv - (getRow s rid).value / get_coefficient (getRow s rid) x
                    ≤ gv :=
                  not_lt.1 (fun hh => h6 (Or.inr (Or.inl hh)))
                refine ih (rid :: vs) lub (glb ++ [rid]) li gi ls gs lv gv
                  lub2 glb2 li2 gi2 hl ?_ hln (fun hh => absurd (hgn hh) hglbne) h
                intro ri hri
                obtain ⟨m1, m2, m3, m4⟩ := hg ri hri
                refine ⟨m1, m2, ?_, ?_⟩
                · intro r hr
                  rcases List.mem_append.1 hr with hr2 | hr2
                  · exact m3 r hr2
                  · rw [List.mem_singleton.1 hr2]
                    exact h6b
                · intro hls r hr hpr
                  rcases List.mem_append.1 hr with hr2 | hr2
                  · exact m4 hls r hr2 hpr
                  · rw [List.mem_singleton.1 hr2] at hpr ⊢
                    intro hlt
                    exact h6 (Or.inr (Or.inr ⟨hpr, hlt, hls⟩))
      · rw [pl_dead s x xv rid rest vs lub glb li gi ls gs lv gv hv
          (by simpa using ha)] at h
        exact ih (rid :: vs) lub glb li gi ls gs lv gv lub2 glb2 li2 gi2 hl hg hln hgn h

/-- `project` preserves the satisfaction invariant: the equality branch
resolves against a zero-valued equality, the pivot branch resolves every
candidate row against the side-tightest representative (safe on the shared
side by minimality and the tie-break, and unconditionally on the opposite
side), and the no-pivot branch only kills rows. -/
theorem project_liveSat (x : Nat) (s : MBO) (hobj : NoObjIdx s) (hsat : LiveSat s) :
    LiveSat (project x s) := by
  rcases project_loop_inv s x (valueOf s x) (rowIdsOf s x) [] [] [] none none false false 0 0
      (PLInv_init s x) with
    ⟨re, heq, hec, hrem⟩ | ⟨vs2, lub2, glb2, li2, gi2, heq, hiff, hinv2⟩
  · rw [project_eq_eqRow x s re heq]
    exact solve_for_liveSat re x s hobj hrem hec hsat
  · obtain ⟨h1, h2, h3, h4, h5, h6, h7, h8, h9⟩ := hinv2
    obtain ⟨⟨ls2, lv2, hpl⟩, ⟨gs2, gv2, hpg⟩⟩ :=
      project_loop_min s x (valueOf s x) (rowIdsOf s x) [] [] [] none none false false 0 0
        lub2 glb2 li2 gi2 (fun ri hri => Option.noConfusion hri)
        (fun ri hri => Option.noConfusion hri) (fun _ => rfl) (fun _ => rfl) heq
    have hvsidx : ∀ r, r ∈ vs2 → r ∈ rowIdsOf s x := by
      intro r hr
      rcases (hiff r).1 hr with hh | hh
      · cases hh
      · exact hh
    have hnobj2 : ∀ r, r ∈ glb2 ++ lub2 → r ≠ objective_id := by
      intro r hr hh
      rcases List.mem_append.1 hr with h2m | h2m
      · exact hobj x (hh ▸ hvsidx r ((h2 r).1 h2m).1)
      · exact hobj x (hh ▸ hvsidx r ((h1 r).1 h2m).1)
    cases hri : (if lub2.length ≤ glb2.length then li2 else gi2) with
    | none =>
      rw [project_eq_finished_none x s lub2 glb2 li2 gi2 heq hri]
      intro rid hro halv
      by_cases hmem : rid ∈ glb2 ++ lub2
      · exfalso
        rw [foldl_kill_dead (glb2 ++ lub2) s rid hmem] at halv
        cases halv
      · rw [foldl_kill_getRow_not_mem (glb2 ++ lub2) s rid hmem] at halv ⊢
        exact hsat rid hro halv
    | some ri =>
      rw [project_eq_finished_some x s lub2 glb2 li2 gi2 ri heq hri]
      have hrimem : ri ∈ glb2 ++ lub2 := by
        by_cases hl : lub2.length ≤ glb2.length
        · rw [if_pos hl] at hri
          exact List.mem_append_right _ (h6 ri hri)
        · rw [if_neg hl] at hri
          exact List.mem_append_left _ (h8 ri hri)
      have hria : (getRow s ri).alive = true := by
        rcases List.mem_append.1 hrimem with hg | hlm
        · exact ((h2 ri).1 hg).2.1
        · exact ((h1 ri).1 hlm).2.1
      have hrico : get_coefficient (getRow s ri) x ≠ 0 := by
        rcases List.mem_append.1 hrimem with hg | hlm
        · exact ne_of_lt ((h2 ri).1 hg).2.2.1
        · exact ne_of_gt ((h1 ri).1 hlm).2.2.1
      have hrinobj : ri ≠ objective_id := hnobj2 ri hrimem
      have hsatri : RowSat (getRow s ri) := hsat ri hrinobj hria
      have hnd : (glb2 ++ lub2).Nodup := by
        refine List.Nodup.append h5 h4 ?_
        intro a hag hal
        exact absurd ((h1 a).1 hal).2.2.1 (asymm ((h2 a).1 hag).2.2.1)
      have hFlen := foldl_presolve_rows_length ri (get_coefficient (getRow s ri) x) x
        (glb2 ++ lub2) s
      intro rid hro halv
      have hrb : rid ≠ ri := by
        intro hh
        rw [hh] at halv
        rw [getRow_setRow_self _ _ _ (by rw [hFlen]; exact alive_lt_length s ri hria)]
          at halv
        have h2f : (false : Bool) = true := halv
        cases h2f
      rw [getRow_setRow_ne _ _ _ _ (fun hh => hrb hh.symm)] at halv ⊢
      by_cases hmem : rid ∈ glb2 ++ lub2
      · obtain ⟨t, e1, e2, e3⟩ := foldl_presolve_resolved ri
          (get_coefficient (getRow s ri) x) x (glb2 ++ lub2) s rid hnd hmem hrb
        rw [e3]
        have hdstAlive : (getRow s rid).alive = true := by
          rcases List.mem_append.1 hmem with hg | hlm
          · exact ((h2 rid).1 hg).2.1
          · exact ((h1 rid).1 hlm).2.1
        have hdstNe : (getRow s rid).type ≠ IneqType.t_eq := by
          rcases List.mem_append.1 hmem with hg | hlm
          · exact ((h2 rid).1 hg).2.2.2
          · exact ((h1 rid).1 hlm).2.2.2
        refine resolve_RowSat ri rid x (get_coefficient (getRow s ri) x) t ?_ hrico ?_ ?_
          hro ?_ ?_
        · rw [e2]
        · rw [e2]
          exact hsatri
        · rw [e1]
          exact hsat rid hro hdstAlive
        · rw [e1]
          intro hdeq _
          exact absurd hdeq hdstNe
        · rw [e1, e2]
          intro hss hd0
          by_cases hl : lub2.length ≤ glb2.length
          · rw [if_pos hl] at hri
            obtain ⟨m1, m2, m3, m4⟩ := hpl ri hri
            have hrilub : ri ∈ lub2 := h6 ri hri
            have hpos : 0 < get_coefficient (getRow s ri) x := ((h1 ri).1 hrilub).2.2.1
            have ha2pos : 0 < get_coefficient (getRow s rid) x := hss.1 hpos
            have hdlub : rid ∈ lub2 := by
              rcases List.mem_append.1 hmem with hg | hlm
              · exact absurd ha2pos (asymm ((h2 rid).1 hg).2.2.1)
              · exact hlm
            have hmin := m3 rid hdlub
            rw [m1] at hmin
            have hmin' : valueOf s x
                - (getRow s ri).value / get_coefficient (getRow s ri) x
                ≤ valueOf s x
                - (getRow s rid).value / get_coefficient (getRow s rid) x := hmin
            refine ⟨?_, ?_, ?_⟩
            · intro _
              linarith
            · intro hn
              exact absurd ha2pos (asymm hn)
            · intro hdlt
              by_cases hplt : (getRow s ri).type = IneqType.t_lt
              · exact Or.inl hplt
              · have hls2 : ls2 = false := by
                  rw [m2]
                  exact decide_eq_false hplt
                have hne : pbound s x (valueOf s x) rid ≠ lv2 :=
                  fun hh => (m4 hls2 rid hdlub hh) hdlt
                have hstrict : lv2 < pbound s x (valueOf s x) rid :=
                  lt_of_le_of_ne (m3 rid hdlub) (fun hh => hne hh.symm)
                rw [m1] at hstrict
                have hstrict' : valueOf s x
                    - (getRow s ri).value / get_coefficient (getRow s ri) x
                    < valueOf s x
                    - (getRow s rid).value / get_coefficient (getRow s rid) x := hstrict
                exact Or.inr (Or.inl ⟨ha2pos, by linarith⟩)
          · rw [if_neg hl] at hri
            obtain ⟨m1, m2, m3, m4⟩ := hpg ri hri
            have hriglb : ri ∈ glb2 := h8 ri hri
            have hneg : get_coefficient (getRow s ri) x < 0 := ((h2 ri).1 hriglb).2.2.1
            have ha2neg : get_coefficient (getRow s rid) x < 0 :=
              lt_of_le_of_ne (not_lt.1 (fun hp2 => absurd (hss.2 hp2) (asymm hneg))) hd0
            have hdglb : rid ∈ glb2 := by
              rcases List.mem_append.1 hmem with hg | hlm
              · exact hg
              · exact absurd ((h1 rid).1 hlm).2.2.1 (asymm ha2neg)
            have hmin := m3 rid hdglb
            rw [m1] at hmin
            have hmin' : valueOf s x
                - (getRow s rid).value / get_coefficient (getRow s rid) x
                ≤ valueOf s x
                - (getRow s ri).value / get_coefficient (getRow s ri) x := hmin
            refine ⟨?_, ?_, ?_⟩
            · intro hp2
              exact absurd hp2 (asymm ha2neg)
            · intro _
              linarith
            · intro hdlt
              by_cases hplt : (getRow s ri).type = IneqType.t_lt
              · exact Or.inl hplt
              · have hgs2 : gs2 = false := by
                  rw [m2]
                  exact decide_eq_false hplt
                have hne : pbound s x (valueOf s x) rid ≠ gv2 :=
                  fun hh => (m4 hgs2 rid hdglb hh) hdlt
                have hstrict : pbound s x (valueOf s x) rid < gv2 :=
                  lt_of_le_of_ne (m3 rid hdglb) hne
                rw [m1] at hstrict
                have hstrict' : valueOf s x
                    - (getRow s rid).value / get_coefficient (getRow s rid) x
                    < valueOf s x
                    - (getRow s ri).value / get_coefficient (getRow s ri) x := hstrict
                exact Or.inr (Or.inr ⟨ha2neg, by linarith⟩)
      · rw [foldl_presolve_getRow_not_mem ri (get_coefficient (getRow s ri) x) x
          (glb2 ++ lub2) s rid hmem] at halv ⊢
        exact hsat rid hro halv

theorem liveSat_of_fin (s : MBO)
    (h : ∀ rid, rid < s.rows.length → rid ≠ objective_id →
      (getRow s rid).alive = true → RowSat (getRow s rid)) : LiveSat s := by
  intro rid hro hal
  by_cases hr : rid < s.rows.length
  · exact h rid hr hro hal
  · rw [getRow_oob s rid (Nat.le_of_not_lt hr)] at hal
    have hd : (default : Row).alive = false := rfl
    rw [hd] at hal
    cases hal

theorem foldl_kill_rowsOk :
    ∀ (l : List Nat) (s : MBO), RowsOk s →
      RowsOk (l.foldl (fun s rid => setRow s rid { getRow s rid with alive := false }) s) := by
  intro l
  induction l with
  | nil => intro s h; exact h
  | cons rid t ih =>
    intro s h
    rw [List.foldl_cons]
    exact ih _ (kill_rowsOk s rid h)

theorem foldl_kill_valsOk :
    ∀ (l : List Nat) (s : MBO), ValsOk s →
      ValsOk (l.foldl (fun s rid => setRow s rid { getRow s rid with alive := false }) s) := by
  intro l
  induction l with
  | nil => intro s h; exact h
  | cons rid t ih =>
    intro s h
    rw [List.foldl_cons]
    exact ih _ (kill_valsOk s rid h)

theorem foldl_presolve_rowsOk (ri : Nat) (c : ℚ) (x : Nat) :
    ∀ (l : List Nat) (s : MBO), RowsOk s →
      RowsOk (l.foldl (fun s2 rid => if rid = ri then s2 else resolve ri c rid x s2) s) := by
  intro l
  induction l with
  | nil => intro s h; exact h
  | cons rid t ih =>
    intro s h
    rw [List.foldl_cons]
    by_cases hr : rid = ri
    · simp only [if_pos hr]
      exact ih s h
    · simp only [if_neg hr]
      exact ih _ (resolve_rowsOk ri c rid x s h)

theorem foldl_presolve_valsOk (ri : Nat) (c : ℚ) (x : Nat) :
    ∀ (l : List Nat) (s : MBO), ValsOk s →
      ValsOk (l.foldl (fun s2 rid => if rid = ri then s2 else resolve ri c rid x s2) s) := by
  intro l
  induction l with
  | nil => intro s h; exact h
  | cons rid t ih =>
    intro s h
    rw [List.foldl_cons]
    by_cases hr : rid = ri
    · simp only [if_pos hr]
      exact ih s h
    · simp only [if_neg hr]
      exact ih _ (resolve_valsOk ri c rid x s h)

theorem solve_for_fold_rowsOk_valsOk (re : Nat) (a : ℚ) (x : Nat) :
    ∀ (l : List Nat) (acc : MBO × List Nat), RowsOk acc.1 → ValsOk acc.1 →
      RowsOk (l.foldl (fun acc rid2 => if rid2 ∈ acc.2 then acc
        else (resolve re a rid2 x acc.1, rid2 :: acc.2)) acc).1 ∧
      ValsOk (l.foldl (fun acc rid2 => if rid2 ∈ acc.2 then acc
        else (resolve re a rid2 x acc.1, rid2 :: acc.2)) acc).1 := by
  intro l
  induction l with
  | nil => intro acc h1 h2; exact ⟨h1, h2⟩
  | cons rid2 t ih =>
    intro acc h1 h2
    rw [List.foldl_cons]
    by_cases hm : rid2 ∈ acc.2
    · rw [if_pos hm]
      exact ih acc h1 h2
    · rw [if_neg hm]
      exact ih (resolve re a rid2 x acc.1, rid2 :: acc.2)
        (resolve_rowsOk re a rid2 x acc.1 h1) (resolve_valsOk re a rid2 x acc.1 h2)

theorem solve_for_rowsOk_valsOk (re x : Nat) (s : MBO)
    (hrows : RowsOk s) (hvals : ValsOk s) :
    RowsOk (solve_for re x s) ∧ ValsOk (solve_for re x s) := by
  rw [solve_for_unfold]
  obtain ⟨h1, h2⟩ := solve_for_fold_rowsOk_valsOk re (get_coefficient (getRow s re) x) x
    (rowIdsOf s x) (s, [re]) hrows hvals
  exact ⟨kill_rowsOk _ re h1, kill_valsOk _ re h2⟩

/-- `project` preserves the structural and cached-value parts of the row
invariant on every branch. -/
theorem project_rowsOk_valsOk (x : Nat) (s : MBO)
    (hrows : RowsOk s) (hvals : ValsOk s) :
    RowsOk (project x s) ∧ ValsOk (project x s) := by
  cases hscan : project_loop s x (valueOf s x) (rowIdsOf s x) [] [] [] none none
      false false 0 0 with
  | eqRow rid =>
    rw [project_eq_eqRow x s rid hscan]
    exact solve_for_rowsOk_valsOk rid x s hrows hvals
  | finished lub2 glb2 li2 gi2 =>
    cases hri : (if lub2.length ≤ glb2.length then li2 else gi2) with
    | none =>
      rw [project_eq_finished_none x s lub2 glb2 li2 gi2 hscan hri]
      exact ⟨foldl_kill_rowsOk (glb2 ++ lub2) s hrows,
        foldl_kill_valsOk (glb2 ++ lub2) s hvals⟩
    | some ri =>
      rw [project_eq_finished_some x s lub2 glb2 li2 gi2 ri hscan hri]
      exact ⟨kill_rowsOk _ ri (foldl_presolve_rowsOk ri (get_coefficient (getRow s ri) x) x
          (glb2 ++ lub2) s hrows),
        kill_valsOk _ ri (foldl_presolve_valsOk ri (get_coefficient (getRow s ri) x) x
          (glb2 ++ lub2) s hvals)⟩

/-- C2 (amended): the public operations preserve the row invariant (cached
value = constant + dot product, strictly sorted variable lists, no zero
coefficients) and the satisfaction invariant of live non-objective rows —
but only under the caller contracts the source asserts rather than checks:
`add_var` on a state referencing only existing variables; `add_constraint`
only when the supplied coefficients are sorted and non-zero and the new
constraint is satisfied by the current model (the operation itself performs
no check, so an unsatisfied or zero-coefficient constraint breaks the
invariants); `set_objective` under `set_row`'s fresh-objective contract;
`maximize` (whatever it returns) and `project` under the structural state
invariants. -/
theorem claim_C2 :
    (∀ (q : ℚ) (s : MBO),
      (∀ rid, ∀ e ∈ (getRow s rid).vars, e.id < s.var2value.length) →
      ValsOk s → RowsOk s → LiveSat s →
      ValsOk (add_var q s).1 ∧ RowsOk (add_var q s).1 ∧ LiveSat (add_var q s).1) ∧
    (∀ (coeffs : List LinVar) (c : ℚ) (rel : IneqType) (s : MBO),
      SortedVars coeffs → NonzeroVars coeffs →
      ValsOk s → RowsOk s → LiveSat s →
      RowSat ⟨coeffs, c, rel, c + rowSum s.var2value coeffs, true⟩ →
      ValsOk (add_constraint coeffs c rel s) ∧ RowsOk (add_constraint coeffs c rel s) ∧
        LiveSat (add_constraint coeffs c rel s)) ∧
    (∀ (coeffs : List LinVar) (c : ℚ) (s : MBO),
      SortedVars coeffs → NonzeroVars coeffs →
      (getRow s objective_id).vars = [] → objective_id < s.rows.length →
      ValsOk s → RowsOk s → LiveSat s →
      ValsOk (set_objective coeffs c s) ∧ RowsOk (set_objective coeffs c s) ∧
        LiveSat (set_objective coeffs c s)) ∧
    (∀ (fuel : Nat) (s : MBO) (res : InfEps) (s2 : MBO),
      ValsOk s → RowsOk s → Complete s → NoObjIdx s → VarsValid s → LiveSat s →
      maximize fuel s = some (res, s2) →
      RowsOk s2 ∧ ValsOk s2 ∧ LiveSat s2) ∧
    (∀ (x : Nat) (s : MBO), RowsOk s → ValsOk s → NoObjIdx s → LiveSat s →
      RowsOk (project x s) ∧ ValsOk (project x s) ∧ LiveSat (project x s)) := by
  refine ⟨?_, ?_, ?_, ?_, ?_⟩
  · intro q s hids hvals hrows hsat
    exact add_var_inv q s hids hvals hrows hsat
  · intro coeffs c rel s hs hnz hvals hrows hsat hsatnew
    exact add_constraint_inv coeffs c rel s hs hnz hvals hrows hsat hsatnew
  · intro coeffs c s hs hnz hfresh hlen hvals hrows hsat
    exact set_objective_inv coeffs c s hs hnz hfresh hlen hvals hrows hsat
  · intro fuel s res s2 hvals hrows hcomp hobj hvv hsat h
    exact maximize_loop_sat fuel s [] [] res s2 hvals hrows hcomp hobj hvv
      (fun y hy => absurd hy (List.not_mem_nil y))
      (fun p hp => absurd hp (List.not_mem_nil p)) rfl hsat h
  · intro x s hrows hvals hobj hsat
    obtain ⟨p1, p2⟩ := project_rowsOk_valsOk x s hrows hvals
    exact ⟨p1, p2, project_liveSat x s hobj hsat⟩

/-- Witness for C2 at concrete states: each public operation applied to a
tableau satisfying its contract keeps the row and satisfaction
invariants. -/
theorem claim_C2_witness :
    (ValsOk (add_var 1 wC2pre).1 ∧ RowsOk (add_var 1 wC2pre).1 ∧
      LiveSat (add_var 1 wC2pre).1) ∧
    (ValsOk (add_constraint [⟨0, 1⟩] (-1) IneqType.t_le wC2pre) ∧
      RowsOk (add_constraint [⟨0, 1⟩] (-1) IneqType.t_le wC2pre) ∧
      LiveSat (add_constraint [⟨0, 1⟩] (-1) IneqType.t_le wC2pre)) ∧
    (ValsOk (set_objective [⟨0, 1⟩] 0 wC2pre) ∧
      RowsOk (set_objective [⟨0, 1⟩] 0 wC2pre) ∧
      LiveSat (set_objective [⟨0, 1⟩] 0 wC2pre)) ∧
    (RowsOk wC3 ∧ ValsOk wC3 ∧ LiveSat wC3) ∧
    (RowsOk (project 0 wC5) ∧ ValsOk (project 0 wC5) ∧ LiveSat (project 0 wC5)) := by
  have hvnil : ∀ rid, (getRow wC2pre rid).vars = [] := by
    intro rid
    by_cases h : rid < wC2pre.rows.length
    · have hlen1 : wC2pre.rows.length = 1 := rfl
      have h0 : rid = 0 := by omega
      rw [h0]
      with_unfolding_all decide
    · rw [getRow_oob wC2pre rid (Nat.le_of_not_lt h)]
      rfl
  have hids : ∀ rid, ∀ e ∈ (getRow wC2pre rid).vars, e.id < wC2pre.var2value.length := by
    intro rid e he
    rw [hvnil rid] at he
    cases he
  have hvals2 : ValsOk wC2pre := valsOk_of_fin wC2pre (by with_unfolding_all decide)
  have hrows2 : RowsOk wC2pre := rowsOk_of_fin wC2pre (by with_unfolding_all decide)
  have hsat2 : LiveSat wC2pre := liveSat_of_fin wC2pre (by with_unfolding_all decide)
  have hvals3 : ValsOk wC3 := valsOk_of_fin wC3 (by with_unfolding_all decide)
  have hrows3 : RowsOk wC3 := rowsOk_of_fin wC3 (by with_unfolding_all decide)
  have hcomp3 : Complete wC3 := complete_of_fin wC3 (by with_unfolding_all decide)
  have hobj3 : NoObjIdx wC3 := noObjIdx_of_fin wC3 (by with_unfolding_all decide)
  have hvv3 : VarsValid wC3 := varsValid_of_fin wC3 (by with_unfolding_all decide)
  have hsat3 : LiveSat wC3 := liveSat_of_fin wC3 (by with_unfolding_all decide)
  have hrows5 : RowsOk wC5 := rowsOk_of_fin wC5 (by with_unfolding_all decide)
  have hvals5 : ValsOk wC5 := valsOk_of_fin wC5 (by with_unfolding_all decide)
  have hobj5 : NoObjIdx wC5 := noObjIdx_of_fin wC5 (by with_unfolding_all decide)
  have hsat5 : LiveSat wC5 := liveSat_of_fin wC5 (by with_unfolding_all decide)
  exact ⟨claim_C2.1 1 wC2pre hids hvals2 hrows2 hsat2,
    claim_C2.2.1 [⟨0, 1⟩] (-1) IneqType.t_le wC2pre (by with_unfolding_all decide)
      (by with_unfolding_all decide) hvals2 hrows2 hsat2 (by with_unfolding_all decide),
    claim_C2.2.2.1 [⟨0, 1⟩] 0 wC2pre (by with_unfolding_all decide)
      (by with_unfolding_all decide) (by with_unfolding_all decide)
      (by with_unfolding_all decide) hvals2 hrows2 hsat2,
    claim_C2.2.2.2.1 2 wC3 InfEps.infinity wC3 hvals3 hrows3 hcomp3 hobj3 hvv3 hsat3
      (by with_unfolding_all decide),
    claim_C2.2.2.2.2 0 wC5 hrows5 hvals5 hobj5 hsat5⟩

/-- Counterexample to C2 as stated: `add_constraint` performs no check, so
on a state satisfying every invariant, adding the unsatisfied constraint
`x0 <= -1` (at model `x0 = 0`) produces a live row with positive cached
value (satisfaction broken), and adding a constraint with a zero coefficient
stores that zero coefficient (row invariant broken). -/
theorem claim_C2_counterexample :
    ValsOk wC2pre ∧ RowsOk wC2pre ∧ LiveSat wC2pre ∧
    (getRow (add_constraint [⟨0, 1⟩] 1 IneqType.t_le wC2pre) 1).alive = true ∧
    ¬RowSat (getRow (add_constraint [⟨0, 1⟩] 1 IneqType.t_le wC2pre) 1) ∧
    (getRow (add_constraint [⟨0, 0⟩] 0 IneqType.t_le wC2pre) 1).alive = true ∧
    ¬NonzeroVars (getRow (add_constraint [⟨0, 0⟩] 0 IneqType.t_le wC2pre) 1).vars :=
  ⟨valsOk_of_fin wC2pre (by with_unfolding_all decide),
    rowsOk_of_fin wC2pre (by with_unfolding_all decide),
    liveSat_of_fin wC2pre (by with_unfolding_all decide),
    by with_unfolding_all decide, by with_unfolding_all decide,
    by with_unfolding_all decide, by with_unfolding_all decide⟩

end opt
